import Mathlib

/-!
Verification of the DoxyVB6 pipeline (VB6 declaration parser, C# generator).

The development shallowly embeds the two conversion modules of the
repository:

* `conv_vb6.py` — a line-oriented parser built from Python regular
  expressions (`re.match` / `re.findall`) plus a per-line state machine,
  producing a `CodeElement` tree;
* `conv_csharp.py` — a tree walker emitting C# declaration lines;
* `codeconv.py` — the element model shared by both.

Python's backtracking regex engine is embedded as a small executable
matcher (`Rex.pymatches`) over an abstract syntax of the exact regular
expressions appearing in the source, with Python semantics: leftmost
match, greedy quantifiers with backtracking, ordered alternation,
numbered capture groups (last capture wins, non-participating groups
absent), optional case-insensitive matching (`re.I`), and `$` accepting
the position before a final newline.  `re.findall` is embedded by
`Rex.findall`.  Python exceptions (IndexError on `args_list[0]` /
`arguments[0]`, the TypeError from unpacking the `None` that
`_get_accessibility` returns on an unrecognized keyword, the generator's
`NotImplementedError`, `CannotGenerateException` and `KeyError`) are
embedded as `Except` error values.

Mutation of the Python element tree is embedded by functional update:
the parser state keeps the class element under construction, the active
block scanner together with the index of the focused child (the element
`target_elem` points at in the source), and the index of the element
`lastProperty` points at; writing through those aliases becomes updating
the child list at the recorded index.
-/

namespace Rex

/-- Abstract syntax of the regular-expression fragment used by the
source: literal characters, character classes, `.`, concatenation,
ordered alternation, greedy `*` and `?`, numbered capture groups and the
end anchor `$`. `+` is encoded as `seq r (star r)` below. -/
inductive RE where
  | eps : RE
  | anyc : RE
  | ch : Char → RE
  | cls : (Char → Bool) → RE
  | seq : RE → RE → RE
  | alt : RE → RE → RE
  | star : RE → RE
  | opt : RE → RE
  | group : Nat → RE → RE
  | eos : RE

/-- Capture environment: group number paired with the captured
characters; the most recent capture of a group stands first. -/
abbrev Caps := List (Nat × List Char)

def setCap (caps : Caps) (i : Nat) (v : List Char) : Caps := (i, v) :: caps

def getCap (caps : Caps) (i : Nat) : Option (List Char) :=
  (caps.find? (fun p => p.1 == i)).map (fun p => p.2)

/-- Case folding of a single pattern character against an input
character; under `re.I` both sides are lowered. -/
def ciChar (ci : Bool) (c d : Char) : Bool :=
  if ci then c.toLower == d.toLower else c == d

/-- Class membership under optional `re.I`: Python also tries the
case-swapped input character against the class. -/
def evalCls (ci : Bool) (p : Char → Bool) (d : Char) : Bool :=
  p d || (ci && (p d.toLower || p d.toUpper))


/-- Structural size of a pattern, used to compute sufficient fuel. -/
def RE.size : RE → Nat
  | .eps => 1
  | .anyc => 1
  | .ch _ => 1
  | .cls _ => 1
  | .seq a b => a.size + b.size + 1
  | .alt a b => a.size + b.size + 1
  | .star a => a.size + 1
  | .opt a => a.size + 1
  | .group _ a => a.size + 1
  | .eos => 1

theorem RE.size_pos : ∀ r : RE, 1 ≤ r.size := by
  intro r
  cases r <;> simp [RE.size] <;> omega

/-- All ways the pattern can match a prefix of `s`, in Python's
backtracking preference order (head = the match `re` would return).
Each result is the capture environment together with the unconsumed
suffix.  Recursion is structural on the `fuel` argument so that the
kernel can evaluate the function; `needFuel` below computes an always
sufficient amount.  A `star` body is only iterated again when it
consumed at least one character (Python stops a quantifier on an empty
body match). -/
def matchesF (ci : Bool) : Nat → RE → List Char → Caps → List (Caps × List Char)
  | 0, _, _, _ => []
  | _ + 1, .eps, s, caps => [(caps, s)]
  | _ + 1, .anyc, [], _ => []
  | _ + 1, .anyc, d :: s, caps => if d = '\n' then [] else [(caps, s)]
  | _ + 1, .ch _, [], _ => []
  | _ + 1, .ch c, d :: s, caps => if ciChar ci c d then [(caps, s)] else []
  | _ + 1, .cls _, [], _ => []
  | _ + 1, .cls p, d :: s, caps => if evalCls ci p d then [(caps, s)] else []
  | f + 1, .seq a b, s, caps =>
      (matchesF ci f a s caps).flatMap (fun q => matchesF ci f b q.2 q.1)
  | f + 1, .alt a b, s, caps =>
      matchesF ci f a s caps ++ matchesF ci f b s caps
  | f + 1, .star a, s, caps =>
      ((matchesF ci f a s caps).flatMap (fun q =>
        if q.2.length < s.length then matchesF ci f (.star a) q.2 q.1 else [])) ++
      [(caps, s)]
  | f + 1, .opt a, s, caps => matchesF ci f a s caps ++ [(caps, s)]
  | f + 1, .group i a, s, caps =>
      (matchesF ci f a s caps).map
        (fun q => (setCap q.1 i (s.take (s.length - q.2.length)), q.2))
  | _ + 1, .eos, s, caps => if s = [] ∨ s = ['\n'] then [(caps, s)] else []

/-- Every result suffix is no longer than the input. -/
theorem matchesF_length_le (ci : Bool) :
    ∀ (f : Nat) (r : RE) (s : List Char) (caps : Caps),
      ∀ q ∈ matchesF ci f r s caps, q.2.length ≤ s.length
  | 0, _, _, _ => by simp [matchesF]
  | _ + 1, .eps, s, caps => by simp [matchesF]
  | _ + 1, .anyc, [], caps => by simp [matchesF]
  | _ + 1, .anyc, d :: s, caps => by
      intro q hq
      simp only [matchesF] at hq
      split at hq <;> simp_all <;> omega
  | _ + 1, .ch c, [], caps => by simp [matchesF]
  | _ + 1, .ch c, d :: s, caps => by
      intro q hq
      simp only [matchesF] at hq
      split at hq <;> simp_all <;> omega
  | _ + 1, .cls p, [], caps => by simp [matchesF]
  | _ + 1, .cls p, d :: s, caps => by
      intro q hq
      simp only [matchesF] at hq
      split at hq <;> simp_all <;> omega
  | f + 1, .seq a b, s, caps => by
      intro q hq
      simp only [matchesF, List.mem_flatMap] at hq
      obtain ⟨q1, hq1, hq2⟩ := hq
      exact le_trans (matchesF_length_le ci f b q1.2 q1.1 q hq2)
        (matchesF_length_le ci f a s caps q1 hq1)
  | f + 1, .alt a b, s, caps => by
      intro q hq
      simp only [matchesF, List.mem_append] at hq
      rcases hq with h | h
      · exact matchesF_length_le ci f a s caps q h
      · exact matchesF_length_le ci f b s caps q h
  | f + 1, .star a, s, caps => by
      intro q hq
      simp only [matchesF, List.mem_append, List.mem_flatMap] at hq
      rcases hq with ⟨q1, hq1, hq2⟩ | h
      · by_cases hlt : q1.2.length < s.length
        · rw [if_pos hlt] at hq2
          exact le_trans (matchesF_length_le ci f (.star a) q1.2 q1.1 q hq2)
            (le_of_lt hlt)
        · rw [if_neg hlt] at hq2
          exact absurd hq2 (List.not_mem_nil q)
      · rw [List.mem_singleton] at h
        subst h
        exact le_refl _
  | f + 1, .opt a, s, caps => by
      intro q hq
      simp only [matchesF, List.mem_append] at hq
      rcases hq with h | h
      · exact matchesF_length_le ci f a s caps q h
      · rw [List.mem_singleton] at h
        subst h
        exact le_refl _
  | f + 1, .group i a, s, caps => by
      intro q hq
      simp only [matchesF, List.mem_map] at hq
      obtain ⟨q1, hq1, hq2⟩ := hq
      have h := matchesF_length_le ci f a s caps q1 hq1
      subst hq2
      simpa using h
  | _ + 1, .eos, s, caps => by
      intro q hq
      simp only [matchesF] at hq
      split at hq
      · rw [List.mem_singleton] at hq
        subst hq
        exact le_refl _
      · exact absurd hq (List.not_mem_nil q)

theorem flatMap_congr_mem {α β : Type} :
    ∀ (l : List α) (f1 f2 : α → List β), (∀ a ∈ l, f1 a = f2 a) →
      l.flatMap f1 = l.flatMap f2
  | [], _, _, _ => rfl
  | a :: l, f1, f2, h => by
      simp only [List.flatMap_cons]
      rw [h a (List.mem_cons_self a l),
        flatMap_congr_mem l f1 f2 (fun x hx => h x (List.mem_cons_of_mem a hx))]

/-- Sufficient fuel for matching `r` against a string of length `n`. -/
def needFuel (r : RE) (n : Nat) : Nat := r.size * (n + 1)

theorem needFuel_pos (r : RE) (n : Nat) : 1 ≤ needFuel r n := by
  have h := RE.size_pos r
  unfold needFuel
  nlinarith

theorem needFuel_mono (r : RE) {m n : Nat} (h : m ≤ n) :
    needFuel r m ≤ needFuel r n := by
  unfold needFuel
  exact Nat.mul_le_mul_left _ (by omega)

/-- With at least `needFuel` fuel, the result no longer depends on the
fuel amount. -/
theorem matchesF_fuel (ci : Bool) :
    ∀ (f g : Nat) (r : RE) (s : List Char) (caps : Caps),
      needFuel r s.length ≤ f → needFuel r s.length ≤ g →
      matchesF ci f r s caps = matchesF ci g r s caps
  | 0, g, r, s, caps, hf, _ => by
      have := needFuel_pos r s.length
      omega
  | f + 1, 0, r, s, caps, _, hg => by
      have := needFuel_pos r s.length
      omega
  | f + 1, g + 1, .eps, s, caps, _, _ => by simp [matchesF]
  | f + 1, g + 1, .anyc, s, caps, _, _ => by cases s <;> simp [matchesF]
  | f + 1, g + 1, .ch c, s, caps, _, _ => by cases s <;> simp [matchesF]
  | f + 1, g + 1, .cls p, s, caps, _, _ => by cases s <;> simp [matchesF]
  | f + 1, g + 1, .eos, s, caps, _, _ => by simp [matchesF]
  | f + 1, g + 1, .seq a b, s, caps, hf, hg => by
      have hsz : a.size + b.size + 1 = RE.size (.seq a b) := rfl
      have ha : needFuel a s.length ≤ f ∧ needFuel a s.length ≤ g := by
        unfold needFuel at hf hg ⊢
        rw [← hsz] at hf hg
        constructor <;> nlinarith
      simp only [matchesF]
      rw [matchesF_fuel ci f g a s caps ha.1 ha.2]
      apply flatMap_congr_mem
      intro q hq
      have hb := matchesF_length_le ci g a s caps q hq
      have h1 : needFuel b q.2.length ≤ f := by
        have := needFuel_mono b hb
        unfold needFuel at hf this ⊢
        rw [← hsz] at hf
        nlinarith
      have h2 : needFuel b q.2.length ≤ g := by
        have := needFuel_mono b hb
        unfold needFuel at hg this ⊢
        rw [← hsz] at hg
        nlinarith
      exact matchesF_fuel ci f g b q.2 q.1 h1 h2
  | f + 1, g + 1, .alt a b, s, caps, hf, hg => by
      have hsz : a.size + b.size + 1 = RE.size (.alt a b) := rfl
      have ha : needFuel a s.length ≤ f ∧ needFuel a s.length ≤ g := by
        unfold needFuel at hf hg ⊢
        rw [← hsz] at hf hg
        constructor <;> nlinarith
      have hb : needFuel b s.length ≤ f ∧ needFuel b s.length ≤ g := by
        unfold needFuel at hf hg ⊢
        rw [← hsz] at hf hg
        constructor <;> nlinarith
      simp only [matchesF]
      rw [matchesF_fuel ci f g a s caps ha.1 ha.2,
        matchesF_fuel ci f g b s caps hb.1 hb.2]
  | f + 1, g + 1, .star a, s, caps, hf, hg => by
      have hsz : a.size + 1 = RE.size (.star a) := rfl
      have ha : needFuel a s.length ≤ f ∧ needFuel a s.length ≤ g := by
        unfold needFuel at hf hg ⊢
        rw [← hsz] at hf hg
        constructor <;> nlinarith
      simp only [matchesF]
      rw [matchesF_fuel ci f g a s caps ha.1 ha.2]
      congr 1
      apply flatMap_congr_mem
      intro q hq
      by_cases hlt : q.2.length < s.length
      · rw [if_pos hlt, if_pos hlt]
        have h1 : needFuel (.star a) q.2.length ≤ f := by
          unfold needFuel at hf ⊢
          rw [← hsz] at hf ⊢
          nlinarith
        have h2 : needFuel (.star a) q.2.length ≤ g := by
          unfold needFuel at hg ⊢
          rw [← hsz] at hg ⊢
          nlinarith
        exact matchesF_fuel ci f g (.star a) q.2 q.1 h1 h2
      · rw [if_neg hlt, if_neg hlt]
  | f + 1, g + 1, .opt a, s, caps, hf, hg => by
      have hsz : a.size + 1 = RE.size (.opt a) := rfl
      have ha : needFuel a s.length ≤ f ∧ needFuel a s.length ≤ g := by
        unfold needFuel at hf hg ⊢
        rw [← hsz] at hf hg
        constructor <;> nlinarith
      simp only [matchesF]
      rw [matchesF_fuel ci f g a s caps ha.1 ha.2]
  | f + 1, g + 1, .group i a, s, caps, hf, hg => by
      have hsz : a.size + 1 = RE.size (.group i a) := rfl
      have ha : needFuel a s.length ≤ f ∧ needFuel a s.length ≤ g := by
        unfold needFuel at hf hg ⊢
        rw [← hsz] at hf hg
        constructor <;> nlinarith
      simp only [matchesF]
      rw [matchesF_fuel ci f g a s caps ha.1 ha.2]
  termination_by f g => f + g

/-- Python's matcher: all anchored matches of `r` against a prefix of
`s`, in backtracking preference order. -/
def pymatches (ci : Bool) (r : RE) (s : List Char) (caps : Caps) :
    List (Caps × List Char) :=
  matchesF ci (needFuel r s.length) r s caps

theorem pymatches_length_le (ci : Bool) (r : RE) (s : List Char) (caps : Caps) :
    ∀ q ∈ pymatches ci r s caps, q.2.length ≤ s.length :=
  matchesF_length_le ci (needFuel r s.length) r s caps

theorem pymatches_eq_matchesF (ci : Bool) (r : RE) (s : List Char) (caps : Caps)
    (f : Nat) (hf : needFuel r s.length ≤ f) :
    pymatches ci r s caps = matchesF ci f r s caps :=
  matchesF_fuel ci (needFuel r s.length) f r s caps (le_refl _) hf

theorem matchesF_succ_size (ci : Bool) (r : RE) (s : List Char) (caps : Caps) :
    pymatches ci r s caps = matchesF ci (needFuel r s.length + 1) r s caps :=
  pymatches_eq_matchesF ci r s caps _ (Nat.le_succ _)

@[simp] theorem pymatches_eps (ci : Bool) (s : List Char) (caps : Caps) :
    pymatches ci .eps s caps = [(caps, s)] := by
  rw [matchesF_succ_size]
  simp [matchesF]

@[simp] theorem pymatches_anyc_nil (ci : Bool) (caps : Caps) :
    pymatches ci .anyc [] caps = [] := by
  rw [matchesF_succ_size]
  simp [matchesF]

@[simp] theorem pymatches_anyc_cons (ci : Bool) (d : Char) (s : List Char)
    (caps : Caps) :
    pymatches ci .anyc (d :: s) caps =
      if d = '\n' then [] else [(caps, s)] := by
  rw [matchesF_succ_size]
  simp [matchesF]

@[simp] theorem pymatches_ch_nil (ci : Bool) (c : Char) (caps : Caps) :
    pymatches ci (.ch c) [] caps = [] := by
  rw [matchesF_succ_size]
  simp [matchesF]

@[simp] theorem pymatches_ch_cons (ci : Bool) (c d : Char) (s : List Char)
    (caps : Caps) :
    pymatches ci (.ch c) (d :: s) caps =
      if ciChar ci c d then [(caps, s)] else [] := by
  rw [matchesF_succ_size]
  simp [matchesF]

@[simp] theorem pymatches_cls_nil (ci : Bool) (p : Char → Bool) (caps : Caps) :
    pymatches ci (.cls p) [] caps = [] := by
  rw [matchesF_succ_size]
  simp [matchesF]

@[simp] theorem pymatches_cls_cons (ci : Bool) (p : Char → Bool) (d : Char)
    (s : List Char) (caps : Caps) :
    pymatches ci (.cls p) (d :: s) caps =
      if evalCls ci p d then [(caps, s)] else [] := by
  rw [matchesF_succ_size]
  simp [matchesF]

@[simp] theorem pymatches_seq (ci : Bool) (a b : RE) (s : List Char)
    (caps : Caps) :
    pymatches ci (.seq a b) s caps =
      (pymatches ci a s caps).flatMap (fun q => pymatches ci b q.2 q.1) := by
  rw [matchesF_succ_size]
  simp only [matchesF]
  have hsz : RE.size (.seq a b) = a.size + b.size + 1 := rfl
  have ha : needFuel a s.length ≤ needFuel (.seq a b) s.length := by
    unfold needFuel
    rw [hsz]
    nlinarith
  rw [← pymatches_eq_matchesF ci a s caps _ ha]
  apply flatMap_congr_mem
  intro q hq
  have hb := pymatches_length_le ci a s caps q hq
  have h1 : needFuel b q.2.length ≤ needFuel (.seq a b) s.length := by
    have := needFuel_mono b hb
    unfold needFuel at this ⊢
    rw [hsz]
    nlinarith
  rw [← pymatches_eq_matchesF ci b q.2 q.1 _ h1]

@[simp] theorem pymatches_alt (ci : Bool) (a b : RE) (s : List Char)
    (caps : Caps) :
    pymatches ci (.alt a b) s caps =
      pymatches ci a s caps ++ pymatches ci b s caps := by
  rw [matchesF_succ_size]
  simp only [matchesF]
  have hsz : RE.size (.alt a b) = a.size + b.size + 1 := rfl
  have ha : needFuel a s.length ≤ needFuel (.alt a b) s.length := by
    unfold needFuel
    rw [hsz]
    nlinarith
  have hb : needFuel b s.length ≤ needFuel (.alt a b) s.length := by
    unfold needFuel
    rw [hsz]
    nlinarith
  rw [← pymatches_eq_matchesF ci a s caps _ ha,
    ← pymatches_eq_matchesF ci b s caps _ hb]

theorem pymatches_star (ci : Bool) (a : RE) (s : List Char) (caps : Caps) :
    pymatches ci (.star a) s caps =
      ((pymatches ci a s caps).flatMap (fun q =>
        if q.2.length < s.length then pymatches ci (.star a) q.2 q.1
        else [])) ++
      [(caps, s)] := by
  have hsz : RE.size (.star a) = a.size + 1 := rfl
  obtain ⟨N, hN⟩ : ∃ N, N = needFuel (.star a) s.length := ⟨_, rfl⟩
  have step : pymatches ci (.star a) s caps =
      ((matchesF ci N a s caps).flatMap (fun q =>
        if q.2.length < s.length then matchesF ci N (.star a) q.2 q.1
        else [])) ++ [(caps, s)] := by
    rw [pymatches_eq_matchesF ci (.star a) s caps (N + 1) (by omega)]
    rfl
  rw [step]
  have ha : needFuel a s.length ≤ N := by
    rw [hN]
    unfold needFuel
    rw [hsz]
    nlinarith
  rw [← pymatches_eq_matchesF ci a s caps _ ha]
  congr 1
  apply flatMap_congr_mem
  intro q hq
  by_cases hlt : q.2.length < s.length
  · rw [if_pos hlt, if_pos hlt]
    have h1 : needFuel (.star a) q.2.length ≤ N := by
      rw [hN]
      unfold needFuel
      nlinarith
    rw [← pymatches_eq_matchesF ci (.star a) q.2 q.1 _ h1]
  · rw [if_neg hlt, if_neg hlt]

@[simp] theorem pymatches_opt (ci : Bool) (a : RE) (s : List Char)
    (caps : Caps) :
    pymatches ci (.opt a) s caps = pymatches ci a s caps ++ [(caps, s)] := by
  rw [matchesF_succ_size]
  simp only [matchesF]
  have ha : needFuel a s.length ≤ needFuel (.opt a) s.length := by
    unfold needFuel
    have : RE.size (.opt a) = a.size + 1 := rfl
    rw [this]
    nlinarith
  rw [← pymatches_eq_matchesF ci a s caps _ ha]

@[simp] theorem pymatches_group (ci : Bool) (i : Nat) (a : RE) (s : List Char)
    (caps : Caps) :
    pymatches ci (.group i a) s caps =
      (pymatches ci a s caps).map
        (fun q => (setCap q.1 i (s.take (s.length - q.2.length)), q.2)) := by
  rw [matchesF_succ_size]
  simp only [matchesF]
  have ha : needFuel a s.length ≤ needFuel (.group i a) s.length := by
    unfold needFuel
    have : RE.size (.group i a) = a.size + 1 := rfl
    rw [this]
    nlinarith
  rw [← pymatches_eq_matchesF ci a s caps _ ha]

@[simp] theorem pymatches_eos (ci : Bool) (s : List Char) (caps : Caps) :
    pymatches ci .eos s caps =
      if s = [] ∨ s = ['\n'] then [(caps, s)] else [] := by
  rw [matchesF_succ_size]
  simp [matchesF]

/-- Embedding of `pattern.match(s)`: the first (preferred) anchored
match, as Python's backtracking engine returns it. -/
def reMatch (ci : Bool) (r : RE) (s : List Char) : Option (Caps × List Char) :=
  (pymatches ci r s []).head?

/-- Embedding of `pattern.findall(s)`: repeatedly search for the next
match; a match consuming no characters still advances the scan position
by one.  Structural fuel again; `s.length + 1` is always enough. -/
def findallF (ci : Bool) (r : RE) : Nat → List Char → List Caps
  | 0, _ => []
  | _ + 1, [] =>
      match (pymatches ci r [] []).head? with
      | some q => [q.1]
      | none => []
  | f + 1, c :: s1 =>
      match (pymatches ci r (c :: s1) []).head? with
      | none => findallF ci r f s1
      | some q =>
          q.1 ::
            (if q.2.length < s1.length + 1 then findallF ci r f q.2
             else findallF ci r f s1)

theorem findallF_fuel (ci : Bool) (r : RE) :
    ∀ (f g : Nat) (s : List Char), s.length < f → s.length < g →
      findallF ci r f s = findallF ci r g s
  | 0, g, s, hf, hg => by omega
  | f + 1, 0, s, hf, hg => by omega
  | f + 1, g + 1, [], _, _ => by simp [findallF]
  | f + 1, g + 1, c :: s1, hf, hg => by
      cases hh : (pymatches ci r (c :: s1) []).head? with
      | none =>
          simp only [findallF, hh]
          exact findallF_fuel ci r f g s1 (by simpa using hf) (by simpa using hg)
      | some q =>
          simp only [findallF, hh]
          by_cases hlt : q.2.length < s1.length + 1
          · rw [if_pos hlt, if_pos hlt]
            rw [findallF_fuel ci r f g q.2 (by simp at hf; omega)
              (by simp at hg; omega)]
          · rw [if_neg hlt, if_neg hlt]
            rw [findallF_fuel ci r f g s1 (by simpa using hf)
              (by simpa using hg)]
  termination_by f g => f + g

/-- `pattern.findall(s)`: the capture environments of the successive
non-overlapping matches. -/
def findall (ci : Bool) (r : RE) (s : List Char) : List Caps :=
  findallF ci r (s.length + 1) s

@[simp] theorem findall_nil (ci : Bool) (r : RE) :
    findall ci r [] =
      match (pymatches ci r [] []).head? with
      | some q => [q.1]
      | none => [] := rfl

theorem findall_cons (ci : Bool) (r : RE) (c : Char) (s1 : List Char) :
    findall ci r (c :: s1) =
      match (pymatches ci r (c :: s1) []).head? with
      | none => findall ci r s1
      | some q =>
          q.1 ::
            (if q.2.length < s1.length + 1 then findall ci r q.2
             else findall ci r s1) := by
  cases hh : (pymatches ci r (c :: s1) []).head? with
  | none => simp only [findall, List.length_cons, findallF, hh]
  | some q =>
      simp only [findall, List.length_cons, findallF, hh]
      by_cases hlt : q.2.length < s1.length + 1
      · rw [if_pos hlt, if_pos hlt]
        rw [findallF_fuel ci r (s1.length + 1) (q.2.length + 1) q.2
          (by omega) (by omega)]
      · rw [if_neg hlt, if_neg hlt]

end Rex

namespace Py

/-- Python whitespace (`\s`, `str.strip`) for the ASCII range used by
the source. -/
def isSpace (c : Char) : Bool :=
  c == ' ' || c == '\t' || c == '\n' || c == '\r' || c == '\x0b' || c == '\x0c'

def stripChars (l : List Char) : List Char :=
  ((l.dropWhile isSpace).reverse.dropWhile isSpace).reverse

/-- `str.strip()`. -/
def strip (s : String) : String := String.mk (stripChars s.data)

/-- `str.lower()`. -/
def lower (s : String) : String := String.mk (s.data.map Char.toLower)

/-- `str.endswith(suffix)` (list-based so that the kernel can evaluate
it). -/
def endswith (s suffix : String) : Bool := suffix.data.isSuffixOf s.data

/-- `str.startswith(prefix)`. -/
def startswith (s pfx : String) : Bool := pfx.data.isPrefixOf s.data

/-- `s[:-n]` for `n ≤ len(s)` (and `""` when the string is shorter). -/
def dropRight (s : String) (n : Nat) : String :=
  String.mk (s.data.take (s.data.length - n))

end Py

namespace Vb6Rx

open Rex

/-- The apostrophe character (VB6 comment marker). -/
def apos : Char := Char.ofNat 39

/-- `\w`. -/
def wordChar (c : Char) : Bool := c.isAlphanum || c == '_'

/-- `[\w.]`. -/
def wordDotChar (c : Char) : Bool := wordChar c || c == '.'

def rlits (w : String) : RE := w.data.foldr (fun c r => RE.seq (RE.ch c) r) RE.eps

def rseq (l : List RE) : RE := l.foldr RE.seq RE.eps

def ralt : List RE → RE
  | [] => RE.eps
  | [r] => r
  | r :: rest => RE.alt r (ralt rest)

def rplus (r : RE) : RE := RE.seq r (RE.star r)

def ws : RE := RE.cls Py.isSpace

def wsStar : RE := RE.star ws

def wsPlus : RE := rplus ws

/-- A keyword followed by `\s+`. -/
def kwWs (w : String) : RE := RE.seq (rlits w) wsPlus

/-- `_ACCESS_LEVEL_RE = r"(Grobal\s+|Public\s+|Friend\s+|Private\s+|Static\s+)"`
(the source spells "Grobal"); the group number depends on the enclosing
pattern. -/
def accessLevelRE (g : Nat) : RE :=
  RE.group g (ralt [kwWs "Grobal", kwWs "Public", kwWs "Friend",
    kwWs "Private", kwWs "Static"])

/-- `_VAL_KIND_RE = r"(Const\s+)"`. -/
def valKindRE (g : Nat) : RE := RE.group g (kwWs "Const")

/-- `_ELEM_NAME_RE = r"(\w+)"`. -/
def nameRE (g : Nat) : RE := RE.group g (rplus (RE.cls wordChar))

/-- `_VAL_NAME_RE = r"(\w+)(\([^\)]*\))?"`. -/
def valNameRE (g1 g2 : Nat) : RE :=
  RE.seq (nameRE g1)
    (RE.opt (RE.group g2
      (rseq [RE.ch '(', RE.star (RE.cls (fun c => c != ')')), RE.ch ')'])))

/-- `_VAL_TYPE_RE = r"(?:\s+As\s+([\w.]+))?"`. -/
def valTypeRE (g : Nat) : RE :=
  RE.opt (rseq [wsPlus, rlits "As", wsPlus,
    RE.group g (rplus (RE.cls wordDotChar))])

/-- `_MVAL_TYPE_RE = r"(?:\s+As\s+(?:New\s+)?([\w.]+))?"`. -/
def mvalTypeRE (g : Nat) : RE :=
  RE.opt (rseq [wsPlus, rlits "As", wsPlus, RE.opt (kwWs "New"),
    RE.group g (rplus (RE.cls wordDotChar))])

/-- `_RET_TYPE_RE = r"(?:\s*As\s+([\w.]+)(\(\))?)?"`. -/
def retTypeRE (g1 g2 : Nat) : RE :=
  RE.opt (rseq [wsStar, rlits "As", wsPlus,
    RE.group g1 (rplus (RE.cls wordDotChar)),
    RE.opt (RE.group g2 (RE.seq (RE.ch '(') (RE.ch ')')))])

/-- `_STRLIT_RE = r'"(?:[^"]|"")*"'`. -/
def strLitRE : RE :=
  rseq [RE.ch '"',
    RE.star (RE.alt (RE.cls (fun c => c != '"'))
      (RE.seq (RE.ch '"') (RE.ch '"'))),
    RE.ch '"']

/-- `_DATELIT_RE = r"\#[^#]*\#"`. -/
def dateLitRE : RE :=
  rseq [RE.ch '#', RE.star (RE.cls (fun c => c != '#')), RE.ch '#']

/-- `_BOOLLIT_RE = r"(?:True|False)"`. -/
def boolLitRE : RE := RE.alt (rlits "True") (rlits "False")

def signChar (c : Char) : Bool := c == '+' || c == '-'

def expChar (c : Char) : Bool := c == 'E' || c == 'D'

def hexChar (c : Char) : Bool := c.isDigit || ('A' ≤ c && c ≤ 'F')

def octChar (c : Char) : Bool := '0' ≤ c && c ≤ '7'

def binChar (c : Char) : Bool := c == '0' || c == '1'

def litSuffixChar (c : Char) : Bool :=
  c == '!' || c == '#' || c == '@' || c == '%' || c == '&'

/-- `_NUMLIT_RE`: optional sign, then decimal (with optional fraction
and exponent) or `&H`/`&O`/`&B` radix form, then an optional type
suffix character. -/
def numLitRE : RE :=
  rseq [RE.opt (RE.cls signChar),
    ralt [
      rseq [rplus (RE.cls Char.isDigit),
        RE.opt (RE.seq (RE.ch '.') (rplus (RE.cls Char.isDigit))),
        RE.opt (rseq [RE.cls expChar, RE.opt (RE.cls signChar),
          rplus (RE.cls Char.isDigit)])],
      rseq [RE.ch '&', RE.ch 'H', rplus (RE.cls hexChar)],
      rseq [RE.ch '&', RE.ch 'O', rplus (RE.cls octChar)],
      rseq [RE.ch '&', RE.ch 'B', rplus (RE.cls binChar)]],
    RE.opt (RE.cls litSuffixChar)]

/-- `_LIT_RE = f"(?:{_STRLIT_RE}|{_DATELIT_RE}|{_BOOLLIT_RE}|{_NUMLIT_RE})"`. -/
def litRE : RE := ralt [strLitRE, dateLitRE, boolLitRE, numLitRE]

def argsChar (c : Char) : Bool :=
  wordChar c || Py.isSpace c || c == '=' || c == ',' || c == '+' ||
    c == '-' || c == '*' || c == '/' || c == '.'

/-- `_ARGS_RE = r"\s*\(((?:" + _STRLIT_RE + r"|\(\)|[\w\s=,\+\-\*/\.])*)\)"`. -/
def argsRE (g : Nat) : RE :=
  rseq [wsStar, RE.ch '(',
    RE.group g (RE.star (ralt [strLitRE, RE.seq (RE.ch '(') (RE.ch ')'),
      RE.cls argsChar])),
    RE.ch ')']

/-- `_VAL_VALUE_RE = r"(?:\s*=\s*(" + _LIT_RE + r"))?"`. -/
def valValueRE (g : Nat) : RE :=
  RE.opt (rseq [wsStar, RE.ch '=', wsStar, RE.group g litRE])

/-- `_VAL_RE` (pattern of `_re_values`), groups 1-8. -/
def reValues : RE :=
  rseq [wsStar,
    ralt [RE.alt (accessLevelRE 1) (valKindRE 2),
      RE.seq (accessLevelRE 3) (valKindRE 4),
      kwWs "Dim"],
    valNameRE 5 6, mvalTypeRE 7, valValueRE 8, wsStar, RE.eos]

/-- `_TELEM_RE` (pattern of `_re_type`), groups 1-2. -/
def reType : RE :=
  rseq [wsStar, RE.opt (accessLevelRE 1), kwWs "Type", nameRE 2, wsStar,
    RE.eos]

/-- `_EELEM_RE` (pattern of `_re_enum`), groups 1-2. -/
def reEnum : RE :=
  rseq [wsStar, RE.opt (accessLevelRE 1), kwWs "Enum", nameRE 2, wsStar,
    RE.eos]

/-- `_FELEM_RE` (pattern of `_re_function`), groups 1-5. -/
def reFunction : RE :=
  rseq [wsStar, RE.opt (accessLevelRE 1), kwWs "Function", nameRE 2,
    argsRE 3, retTypeRE 4 5, wsStar, RE.eos]

/-- `_SELEM_RE` (pattern of `_re_sub`), groups 1-3. -/
def reSub : RE :=
  rseq [wsStar, RE.opt (accessLevelRE 1), kwWs "Sub", nameRE 2, argsRE 3,
    wsStar, RE.eos]

/-- `_PGELEM_RE` (pattern of `_re_prop_get`), groups 1-4. -/
def rePropGet : RE :=
  rseq [wsStar, RE.opt (accessLevelRE 1), kwWs "Property", kwWs "Get",
    nameRE 2, wsStar, RE.ch '(', wsStar, RE.ch ')', wsStar, retTypeRE 3 4,
    wsStar, RE.eos]

/-- `_PSELEM_RE` (pattern of `_re_prop_set`), groups 1-4. -/
def rePropSet : RE :=
  rseq [wsStar, RE.opt (accessLevelRE 1), rlits "Property", wsPlus,
    RE.group 2 (RE.alt (rlits "Set") (rlits "Let")), wsPlus,
    nameRE 3, argsRE 4, wsStar, RE.eos]

/-- `_ARG_RE` (pattern of `_re_arg`), groups 1-7. -/
def reArg : RE :=
  rseq [wsStar,
    RE.opt (RE.group 1 (kwWs "Optional")),
    RE.opt (RE.group 2 (RE.alt (kwWs "ByVal") (kwWs "ByRef"))),
    RE.opt (RE.group 3 (kwWs "ParamArray")),
    valNameRE 4 5,
    valTypeRE 6,
    RE.opt (rseq [wsStar, RE.ch '=', wsStar,
      RE.group 7 (RE.alt strLitRE (rplus (RE.cls (fun c => c != ',' && c != ')'))))]),
    RE.opt (RE.ch ',')]

/-- `_re_doxy = re.compile(r"^\s*'\*(.*)$")` (case sensitive). -/
def reDoxy : RE :=
  rseq [wsStar, RE.ch apos, RE.ch '*', RE.group 1 (RE.star RE.anyc), RE.eos]

/-- `_re_doxy_class = re.compile(r"^\s*'!(.*)$")` (case sensitive). -/
def reDoxyClass : RE :=
  rseq [wsStar, RE.ch apos, RE.ch '!', RE.group 1 (RE.star RE.anyc), RE.eos]

/-- `_re_comments = re.compile(r"((?:\"(?:[^\"]|\"\")*\"|[^\"'])*)'.*")`
(case sensitive). -/
def reComments : RE :=
  rseq [RE.group 1 (RE.star (RE.alt strLitRE
      (RE.cls (fun c => c != '"' && c != apos)))),
    RE.ch apos, RE.star RE.anyc]

/-- `_re_vb_name = re.compile(r"\s*Attribute\s+VB_Name\s+=\s+\"(\w+)\"", re.I)`. -/
def reVbName : RE :=
  rseq [wsStar, rlits "Attribute", wsPlus, rlits "VB_Name", wsPlus,
    RE.ch '=', wsPlus, RE.ch '"', nameRE 1, RE.ch '"']

/-- `_re_tag = re.compile(r"^\s*'#\s*(Interface)\s*$")` (case sensitive). -/
def reTag : RE :=
  rseq [wsStar, RE.ch apos, RE.ch '#', wsStar,
    RE.group 1 (rlits "Interface"), wsStar, RE.eos]

/-- `_re_impl = re.compile(r"^\s*Implements\s+(\w+)\s*$")` (case
sensitive). -/
def reImpl : RE :=
  rseq [wsStar, rlits "Implements", wsPlus, nameRE 1, wsStar, RE.eos]

/-- `_re_enum_mem = re.compile(r"^\s*(\w+)(?:\s*=\s*(\w+))?\s*$", re.I)`. -/
def reEnumMem : RE :=
  rseq [wsStar, nameRE 1,
    RE.opt (rseq [wsStar, RE.ch '=', wsStar, nameRE 2]), wsStar, RE.eos]

/-- `_re_end_function = re.compile(r"End\s+Function", re.I)` and the
analogous block terminators. -/
def reEndFunction : RE := rseq [rlits "End", wsPlus, rlits "Function"]

def reEndSub : RE := rseq [rlits "End", wsPlus, rlits "Sub"]

def reEndType : RE := rseq [rlits "End", wsPlus, rlits "Type"]

def reEndEnum : RE := rseq [rlits "End", wsPlus, rlits "Enum"]

def reEndProperty : RE := rseq [rlits "End", wsPlus, rlits "Property"]

/-- `pattern.match(s)` on a Lean `String`, yielding the capture
environment of the preferred match (`None` when no match). -/
def reMatchS (ci : Bool) (r : RE) (s : String) : Option Rex.Caps :=
  (Rex.reMatch ci r s.data).map (fun q => q.1)

/-- `match.group(i)`: `None` when the group did not participate. -/
def mgrp (caps : Rex.Caps) (i : Nat) : Option String :=
  (Rex.getCap caps i).map (fun l => String.mk l)

/-- Group access with Python `findall`'s convention: a non-participating
group reads as the empty string. -/
def mgrpD (caps : Rex.Caps) (i : Nat) : String := (mgrp caps i).getD ""

/-- `pattern.findall(s)` on a Lean `String`. -/
def findallS (ci : Bool) (r : RE) (s : String) : List Rex.Caps :=
  Rex.findall ci r s.data

end Vb6Rx

/-! ## Element model (`codeconv.py`) -/

/-- `CodeElementType`. -/
inductive CodeElementType where
  | OTHER
  | VAR
  | CONST
  | FUNC
  | STRUCT
  | DOC_COMMENT_LINE
  | DOC_COMMENT_MULTI
  | CLASS
  | INTERFACE
  | ENUM
  | NAME_SPACE
  | PROPERTY
deriving DecidableEq, Repr

/-- `CodeElementAccessibility`. -/
inductive CodeElementAccessibility where
  | UNDEF
  | PUBLIC
  | PROTECTED
  | INTERNAL
  | PRIVATE
deriving DecidableEq, Repr

/-- `CodeElementArgument`; field order and defaults follow the Python
initializer (`is_reference=False, is_optional=False, is_vlargs=False,
is_kwargs=False, default_value="default", is_str=False`). -/
structure CodeElementArgument where
  name : String
  type : String
  is_reference : Bool
  is_optional : Bool
  is_vlargs : Bool
  is_kwargs : Bool
  default_value : String
  is_str : Bool
deriving DecidableEq, Repr

/-- `CodeElement`.  The parent back-reference of the source is not
stored: the parser below realizes `target_elem.parent` by its explicit
scope state, and nothing else reads it.  `others` is the open `kwargs`
mapping (used only for `implements`, `extends` and `using` lists). -/
inductive CodeElement where
  | mk
      (name : String)
      (elem_type : CodeElementType)
      (return_type : String)
      (is_static : Bool)
      (accessibility : CodeElementAccessibility)
      (value : String)
      (is_str : Bool)
      (others : List (String × List String))
      (arguments : List CodeElementArgument)
      (childs : List CodeElement)

def CodeElement.name : CodeElement → String
  | .mk n _ _ _ _ _ _ _ _ _ => n

def CodeElement.elem_type : CodeElement → CodeElementType
  | .mk _ t _ _ _ _ _ _ _ _ => t

def CodeElement.return_type : CodeElement → String
  | .mk _ _ rt _ _ _ _ _ _ _ => rt

def CodeElement.is_static : CodeElement → Bool
  | .mk _ _ _ st _ _ _ _ _ _ => st

def CodeElement.accessibility : CodeElement → CodeElementAccessibility
  | .mk _ _ _ _ a _ _ _ _ _ => a

def CodeElement.value : CodeElement → String
  | .mk _ _ _ _ _ v _ _ _ _ => v

def CodeElement.is_str : CodeElement → Bool
  | .mk _ _ _ _ _ _ i _ _ _ => i

def CodeElement.others : CodeElement → List (String × List String)
  | .mk _ _ _ _ _ _ _ o _ _ => o

def CodeElement.arguments : CodeElement → List CodeElementArgument
  | .mk _ _ _ _ _ _ _ _ a _ => a

def CodeElement.childs : CodeElement → List CodeElement
  | .mk _ _ _ _ _ _ _ _ _ c => c

/-- `CodeElement(...)` construction: `arguments` and `childs` start
empty. -/
def newElem (name : String) (elemType : CodeElementType)
    (returnType : String) (isStatic : Bool)
    (accessibility : CodeElementAccessibility) (elemValue : String)
    (isStr : Bool) (others : List (String × List String)) : CodeElement :=
  .mk name elemType returnType isStatic accessibility elemValue isStr
    others [] []

def CodeElement.withReturnType : CodeElement → String → CodeElement
  | .mk n t _ st a v i o args ch, rt => .mk n t rt st a v i o args ch

def CodeElement.withArguments : CodeElement → List CodeElementArgument →
    CodeElement
  | .mk n t rt st a v i o _ ch, args => .mk n t rt st a v i o args ch

def CodeElement.withChilds : CodeElement → List CodeElement → CodeElement
  | .mk n t rt st a v i o args _, ch => .mk n t rt st a v i o args ch

/-- `childs.append(c)`. -/
def CodeElement.addChild (e : CodeElement) (c : CodeElement) : CodeElement :=
  e.withChilds (e.childs ++ [c])

/-- In-place overwrite of the `i`-th child (realizes the source's writes
through an aliased reference into the tree; `i` is always in range
there). -/
def CodeElement.setChild (e : CodeElement) (i : Nat) (c : CodeElement) :
    CodeElement :=
  e.withChilds (e.childs.set i c)

def CodeElement.modifyChild (e : CodeElement) (i : Nat)
    (f : CodeElement → CodeElement) : CodeElement :=
  match e.childs[i]? with
  | some c => e.setChild i (f c)
  | none => e

/-- `CodeParseResult`. -/
structure CodeParseResult where
  root : CodeElement

/-- Exceptions the parser can raise: `noneUnpack` is the TypeError from
unpacking the `None` that `_get_accessibility` returns on an
unrecognized access keyword; `indexError` is the IndexError from
`args_list[0]` / `prev_elem.arguments[0]` in the property scanners. -/
inductive PErr where
  | noneUnpack
  | indexError
deriving DecidableEq, Repr

/-- Exceptions the generator can raise: `NotImplementedError`,
`CannotGenerateException`, and the KeyError from
`target_elem.others["extends"]`. -/
inductive GenErr where
  | notImplemented
  | cannotGenerate
  | keyError
deriving DecidableEq, Repr

/-! ## Parser (`conv_vb6.py`, class `Vb6Parser`) -/

namespace Vb6

open Vb6Rx

/-- `Vb6ModuleType`. -/
inductive Vb6ModuleType where
  | STANDARD
  | CLASS
  | FORM
deriving DecidableEq, Repr

def elemDefaultAccessLevel : String := "public"

def varDefaultAccessLevel : String := "private"

/-- `_strip_comments`. -/
def stripComments (s : String) : String :=
  match reMatchS false reComments s with
  | some m => mgrpD m 1
  | none => s

/-- `_get_accessibility`; the source's `if/elif` chain has no final
`else`, so an unrecognized keyword falls off the end and returns `None`
(modelled as `none`; the caller's tuple unpacking then raises). -/
def getAccessibility (s : Option String) (defaultAccess : String) :
    Option (CodeElementAccessibility × Bool) :=
  let accessibility :=
    match s with
    | none => defaultAccess
    | some str => if str = "" then defaultAccess else Py.lower (Py.strip str)
  if accessibility = "private" then some (.PRIVATE, false)
  else if accessibility = "grobal" then some (.PUBLIC, false)
  else if accessibility = "public" then some (.PUBLIC, false)
  else if accessibility = "friend" then some (.INTERNAL, false)
  else if accessibility = "static" then some (.PUBLIC, true)
  else none

/-- `'""' -> '"'` replacement used by `_extract_string_literal`
(Python `str.replace('""', '"')`, left-to-right, non-overlapping). -/
def replaceQQ : List Char → List Char
  | '"' :: '"' :: rest => '"' :: replaceQQ rest
  | c :: rest => c :: replaceQQ rest
  | [] => []

/-- `_extract_string_literal`. -/
def extractStringLiteral (targetStr : Option String) : String × Bool :=
  match targetStr with
  | none => ("", false)
  | some str =>
      let isStr := Py.startswith str "\""
      if isStr then (String.mk (replaceQQ ((str.data.drop 1).dropLast)), isStr)
      else (str, isStr)

/-- `_format_array_type`. -/
def formatArrayType (varType arrStr : Option String) : String :=
  let vt0 := match varType with | none => "" | some v => Py.strip v
  let ar := match arrStr with | none => "" | some a => Py.strip a
  let vt := if vt0 = "" then "Variant" else vt0
  if ar = "" then vt else vt ++ "[]"

/-- `_build_args_list` (total: `findall` returns per-item tuples whose
non-participating groups read as `""`). -/
def buildArgsList (argsStr : String) : List CodeElementArgument :=
  let s := Py.strip argsStr
  (findallS true reArg s).map (fun item =>
    let optStr := Py.strip (mgrpD item 1)
    let valRef := Py.strip (mgrpD item 2)
    let paramArr := Py.strip (mgrpD item 3)
    let argName := Py.strip (mgrpD item 4)
    let arrStr := Py.strip (mgrpD item 5)
    let argType := formatArrayType (some (Py.strip (mgrpD item 6))) (some arrStr)
    let ex := extractStringLiteral (some (Py.strip (mgrpD item 7)))
    let argDefault := ex.1
    let isStr := ex.2
    { name := argName,
      type := argType,
      is_reference := Py.lower valRef != "byval",
      is_optional := Py.lower optStr == "optional",
      is_vlargs := Py.lower paramArr == "paramarray",
      is_kwargs := false,
      default_value := if argDefault != "" || isStr then argDefault else "default",
      is_str := isStr })

/-- `_found_doxy_comment` (matched against the raw line, not the
comment-stripped one); returns the comment element to append to the
current scope. -/
def foundDoxyComment (s : String) : Option CodeElement :=
  (reMatchS false reDoxy s).map (fun m =>
    newElem "" .DOC_COMMENT_LINE "void" false .UNDEF (mgrpD m 1) false [])

/-- The `access_str` selection of `_found_member`: group 1 if it
participated, else group 3, else the empty string (each stripped). -/
def memberAccessStr (m : Rex.Caps) : String :=
  match mgrp m 1 with
  | some a => Py.strip a
  | none =>
      match mgrp m 3 with
      | some a => Py.strip a
      | none => ""

/-- The `const_str` selection of `_found_member`: group 2 if it
participated, else group 4, else the empty string (each stripped). -/
def memberConstStr (m : Rex.Caps) : String :=
  match mgrp m 2 with
  | some c => Py.strip c
  | none =>
      match mgrp m 4 with
      | some c => Py.strip c
      | none => ""

/-- `_found_member`; returns the member element to append (`none` when
the line is not a member declaration). -/
def foundMember (s : String) : Except PErr (Option CodeElement) :=
  match reMatchS true reValues (stripComments s) with
  | none => .ok none
  | some m =>
      match getAccessibility (some (memberAccessStr m))
        varDefaultAccessLevel with
      | none => .error .noneUnpack
      | some (varAccess, _) =>
          let constStr := memberConstStr m
          let varName := Py.strip (mgrpD m 5)
          let varType := formatArrayType (mgrp m 7) (mgrp m 6)
          let ex := extractStringLiteral (mgrp m 8)
          if Py.lower constStr = "const" then
            .ok (some (newElem varName .CONST varType false varAccess ex.1
              ex.2 []))
          else
            .ok (some ((newElem varName .VAR varType false varAccess "" false
              []).withArguments
                [{ name := "", type := varType, is_reference := false,
                   is_optional := false, is_vlargs := false,
                   is_kwargs := false, default_value := "default",
                   is_str := false }]))

/-- `_find_function`; returns the new function element (which also
becomes the scope focus). -/
def findFunction (s : String) : Except PErr (Option CodeElement) :=
  match reMatchS true reFunction (stripComments s) with
  | none => .ok none
  | some m =>
      match getAccessibility (mgrp m 1) elemDefaultAccessLevel with
      | none => .error .noneUnpack
      | some (accessLevel, isStatic) =>
          let funcName := Py.strip (mgrpD m 2)
          let argsList := buildArgsList (mgrpD m 3)
          let retType := formatArrayType (mgrp m 4) (mgrp m 5)
          .ok (some ((newElem funcName .FUNC retType isStatic accessLevel ""
            false []).withArguments argsList))

/-- `_find_sub`. -/
def findSub (s : String) : Except PErr (Option CodeElement) :=
  match reMatchS true reSub (stripComments s) with
  | none => .ok none
  | some m =>
      match getAccessibility (mgrp m 1) elemDefaultAccessLevel with
      | none => .error .noneUnpack
      | some (accessLevel, isStatic) =>
          let subName := Py.strip (mgrpD m 2)
          let argsList := buildArgsList (mgrpD m 3)
          .ok (some ((newElem subName .FUNC "void" isStatic accessLevel ""
            false []).withArguments argsList))

/-- `_find_type`. -/
def findType (s : String) : Except PErr (Option CodeElement) :=
  match reMatchS true reType (stripComments s) with
  | none => .ok none
  | some m =>
      match getAccessibility (mgrp m 1) elemDefaultAccessLevel with
      | none => .error .noneUnpack
      | some (accessLevel, _) =>
          .ok (some (newElem (Py.strip (mgrpD m 2)) .STRUCT "void" false
            accessLevel "" false []))

/-- `_find_enum`. -/
def findEnum (s : String) : Except PErr (Option CodeElement) :=
  match reMatchS true reEnum (stripComments s) with
  | none => .ok none
  | some m =>
      match getAccessibility (mgrp m 1) elemDefaultAccessLevel with
      | none => .error .noneUnpack
      | some (accessLevel, _) =>
          .ok (some (newElem (Py.strip (mgrpD m 2)) .ENUM "void" false
            accessLevel "" false []))

/-- The enum-member recognition inside `_process_enum`. -/
def enumMemberElem (s : String) : Option CodeElement :=
  (reMatchS true reEnumMem (stripComments s)).map (fun m =>
    newElem (Py.strip (mgrpD m 1)) .CONST "void" false .UNDEF
      ((mgrp m 2).getD "") false [])

/-- Block terminators tested by the `_process_*` step functions. -/
def endFunctionFound (s : String) : Bool :=
  (reMatchS true reEndFunction (stripComments s)).isSome

def endSubFound (s : String) : Bool :=
  (reMatchS true reEndSub (stripComments s)).isSome

def endTypeFound (s : String) : Bool :=
  (reMatchS true reEndType (stripComments s)).isSome

def endEnumFound (s : String) : Bool :=
  (reMatchS true reEndEnum (stripComments s)).isSome

def endPropertyFound (s : String) : Bool :=
  (reMatchS true reEndProperty (stripComments s)).isSome

/-- Outcome of `_find_property_get`/`_find_property_set`: a fresh
property element appended to the scope, or the reused `lastProperty`
element updated in place. -/
inductive PropFound where
  | fresh (e : CodeElement)
  | merged (e : CodeElement)

/-- `_find_property_get`.  (The source first builds a transient
`CodeElementType.FUNC` element that both branches discard; it has no
observable effect and is not materialized here.) -/
def findPropertyGet (s : String) (prevElem : Option CodeElement) :
    Except PErr (Option PropFound) :=
  match reMatchS true rePropGet (stripComments s) with
  | none => .ok none
  | some m =>
      match getAccessibility (mgrp m 1) elemDefaultAccessLevel with
      | none => .error .noneUnpack
      | some (accessLevel, isStatic) =>
          let propName := Py.strip (mgrpD m 2)
          let retType := formatArrayType (mgrp m 3) (mgrp m 4)
          match prevElem with
          | some pe =>
              if pe.name = propName then
                match pe.arguments.head? with
                | none => .error .indexError
                | some a0 => .ok (some (.merged (pe.withReturnType a0.type)))
              else
                .ok (some (.fresh (newElem propName .PROPERTY retType
                  isStatic accessLevel "" false [])))
          | none =>
              .ok (some (.fresh (newElem propName .PROPERTY retType
                isStatic accessLevel "" false [])))

/-- `_find_property_set`. -/
def findPropertySet (s : String) (prevElem : Option CodeElement) :
    Except PErr (Option PropFound) :=
  match reMatchS true rePropSet (stripComments s) with
  | none => .ok none
  | some m =>
      match getAccessibility (mgrp m 1) elemDefaultAccessLevel with
      | none => .error .noneUnpack
      | some (accessLevel, isStatic) =>
          let propName := Py.strip (mgrpD m 3)
          let argsList := buildArgsList (mgrpD m 4)
          match prevElem with
          | some pe =>
              if pe.name = propName then
                match
                  (if pe.arguments.isEmpty then
                    match argsList.head? with
                    | none => Except.error PErr.indexError
                    | some a0 => Except.ok (pe.withArguments [a0])
                  else Except.ok pe : Except PErr CodeElement)
                with
                | .error e => .error e
                | .ok pe1 =>
                    match pe1.arguments.head? with
                    | none => .error .indexError
                    | some a0 =>
                        .ok (some (.merged (pe1.withReturnType a0.type)))
              else
                match argsList.head? with
                | none => .error .indexError
                | some a0 =>
                    .ok (some (.fresh ((newElem propName .PROPERTY "void"
                      isStatic accessLevel "" false []).withArguments [a0])))
          | none =>
              match argsList.head? with
              | none => .error .indexError
              | some a0 =>
                  .ok (some (.fresh ((newElem propName .PROPERTY "void"
                    isStatic accessLevel "" false []).withArguments [a0])))

/-- The active block scanner of the main loop, together with the index
(into the class element's child list) of the element the scanner's
`target_elem` points at.  At most one scanner is active at a time, as in
the source's five mutually exclusive flags. -/
inductive ScanMode where
  | top
  | inType (i : Nat)
  | inSub (i : Nat)
  | inFunc (i : Nat)
  | inEnum (i : Nat)
  | inProp (i : Nat)
deriving DecidableEq, Repr

/-- The scan-loop state: the class (or interface) element under
construction, the active scanner, and the index of the element
`lastProperty` refers to. -/
structure ScanState where
  cls : CodeElement
  mode : ScanMode
  lastProp : Option Nat

/-- The element `target_elem` currently points at is the class element
itself at top level, else the focused child; appending a doc comment
goes through that pointer. -/
def ScanState.appendToFocus (st : ScanState) (c : CodeElement) : ScanState :=
  match st.mode with
  | .top => { st with cls := st.cls.addChild c }
  | .inType i => { st with cls := st.cls.modifyChild i (fun e => e.addChild c) }
  | .inSub i => { st with cls := st.cls.modifyChild i (fun e => e.addChild c) }
  | .inFunc i => { st with cls := st.cls.modifyChild i (fun e => e.addChild c) }
  | .inEnum i => { st with cls := st.cls.modifyChild i (fun e => e.addChild c) }
  | .inProp i => { st with cls := st.cls.modifyChild i (fun e => e.addChild c) }

/-- The element `lastProperty` points at. -/
def ScanState.lastPropElem (st : ScanState) : Option CodeElement :=
  st.lastProp.bind (fun i => st.cls.childs[i]?)

/-- Record the outcome of a property scanner: a fresh element is
appended (and focused), a merged one overwrites the element it aliases;
either way it becomes both the scope focus and the new `lastProperty`. -/
def ScanState.applyProp (st : ScanState) (pf : PropFound) : ScanState :=
  match pf with
  | .fresh e =>
      let i := st.cls.childs.length
      { cls := st.cls.addChild e, mode := .inProp i, lastProp := some i }
  | .merged e =>
      match st.lastProp with
      | some i => { cls := st.cls.setChild i e, mode := .inProp i,
                    lastProp := some i }
      | none => st

/-- One post-continuation line of the `_parse_cls` main loop. -/
def processLineCls (st : ScanState) (s : String) : Except PErr ScanState :=
  match foundDoxyComment s with
  | some com => .ok (st.appendToFocus com)
  | none =>
  match st.mode with
  | .inType i =>
      if endTypeFound s then .ok { st with mode := .top }
      else do
        match (← foundMember s) with
        | some mem =>
            .ok { st with cls := st.cls.modifyChild i (fun e => e.addChild mem) }
        | none => .ok st
  | .inSub _ =>
      if endSubFound s then .ok { st with mode := .top } else .ok st
  | .inFunc _ =>
      if endFunctionFound s then .ok { st with mode := .top } else .ok st
  | .inProp _ =>
      if endPropertyFound s then .ok { st with mode := .top } else .ok st
  | .inEnum i =>
      if endEnumFound s then .ok { st with mode := .top }
      else
        match enumMemberElem s with
        | some mem =>
            .ok { st with cls := st.cls.modifyChild i (fun e => e.addChild mem) }
        | none => .ok st
  | .top => do
      match (← findPropertyGet s st.lastPropElem) with
      | some pf => .ok (st.applyProp pf)
      | none =>
      match (← findPropertySet s st.lastPropElem) with
      | some pf => .ok (st.applyProp pf)
      | none =>
      match (← findType s) with
      | some te =>
          .ok { st with cls := st.cls.addChild te,
                        mode := .inType st.cls.childs.length }
      | none =>
      match (← foundMember s) with
      | some mem => .ok { st with cls := st.cls.addChild mem }
      | none =>
      match (← findFunction s) with
      | some fe =>
          .ok { st with cls := st.cls.addChild fe,
                        mode := .inFunc st.cls.childs.length }
      | none =>
      match (← findSub s) with
      | some se =>
          .ok { st with cls := st.cls.addChild se,
                        mode := .inSub st.cls.childs.length }
      | none =>
      match (← findEnum s) with
      | some ee =>
          .ok { st with cls := st.cls.addChild ee,
                        mode := .inEnum st.cls.childs.length }
      | none => .ok st

/-- One post-continuation line of the `_parse_bas` main loop (no
property scanners). -/
def processLineBas (st : ScanState) (s : String) : Except PErr ScanState :=
  match foundDoxyComment s with
  | some com => .ok (st.appendToFocus com)
  | none =>
  match st.mode with
  | .inType i =>
      if endTypeFound s then .ok { st with mode := .top }
      else do
        match (← foundMember s) with
        | some mem =>
            .ok { st with cls := st.cls.modifyChild i (fun e => e.addChild mem) }
        | none => .ok st
  | .inSub _ =>
      if endSubFound s then .ok { st with mode := .top } else .ok st
  | .inFunc _ =>
      if endFunctionFound s then .ok { st with mode := .top } else .ok st
  | .inProp _ =>
      if endPropertyFound s then .ok { st with mode := .top } else .ok st
  | .inEnum i =>
      if endEnumFound s then .ok { st with mode := .top }
      else
        match enumMemberElem s with
        | some mem =>
            .ok { st with cls := st.cls.modifyChild i (fun e => e.addChild mem) }
        | none => .ok st
  | .top => do
      match (← findType s) with
      | some te =>
          .ok { st with cls := st.cls.addChild te,
                        mode := .inType st.cls.childs.length }
      | none =>
      match (← foundMember s) with
      | some mem => .ok { st with cls := st.cls.addChild mem }
      | none =>
      match (← findFunction s) with
      | some fe =>
          .ok { st with cls := st.cls.addChild fe,
                        mode := .inFunc st.cls.childs.length }
      | none =>
      match (← findSub s) with
      | some se =>
          .ok { st with cls := st.cls.addChild se,
                        mode := .inSub st.cls.childs.length }
      | none =>
      match (← findEnum s) with
      | some ee =>
          .ok { st with cls := st.cls.addChild ee,
                        mode := .inEnum st.cls.childs.length }
      | none => .ok st

/-- Line-continuation state of the main loop: the accumulation variable
`s` and the `lineContinue` flag. -/
structure LineState where
  scan : ScanState
  acc : String
  lineCont : Bool

/-- One physical line of the main loop: a non-comment line ending in
`" _\n"` is buffered (minus its last two characters, keeping the
space); otherwise the buffered prefix plus the line is processed. -/
def stepLine (proc : ScanState → String → Except PErr ScanState)
    (ls : LineState) (ln : String) : Except PErr LineState :=
  if (reMatchS false reComments ln).isNone && Py.endswith ln " _\n" then
    .ok { ls with
      acc := if ls.lineCont then ls.acc ++ Py.dropRight ln 2
             else Py.dropRight ln 2,
      lineCont := true }
  else
    let s := if ls.lineCont then ls.acc ++ ln else ln
    do
      let sc ← proc ls.scan s
      .ok { scan := sc, acc := s, lineCont := false }

/-- `_process_global_comments`: every line matching the `'!` marker
contributes a doc-comment element (attached to the namespace element
before the class element is appended). -/
def processGlobalComments (codeLines : List String) : List CodeElement :=
  codeLines.filterMap (fun s =>
    (reMatchS false reDoxyClass s).map (fun m =>
      newElem "" .DOC_COMMENT_LINE "void" false .UNDEF (mgrpD m 1) false []))

/-- `_has_intf_tag`. -/
def hasIntfTag (codeLines : List String) : Bool :=
  codeLines.any (fun s =>
    match reMatchS false reTag s with
    | some m => mgrp m 1 == some "Interface"
    | none => false)

/-- `_process_class_name`: the first `Attribute VB_Name = "..."` line
names the class; absence yields `"DummyName"`. -/
def processClassName (codeLines : List String) : String :=
  match codeLines.findSome? (fun s =>
      (reMatchS true reVbName (stripComments s)).map (fun m => mgrpD m 1)) with
  | some n => n
  | none => "DummyName"

/-- `_process_impl`: the first `Implements X` line. -/
def processImpl (codeLines : List String) : Option String :=
  codeLines.findSome? (fun s =>
    (reMatchS false reImpl (stripComments s)).map (fun m => mgrpD m 1))

/-- `_parse_cls` (used for both class and form modules). -/
def parseCls (moduleType : Vb6ModuleType) (codeLines : List String) :
    Except PErr CodeParseResult := do
  let nsName := if moduleType = Vb6ModuleType.FORM then "Form" else "Class"
  let gcomments := processGlobalComments codeLines
  let isIntf := hasIntfTag codeLines
  let className := processClassName codeLines
  let classElem0 := newElem className
    (if isIntf then CodeElementType.INTERFACE else CodeElementType.CLASS)
    "void" false .UNDEF "" false []
  let classElem :=
    match processImpl codeLines with
    | some sup => (CodeElement.mk classElem0.name classElem0.elem_type
        classElem0.return_type classElem0.is_static classElem0.accessibility
        classElem0.value classElem0.is_str [("implements", [sup])]
        classElem0.arguments classElem0.childs)
    | none => classElem0
  let final ← codeLines.foldlM (stepLine processLineCls)
    { scan := { cls := classElem, mode := .top, lastProp := none },
      acc := "", lineCont := false }
  let ns := (newElem nsName .NAME_SPACE "void" false .UNDEF "" false
    []).withChilds (gcomments ++ [final.scan.cls])
  .ok ⟨(newElem "root" .OTHER "void" false .UNDEF "" false
    []).withChilds [ns]⟩

/-- `_parse_bas`. -/
def parseBas (codeLines : List String) : Except PErr CodeParseResult := do
  let usingElem := newElem "using" .OTHER "void" false .UNDEF "" false
    [("using", ["Class"])]
  let gcomments := processGlobalComments codeLines
  let className := processClassName codeLines
  let classElem := newElem className .CLASS "void" false .UNDEF "" false []
  let final ← codeLines.foldlM (stepLine processLineBas)
    { scan := { cls := classElem, mode := .top, lastProp := none },
      acc := "", lineCont := false }
  let ns := (newElem "Standard" .NAME_SPACE "void" false .UNDEF "" false
    []).withChilds (gcomments ++ [final.scan.cls])
  .ok ⟨(newElem "root" .OTHER "void" false .UNDEF "" false
    []).withChilds [usingElem, ns]⟩

/-- `Vb6Parser.parse`. -/
def parse (moduleType : Vb6ModuleType) (codeLines : List String) :
    Except PErr CodeParseResult :=
  if moduleType = Vb6ModuleType.CLASS ∨ moduleType = Vb6ModuleType.FORM then
    parseCls moduleType codeLines
  else
    parseBas codeLines

end Vb6

/-! ## Generator (`conv_csharp.py`, class `CsharpGenerator`) -/

namespace Csharp

def indentUnit : String := "    "

/-- `_replacements`: the C# escape table. -/
def replacements : List (Char × String) :=
  [('\\', "\\\\"), ('"', "\\\""), ('\x00', "\\0"), ('\x07', "\\a"),
   ('\x08', "\\b"), ('\x0c', "\\f"), ('\n', "\\n"), ('\r', "\\r"),
   ('\t', "\\t"), ('\x0b', "\\v")]

/-- `_get_indent_str`. -/
def getIndentStr (indent : Nat) : String :=
  String.join (List.replicate indent indentUnit)

/-- `_get_access_str`. -/
def getAccessStr (e : CodeElement) : String :=
  match e.accessibility with
  | .PUBLIC => "public "
  | .PROTECTED => "protected "
  | .INTERNAL => "internal "
  | .PRIVATE => "private "
  | .UNDEF => ""

/-- `_get_static_str`. -/
def getStaticStr (e : CodeElement) : String :=
  if e.is_static then "static " else ""

def escapeChar (c : Char) : String :=
  match replacements.find? (fun p => p.1 == c) with
  | some p => p.2
  | none => String.mk [c]

/-- `_get_value_str`. -/
def getValueStr (targetValue : String) (isStr : Bool) : String :=
  if isStr then "\"" ++ String.join (targetValue.data.map escapeChar) ++ "\""
  else targetValue

/-- `_get_valref_str`. -/
def getValrefStr (a : CodeElementArgument) : String :=
  if a.is_reference then "ref " else ""

/-- The inner `_get_args_str_core`. -/
def getArgsStrCore (a : CodeElementArgument) : String :=
  let valRef := getValrefStr a
  if a.is_optional then
    valRef ++ a.type ++ " " ++ a.name ++ " = " ++
      getValueStr a.default_value a.is_str
  else
    valRef ++ a.type ++ " " ++ a.name

/-- `_get_args_str`. -/
def getArgsStr (e : CodeElement) : String :=
  match e.arguments with
  | [] => ""
  | a :: rest =>
      getArgsStrCore a ++
        String.join (rest.map (fun x => ", " ++ getArgsStrCore x))

/-- `_get_getset_str`: the accessor clause, or the
`CannotGenerateException` when the property has neither accessor.  (The
source tests `return_type in ("void", "", None)`; `return_type` is a
string in this model.) -/
def getGetsetStr (e : CodeElement) : Except GenErr String :=
  let isGet := !(e.return_type == "void" || e.return_type == "")
  let isSet := e.arguments.length != 0
  if isGet && !isSet then .ok "get;"
  else if !isGet && isSet then .ok "set;"
  else if isGet && isSet then .ok "get; set;"
  else .error .cannotGenerate

/-- `_generate_var`. -/
def generateVar (ls : List String) (indent : Nat) (e : CodeElement) :
    List String :=
  let indentStr := getIndentStr indent
  ls ++ [indentStr ++ getAccessStr e ++ getStaticStr e ++ e.return_type ++
    " " ++ e.name ++ ";", indentStr]

/-- `_generate_const`. -/
def generateConst (ls : List String) (indent : Nat) (e : CodeElement) :
    List String :=
  let indentStr := getIndentStr indent
  ls ++ [indentStr ++ getAccessStr e ++ "const " ++ e.return_type ++ " " ++
    e.name ++ " = " ++ getValueStr e.value e.is_str ++ ";", indentStr]

/-- `_generate_doc_line`. -/
def generateDocLine (ls : List String) (indent : Nat) (e : CodeElement) :
    List String :=
  ls ++ [getIndentStr indent ++ "///" ++ e.value]

/-- `_generate_func` (also used for subroutines): a full signature plus
empty body block, or — under an interface context — the signature line
terminated by `;`. -/
def generateFunc (ls : List String) (indent : Nat) (e : CodeElement)
    (asIntf : Bool) : List String :=
  let indentStr := getIndentStr indent
  let head := indentStr ++ getAccessStr e ++ getStaticStr e ++
    e.return_type ++ " " ++ e.name ++ "(" ++ getArgsStr e ++ ")"
  if asIntf then
    ls ++ [head ++ ";", indentStr]
  else
    ls ++ [head, indentStr ++ "\x7b", indentStr ++ "\x7d", indentStr]

/-- `_generate_property` (raises before appending anything when the
accessor clause cannot be generated). -/
def generateProperty (ls : List String) (indent : Nat) (e : CodeElement) :
    Except GenErr (List String) := do
  let indentStr := getIndentStr indent
  let elemGetset ← getGetsetStr e
  .ok (ls ++ [indentStr ++ getAccessStr e ++ getStaticStr e ++
    e.return_type ++ " " ++ e.name ++ " \x7b " ++ elemGetset ++ " \x7d)"])

/-- The member loop of `_generate_struct`. -/
def structMembers (indent : Nat) (ls : List String) :
    List CodeElement → Except GenErr (List String)
  | [] => .ok ls
  | c :: cs =>
      if c.elem_type = .DOC_COMMENT_LINE then
        structMembers indent (generateDocLine ls (indent + 1) c) cs
      else if c.elem_type = .DOC_COMMENT_MULTI then
        .error .notImplemented
      else
        structMembers indent
          (ls ++ [getIndentStr (indent + 1) ++ "public " ++ c.return_type ++
            " " ++ c.name ++ ";", getIndentStr indent]) cs

/-- `_generate_struct`. -/
def generateStruct (ls : List String) (indent : Nat) (e : CodeElement) :
    Except GenErr (List String) := do
  let indentStr := getIndentStr indent
  let ls := ls ++ [indentStr ++ getAccessStr e ++ "struct " ++ e.name, "\x7b"]
  let ls ← structMembers indent ls e.childs
  .ok (ls ++ ["\x7d"])

/-- The member loop of `_generate_enum`. -/
def enumMembers (indent : Nat) (ls : List String) :
    List CodeElement → Except GenErr (List String)
  | [] => .ok ls
  | c :: cs =>
      if c.elem_type = .DOC_COMMENT_LINE then
        enumMembers indent (generateDocLine ls (indent + 1) c) cs
      else if c.elem_type = .DOC_COMMENT_MULTI then
        .error .notImplemented
      else if c.value = "" then
        enumMembers indent (ls ++ [getIndentStr (indent + 1) ++ c.name ++ ","])
          cs
      else
        enumMembers indent
          (ls ++ [getIndentStr (indent + 1) ++ c.name ++ " = " ++ c.value ++
            ","]) cs

/-- `_generate_enum`. -/
def generateEnum (ls : List String) (indent : Nat) (e : CodeElement) :
    Except GenErr (List String) := do
  let indentStr := getIndentStr indent
  let ls := ls ++ [indentStr ++ getAccessStr e ++ "enum " ++ e.name, "\x7b"]
  let ls ← enumMembers indent ls e.childs
  .ok (ls ++ ["\x7d"])

def othersLookup (e : CodeElement) (k : String) : Option (List String) :=
  (e.others.find? (fun p => p.1 == k)).map (fun p => p.2)

/-- The inheritance clause shared by `_generate_class` and
`_generate_intf`: reading `others["extends"]` when only `"super"` is
present raises a KeyError. -/
def superClause (e : CodeElement) : Except GenErr String := do
  let elemSuper ←
    (if (othersLookup e "super").isSome then
      match othersLookup e "extends" with
      | some l => Except.ok (" : " ++ String.intercalate ", " l)
      | none => Except.error GenErr.keyError
    else Except.ok "" : Except GenErr String)
  match othersLookup e "implements" with
  | some l =>
      if elemSuper = "" then .ok (" : " ++ String.intercalate ", " l)
      else .ok (elemSuper ++ ", " ++ String.intercalate ", " l)
  | none => .ok elemSuper

/- Computable structural size of an element tree (the derived `SizeOf`
instance of the nested inductive has no executable code). -/
mutual

def ceSize : CodeElement → Nat
  | .mk _ _ _ _ _ _ _ _ _ ch => 1 + ceSizeList ch

def ceSizeList : List CodeElement → Nat
  | [] => 0
  | c :: cs => ceSize c + ceSizeList cs

end

theorem ceSize_pos (e : CodeElement) : 1 ≤ ceSize e := by
  cases e
  simp [ceSize]

theorem ceSize_le_of_mem : ∀ (l : List CodeElement) (c : CodeElement),
    c ∈ l → ceSize c ≤ ceSizeList l
  | c0 :: cs, c, h => by
      rcases List.mem_cons.mp h with h1 | h1
      · subst h1
        simp only [ceSizeList]
        omega
      · have := ceSize_le_of_mem cs c h1
        simp only [ceSizeList]
        omega

theorem ceSize_lt_of_mem_childs (e : CodeElement) (c : CodeElement)
    (h : c ∈ e.childs) : ceSize c < ceSize e := by
  cases e with
  | mk n t rt st a v i o args ch =>
      have := ceSize_le_of_mem ch c (by simpa [CodeElement.childs] using h)
      simp [ceSize]
      omega

/-- `_generate_common` and the container renderers.  Recursion through
child lists is fuel-indexed (structurally on `fuel`, so the kernel can
evaluate it); `sizeOf e` fuel always suffices, and `generateCommon`
below supplies it.  Fuel exhaustion (unreachable with that supply)
yields the generator's generic failure value. -/
def generateCommonF : Nat → List String → Nat → CodeElement → Bool →
    Except GenErr (List String)
  | 0, _, _, _, _ => .error .notImplemented
  | fuel + 1, ls, indent, e, asIntf =>
      match e.elem_type with
      | .VAR => .ok (generateVar ls indent e)
      | .CONST => .ok (generateConst ls indent e)
      | .FUNC => .ok (generateFunc ls indent e asIntf)
      | .STRUCT => generateStruct ls indent e
      | .DOC_COMMENT_LINE => .ok (generateDocLine ls indent e)
      | .DOC_COMMENT_MULTI => .error .notImplemented
      | .CLASS => do
          let indentStr := getIndentStr indent
          let elemSuper ← superClause e
          let ls := ls ++ [indentStr ++ getAccessStr e ++ getStaticStr e ++
            "class " ++ e.name ++ elemSuper, indentStr ++ "\x7b"]
          let ls ← e.childs.foldlM
            (fun acc c => generateCommonF fuel acc (indent + 1) c false) ls
          .ok (ls ++ [indentStr ++ "\x7d", indentStr])
      | .INTERFACE => do
          let indentStr := getIndentStr indent
          let elemSuper ← superClause e
          let ls := ls ++ [indentStr ++ getAccessStr e ++ getStaticStr e ++
            "interface " ++ e.name ++ elemSuper, indentStr ++ "\x7b"]
          let ls ← e.childs.foldlM
            (fun acc c => generateCommonF fuel acc (indent + 1) c true) ls
          .ok (ls ++ [indentStr ++ "\x7d", indentStr])
      | .ENUM => generateEnum ls indent e
      | .NAME_SPACE => do
          let ls := ls ++ [getIndentStr indent ++ "namespace " ++ e.name,
            "\x7b"]
          let ls ← e.childs.foldlM
            (fun acc c => generateCommonF fuel acc (indent + 1) c false) ls
          .ok (ls ++ ["\x7d"])
      | .PROPERTY => generateProperty ls indent e
      | .OTHER => .error .notImplemented

/-- `CsharpGenerator.generate`. -/
def generateCommon (ls : List String) (indent : Nat) (e : CodeElement)
    (asIntf : Bool) : Except GenErr (List String) :=
  generateCommonF (ceSize e) ls indent e asIntf

def generate (parseResult : CodeParseResult) : Except GenErr (List String) :=
  generateCommon [] 0 parseResult.root false

end Csharp

/-! ## Claims -/

set_option maxRecDepth 1000000

/-- The two module lines of the C3 end-to-end example (as read by
`readlines`, newline-terminated). -/
def c3Lines : List String :=
  ["Public Function Add(ByVal a As Integer, ByVal b As Integer) As Integer\n",
   "End Function\n"]

def c3ArgA : CodeElementArgument :=
  { name := "a", type := "Integer", is_reference := false,
    is_optional := false, is_vlargs := false, is_kwargs := false,
    default_value := "default", is_str := false }

def c3ArgB : CodeElementArgument :=
  { name := "b", type := "Integer", is_reference := false,
    is_optional := false, is_vlargs := false, is_kwargs := false,
    default_value := "default", is_str := false }

/-- The Function Element the C3 example produces. -/
def c3AddElem : CodeElement :=
  .mk "Add" .FUNC "Integer" false .PUBLIC "" false [] [c3ArgA, c3ArgB] []

/-- The full parse tree of the C3 example (class module). -/
def c3Tree : CodeElement :=
  .mk "root" .OTHER "void" false .UNDEF "" false [] []
    [.mk "Class" .NAME_SPACE "void" false .UNDEF "" false [] []
      [.mk "DummyName" .CLASS "void" false .UNDEF "" false [] []
        [c3AddElem]]]

/-- C3: parsing `Public Function Add(ByVal a As Integer, ByVal b As
Integer) As Integer` in a class module produces exactly the claimed
Function Element (name `Add`, return type `Integer`, public, two
non-optional non-reference `Integer` arguments), and the function
renderer emits `public Integer Add(Integer a, Integer b)` followed by an
empty block — but generating from the parse result itself raises
`NotImplementedError`, because the root element (kind `OTHER`) is not
handled by `_generate_common`; the claimed rendering therefore never
reaches the caller. -/
theorem c3_add_example :
    Vb6.parse .CLASS c3Lines = .ok ⟨c3Tree⟩ ∧
    Csharp.generateFunc [] 0 c3AddElem false =
      ["public Integer Add(Integer a, Integer b)", "\x7b", "\x7d", ""] ∧
    Csharp.generate ⟨c3Tree⟩ = .error .notImplemented :=
  ⟨rfl, rfl, rfl⟩

/-- The input line of the C4 end-to-end example (standard module). -/
def c4Lines : List String :=
  ["Private Const Greeting As String = \"Hi \"\"there\"\"\"\n"]

/-- The Constant Element the C4 example produces: stored value
`Hi "there"` (doubled quotes unescaped), `isStringLiteral` set, private. -/
def c4GreetingElem : CodeElement :=
  .mk "Greeting" .CONST "String" false .PRIVATE "Hi \"there\"" true [] [] []

/-- The full parse tree of the C4 example. -/
def c4Tree : CodeElement :=
  .mk "root" .OTHER "void" false .UNDEF "" false [] []
    [.mk "using" .OTHER "void" false .UNDEF "" false [("using", ["Class"])] [] [],
     .mk "Standard" .NAME_SPACE "void" false .UNDEF "" false [] []
      [.mk "DummyName" .CLASS "void" false .UNDEF "" false [] []
        [c4GreetingElem]]]

/-- C4: parsing `Private Const Greeting As String = "Hi ""there"""`
yields the claimed Constant Element (value `Hi "there"`, string flag
set, private), and the constant renderer emits
`private const String Greeting = "Hi \"there\"";` — but generating from
the parse result itself raises `NotImplementedError` at the unhandled
root element, so the claimed rendering never reaches the caller. -/
theorem c4_const_example :
    Vb6.parse .STANDARD c4Lines = .ok ⟨c4Tree⟩ ∧
    Csharp.generateConst [] 0 c4GreetingElem =
      ["private const String Greeting = \"Hi \\\"there\\\"\";", ""] ∧
    Csharp.generate ⟨c4Tree⟩ = .error .notImplemented :=
  ⟨rfl, rfl, rfl⟩

/-- C5: the accessor clause of a property Element is `get;` exactly when
it has a meaningful return type and no arguments, `set;` when it has no
meaningful return type and at least one argument, `get; set;` when it
has both, and with neither the `CannotGenerateException` is raised and
the property renderer emits no line. -/
theorem c5_property_accessor_clause (e : CodeElement) (ls : List String)
    (ind : Nat) :
    (¬(e.return_type = "void" ∨ e.return_type = "") → e.arguments = [] →
      Csharp.getGetsetStr e = .ok "get;") ∧
    ((e.return_type = "void" ∨ e.return_type = "") → e.arguments ≠ [] →
      Csharp.getGetsetStr e = .ok "set;") ∧
    (¬(e.return_type = "void" ∨ e.return_type = "") → e.arguments ≠ [] →
      Csharp.getGetsetStr e = .ok "get; set;") ∧
    ((e.return_type = "void" ∨ e.return_type = "") → e.arguments = [] →
      Csharp.getGetsetStr e = .error .cannotGenerate ∧
      Csharp.generateProperty ls ind e = .error .cannotGenerate) := by
  have hsplit : ∀ (P : Prop), (e.return_type = "void" ∨ e.return_type = "") →
      ((e.return_type == "void" || e.return_type == "") = true → P) → P := by
    intro P h hP
    apply hP
    rcases h with h | h <;> simp [h]
  refine ⟨?_, ?_, ?_, ?_⟩
  · intro h1 h2
    have hb : (e.return_type == "void" || e.return_type == "") = false := by
      simpa using h1
    simp [Csharp.getGetsetStr, hb, h2]
  · intro h1 h2
    refine hsplit _ h1 (fun hb => ?_)
    have hlen : (e.arguments.length != 0) = true := by
      simp [List.length_eq_zero]
      exact h2
    simp [Csharp.getGetsetStr, hb, hlen]
  · intro h1 h2
    have hb : (e.return_type == "void" || e.return_type == "") = false := by
      simpa using h1
    have hlen : (e.arguments.length != 0) = true := by
      simp [List.length_eq_zero]
      exact h2
    simp [Csharp.getGetsetStr, hb, hlen]
  · intro h1 h2
    refine hsplit _ h1 (fun hb => ?_)
    have hgs : Csharp.getGetsetStr e = .error .cannotGenerate := by
      simp [Csharp.getGetsetStr, hb, h2]
    constructor
    · exact hgs
    · simp only [Csharp.generateProperty, hgs]
      rfl

/-- Witness for C5 at concrete property Elements: a get-only shape, a
set-only shape, a get-and-set shape, and the failing empty shape. -/
theorem c5_property_accessor_clause_witness :
    Csharp.getGetsetStr
      (.mk "P" .PROPERTY "Integer" false .PUBLIC "" false [] [] []) =
      .ok "get;" ∧
    Csharp.getGetsetStr
      (.mk "P" .PROPERTY "void" false .PUBLIC "" false []
        [{ name := "v", type := "Integer", is_reference := true,
           is_optional := false, is_vlargs := false, is_kwargs := false,
           default_value := "default", is_str := false }] []) =
      .ok "set;" ∧
    Csharp.generateProperty []
      0 (.mk "P" .PROPERTY "void" false .PUBLIC "" false [] [] []) =
      .error .cannotGenerate := by
  refine ⟨?_, ?_, ?_⟩
  · exact (c5_property_accessor_clause
      (.mk "P" .PROPERTY "Integer" false .PUBLIC "" false [] [] []) [] 0).1
      (by decide) rfl
  · exact (c5_property_accessor_clause
      (.mk "P" .PROPERTY "void" false .PUBLIC "" false []
        [{ name := "v", type := "Integer", is_reference := true,
           is_optional := false, is_vlargs := false, is_kwargs := false,
           default_value := "default", is_str := false }] []) [] 0).2.1
      (by simp [CodeElement.return_type]) (by simp [CodeElement.arguments])
  · exact ((c5_property_accessor_clause
      (.mk "P" .PROPERTY "void" false .PUBLIC "" false [] [] []) [] 0).2.2.2
      (by simp [CodeElement.return_type]) rfl).2

/-- C9 (counterexample): an interface containing a class containing a
function.  The nested function is rendered with a full body block
(`{` / `}`) and its signature line does not end in `;`: the interface
context is not propagated through the class container, contrary to the
claim that every function nested under an interface renders
signature-only. -/
def c9FuncElem : CodeElement := .mk "M" .FUNC "void" false .PUBLIC "" false [] [] []

def c9ClassElem : CodeElement :=
  .mk "C" .CLASS "void" false .PUBLIC "" false [] [] [c9FuncElem]

def c9IntfElem : CodeElement :=
  .mk "I" .INTERFACE "void" false .PUBLIC "" false [] [] [c9ClassElem]

/-- C9 is false as stated: rendering the interface `I` (interface
context active) emits the nested function `M` with a body block
`{ }` and no `;`-terminated signature. -/
theorem c9_counterexample :
    Csharp.generateCommon [] 0 c9IntfElem true =
      .ok ["public interface I", "\x7b", "    public class C", "    \x7b",
        "        public void M()", "        \x7b", "        \x7d",
        "        ", "    \x7d", "    ", "\x7d", ""] := rfl

/-- C9 (amended): a function Element rendered with the interface flag —
which only the functions appearing directly among an interface's
children receive — emits exactly one signature line terminated by `;`
and a blank line, with no body block; and for every non-function
Element the interface flag is inert (container constructs do not pass
it on: their children are rendered with the fixed flags `false` for
classes and namespaces, `true` for interfaces), so rendering any
non-function Element is independent of the incoming flag. -/
theorem c9_interface_functions (ls : List String) (ind : Nat)
    (e : CodeElement) :
    (e.elem_type = .FUNC →
      Csharp.generateCommon ls ind e true =
        .ok (ls ++ [Csharp.getIndentStr ind ++ Csharp.getAccessStr e ++
          Csharp.getStaticStr e ++ e.return_type ++ " " ++ e.name ++ "(" ++
          Csharp.getArgsStr e ++ ");", Csharp.getIndentStr ind])) ∧
    (e.elem_type ≠ .FUNC →
      Csharp.generateCommon ls ind e true =
        Csharp.generateCommon ls ind e false) := by
  obtain ⟨n, hn⟩ : ∃ n, Csharp.ceSize e = n + 1 := by
    have := Csharp.ceSize_pos e
    exact ⟨Csharp.ceSize e - 1, by omega⟩
  constructor
  · intro hf
    unfold Csharp.generateCommon
    rw [hn]
    simp [Csharp.generateCommonF, hf, Csharp.generateFunc]
    have h2 : (")" ++ ";" : String) = ");" := rfl
    rw [String.append_assoc, h2]
  · intro hf
    unfold Csharp.generateCommon
    rw [hn]
    cases ht : e.elem_type <;> simp [Csharp.generateCommonF, ht] <;>
      exact absurd ht hf

/-- Witness for C9's amended statement at a concrete function Element
inside an interface context. -/
theorem c9_interface_functions_witness :
    Csharp.generateCommon [] 1 c9FuncElem true =
      .ok ["    public void M();", "    "] ∧
    Csharp.generateCommon [] 0 c9ClassElem true =
      Csharp.generateCommon [] 0 c9ClassElem false := by
  constructor
  · exact (c9_interface_functions [] 1 c9FuncElem).1 rfl
  · exact (c9_interface_functions [] 0 c9ClassElem).2 (by decide)

/-- C10: a property-getter declaration line whose `As <Type>` clause is
absent (capture groups 3 and 4 of `_re_prop_get` did not participate)
stores the dynamic default `"Variant"` — never the `"void"` no-value
sentinel — as the fresh Property Element's return type; consequently the
generator's get-accessor test succeeds on such a lone-getter Element and
the `CannotGenerateException` branch is unreachable for it. -/
theorem c10_lone_getter_variant (s : String) (m : Rex.Caps)
    (prev : Option CodeElement) (acc : CodeElementAccessibility) (stc : Bool)
    (hm : Vb6Rx.reMatchS true Vb6Rx.rePropGet (Vb6.stripComments s) = some m)
    (ht : Vb6Rx.mgrp m 3 = none) (ha4 : Vb6Rx.mgrp m 4 = none)
    (hacc : Vb6.getAccessibility (Vb6Rx.mgrp m 1) Vb6.elemDefaultAccessLevel =
      some (acc, stc))
    (hprev : ∀ pe, prev = some pe → ¬pe.name = Py.strip (Vb6Rx.mgrpD m 2)) :
    Vb6.findPropertyGet s prev =
      .ok (some (.fresh (newElem (Py.strip (Vb6Rx.mgrpD m 2)) .PROPERTY
        "Variant" stc acc "" false []))) ∧
    Csharp.getGetsetStr (newElem (Py.strip (Vb6Rx.mgrpD m 2)) .PROPERTY
      "Variant" stc acc "" false []) = .ok "get;" := by
  constructor
  · simp only [Vb6.findPropertyGet, hm, hacc, ht, ha4]
    have hv : Vb6.formatArrayType none none = "Variant" := rfl
    rw [hv]
    cases prev with
    | none => rfl
    | some pe =>
        have hne := hprev pe rfl
        simp [hne]
  · rfl

/-- Witness for C10 at the concrete getter line
`Public Property Get Foo()`. -/
theorem c10_lone_getter_variant_witness :
    Vb6.findPropertyGet "Public Property Get Foo()\n" none =
      .ok (some (.fresh (newElem "Foo" .PROPERTY "Variant" false .PUBLIC ""
        false []))) ∧
    Csharp.getGetsetStr (newElem "Foo" .PROPERTY "Variant" false .PUBLIC ""
      false []) = .ok "get;" :=
  c10_lone_getter_variant "Public Property Get Foo()\n"
    [(2, ['F', 'o', 'o']), (1, ['P', 'u', 'b', 'l', 'i', 'c', ' '])] none
    .PUBLIC false rfl rfl rfl rfl (fun pe h => nomatch h)

/-- Any recognized member declaration yields an element whose
accessibility comes from `_get_accessibility` and whose static flag is
`false` — `_found_member` never passes `is_static` on. -/
theorem foundMember_access (s : String) (m : Rex.Caps)
    (acc : CodeElementAccessibility) (stc : Bool)
    (hm : Vb6Rx.reMatchS true Vb6Rx.reValues (Vb6.stripComments s) = some m)
    (hga : Vb6.getAccessibility (some (Vb6.memberAccessStr m))
      Vb6.varDefaultAccessLevel = some (acc, stc)) :
    ∃ e, Vb6.foundMember s = .ok (some e) ∧
      e.accessibility = acc ∧ e.is_static = false := by
  simp only [Vb6.foundMember, hm, hga]
  split
  · exact ⟨_, rfl, rfl, rfl⟩
  · exact ⟨_, rfl, rfl, rfl⟩

/-- C6 (amended): on field/constant declaration lines the recognized
access keywords map as follows — `Grobal` (the spelling the pattern
accepts) yields public, `Static` yields public but the element's static
flag stays `false` (the flag computed by `_get_accessibility` is
discarded by `_found_member`), `Friend` yields internal, `Private`
yields private, and an absent keyword (bare `Dim`, or `Const` alone)
defaults to private.  A line with the keyword `Global` matches no
pattern at all: it produces no element. -/
theorem c6_member_access_keywords :
    (∀ (s : String) (m : Rex.Caps),
      Vb6Rx.reMatchS true Vb6Rx.reValues (Vb6.stripComments s) = some m →
      ((Py.lower (Py.strip (Vb6.memberAccessStr m)) = "grobal" →
        ∃ e, Vb6.foundMember s = .ok (some e) ∧
          e.accessibility = .PUBLIC ∧ e.is_static = false) ∧
       (Py.lower (Py.strip (Vb6.memberAccessStr m)) = "static" →
        ∃ e, Vb6.foundMember s = .ok (some e) ∧
          e.accessibility = .PUBLIC ∧ e.is_static = false) ∧
       (Py.lower (Py.strip (Vb6.memberAccessStr m)) = "friend" →
        ∃ e, Vb6.foundMember s = .ok (some e) ∧
          e.accessibility = .INTERNAL ∧ e.is_static = false) ∧
       (Py.lower (Py.strip (Vb6.memberAccessStr m)) = "private" →
        ∃ e, Vb6.foundMember s = .ok (some e) ∧
          e.accessibility = .PRIVATE ∧ e.is_static = false) ∧
       (Vb6.memberAccessStr m = "" →
        ∃ e, Vb6.foundMember s = .ok (some e) ∧
          e.accessibility = .PRIVATE ∧ e.is_static = false))) ∧
    Vb6.foundMember "Global x As Integer\n" = .ok none := by
  constructor
  · intro s m hm
    have hne : ∀ kw : String, kw ≠ "" →
        Py.lower (Py.strip (Vb6.memberAccessStr m)) = kw →
        ¬Vb6.memberAccessStr m = "" := by
      intro kw hkw h h0
      rw [h0] at h
      have hPP : Py.lower (Py.strip "") = "" := rfl
      exact hkw (hPP ▸ h).symm
    refine ⟨?_, ?_, ?_, ?_, ?_⟩
    · intro h
      refine foundMember_access s m .PUBLIC false hm ?_
      simp [Vb6.getAccessibility, hne "grobal" (by decide) h, h]
    · intro h
      refine foundMember_access s m .PUBLIC true hm ?_
      simp [Vb6.getAccessibility, hne "static" (by decide) h, h]
    · intro h
      refine foundMember_access s m .INTERNAL false hm ?_
      simp [Vb6.getAccessibility, hne "friend" (by decide) h, h]
    · intro h
      refine foundMember_access s m .PRIVATE false hm ?_
      simp [Vb6.getAccessibility, hne "private" (by decide) h, h]
    · intro h
      refine foundMember_access s m .PRIVATE false hm ?_
      simp [Vb6.getAccessibility, h, Vb6.varDefaultAccessLevel]
  · rfl

/-- C6 is false as stated: a `Global` field line yields no Element at
all (the pattern recognizes the misspelled `Grobal` instead), and a
`Static` field yields a public Element whose static flag is `false`,
not set. -/
theorem c6_counterexample :
    Vb6.foundMember "Global x As Integer\n" = .ok none ∧
    Vb6.foundMember "Static y As Integer\n" =
      .ok (some (.mk "y" .VAR "Integer" false .PUBLIC "" false []
        [{ name := "", type := "Integer", is_reference := false,
           is_optional := false, is_vlargs := false, is_kwargs := false,
           default_value := "default", is_str := false }] [])) :=
  ⟨rfl, rfl⟩

/-- Witness for C6's amended statement at the concrete line
`Friend f As Long`. -/
theorem c6_member_access_keywords_witness :
    ∃ e, Vb6.foundMember "Friend f As Long\n" = .ok (some e) ∧
      e.accessibility = .INTERNAL ∧ e.is_static = false :=
  (c6_member_access_keywords.1 "Friend f As Long\n"
    [(7, ['L', 'o', 'n', 'g']), (5, ['f']),
     (1, ['F', 'r', 'i', 'e', 'n', 'd', ' '])] rfl).2.2.1 rfl

/-- C7 (counterexample): the same property-getter block parsed as a
standard module and as a class module.  The class parse yields a
Property Element; the standard parse yields none — `_parse_bas` never
tests the property patterns, contrary to the claim that a property
declaration is recognized in a standard module just as in a class
module. -/
theorem c7_counterexample :
    Vb6.parse .STANDARD
      ["Public Property Get Foo() As Integer\n", "End Property\n"] =
      .ok ⟨.mk "root" .OTHER "void" false .UNDEF "" false [] []
        [.mk "using" .OTHER "void" false .UNDEF "" false
          [("using", ["Class"])] [] [],
         .mk "Standard" .NAME_SPACE "void" false .UNDEF "" false [] []
          [.mk "DummyName" .CLASS "void" false .UNDEF "" false [] [] []]]⟩ ∧
    Vb6.parse .CLASS
      ["Public Property Get Foo() As Integer\n", "End Property\n"] =
      .ok ⟨.mk "root" .OTHER "void" false .UNDEF "" false [] []
        [.mk "Class" .NAME_SPACE "void" false .UNDEF "" false [] []
          [.mk "DummyName" .CLASS "void" false .UNDEF "" false [] []
            [.mk "Foo" .PROPERTY "Integer" false .PUBLIC "" false [] [] []]]]⟩ :=
  ⟨rfl, rfl⟩

/-- C7 (amended): in class and form modules a line not claimed by the
doc-comment check or an active scanner is dispatched to the first
matching opener in the order property-get, property-set, record type,
plain member, function, subroutine, enum; in standard modules property
patterns are not tested at all — the opener order there is record type,
plain member, function, subroutine, enum, and a line matching only the
property patterns leaves the state unchanged (the declaration is
dropped). -/
theorem c7_opener_priority :
    (∀ (st : Vb6.ScanState) (s : String),
      st.mode = .top → Vb6.foundDoxyComment s = none →
      ((∀ pf, Vb6.findPropertyGet s st.lastPropElem = .ok (some pf) →
          Vb6.processLineCls st s = .ok (st.applyProp pf)) ∧
       (Vb6.findPropertyGet s st.lastPropElem = .ok none →
        ∀ pf, Vb6.findPropertySet s st.lastPropElem = .ok (some pf) →
          Vb6.processLineCls st s = .ok (st.applyProp pf)) ∧
       (Vb6.findPropertyGet s st.lastPropElem = .ok none →
        Vb6.findPropertySet s st.lastPropElem = .ok none →
        ∀ te, Vb6.findType s = .ok (some te) →
          Vb6.processLineCls st s = .ok { st with
            cls := st.cls.addChild te,
            mode := .inType st.cls.childs.length }) ∧
       (Vb6.findPropertyGet s st.lastPropElem = .ok none →
        Vb6.findPropertySet s st.lastPropElem = .ok none →
        Vb6.findType s = .ok none →
        ∀ me, Vb6.foundMember s = .ok (some me) →
          Vb6.processLineCls st s =
            .ok { st with cls := st.cls.addChild me }) ∧
       (Vb6.findPropertyGet s st.lastPropElem = .ok none →
        Vb6.findPropertySet s st.lastPropElem = .ok none →
        Vb6.findType s = .ok none → Vb6.foundMember s = .ok none →
        ∀ fe, Vb6.findFunction s = .ok (some fe) →
          Vb6.processLineCls st s = .ok { st with
            cls := st.cls.addChild fe,
            mode := .inFunc st.cls.childs.length }) ∧
       (Vb6.findPropertyGet s st.lastPropElem = .ok none →
        Vb6.findPropertySet s st.lastPropElem = .ok none →
        Vb6.findType s = .ok none → Vb6.foundMember s = .ok none →
        Vb6.findFunction s = .ok none →
        ∀ se, Vb6.findSub s = .ok (some se) →
          Vb6.processLineCls st s = .ok { st with
            cls := st.cls.addChild se,
            mode := .inSub st.cls.childs.length }) ∧
       (Vb6.findPropertyGet s st.lastPropElem = .ok none →
        Vb6.findPropertySet s st.lastPropElem = .ok none →
        Vb6.findType s = .ok none → Vb6.foundMember s = .ok none →
        Vb6.findFunction s = .ok none → Vb6.findSub s = .ok none →
        ∀ ee, Vb6.findEnum s = .ok (some ee) →
          Vb6.processLineCls st s = .ok { st with
            cls := st.cls.addChild ee,
            mode := .inEnum st.cls.childs.length }))) ∧
    (∀ (st : Vb6.ScanState) (s : String),
      st.mode = .top → Vb6.foundDoxyComment s = none →
      ((∀ te, Vb6.findType s = .ok (some te) →
          Vb6.processLineBas st s = .ok { st with
            cls := st.cls.addChild te,
            mode := .inType st.cls.childs.length }) ∧
       (Vb6.findType s = .ok none → Vb6.foundMember s = .ok none →
        Vb6.findFunction s = .ok none → Vb6.findSub s = .ok none →
        Vb6.findEnum s = .ok none →
        Vb6.processLineBas st s = .ok st))) := by
  constructor
  · intro st s hmode hdoxy
    refine ⟨?_, ?_, ?_, ?_, ?_, ?_, ?_⟩
    · intro pf hpg
      simp [Vb6.processLineCls, Bind.bind, Except.bind, hdoxy, hmode, hpg]
    · intro hpg pf hps
      simp [Vb6.processLineCls, Bind.bind, Except.bind, hdoxy, hmode, hpg, hps]
    · intro hpg hps te hte
      simp [Vb6.processLineCls, Bind.bind, Except.bind, hdoxy, hmode, hpg, hps, hte]
    · intro hpg hps hte me hme
      simp [Vb6.processLineCls, Bind.bind, Except.bind, hdoxy, hmode, hpg, hps, hte, hme]
    · intro hpg hps hte hme fe hfe
      simp [Vb6.processLineCls, Bind.bind, Except.bind, hdoxy, hmode, hpg, hps, hte, hme, hfe]
    · intro hpg hps hte hme hfe se hse
      simp [Vb6.processLineCls, Bind.bind, Except.bind, hdoxy, hmode, hpg, hps, hte, hme, hfe, hse]
    · intro hpg hps hte hme hfe hse ee hee
      simp [Vb6.processLineCls, Bind.bind, Except.bind, hdoxy, hmode, hpg, hps, hte, hme, hfe, hse,
        hee]
  · intro st s hmode hdoxy
    constructor
    · intro te hte
      simp [Vb6.processLineBas, Bind.bind, Except.bind, hdoxy, hmode, hte]
    · intro hte hme hfe hse hee
      simp [Vb6.processLineBas, Bind.bind, Except.bind, hdoxy, hmode, hte, hme, hfe, hse, hee]

/-- Witness for C7's amended statement: the property-getter line opens a
property block in a class-module scan but leaves a standard-module scan
unchanged. -/
theorem c7_opener_priority_witness :
    Vb6.processLineCls
      ⟨.mk "DummyName" .CLASS "void" false .UNDEF "" false [] [] [],
        .top, none⟩
      "Public Property Get Foo() As Integer\n" =
      .ok ((⟨.mk "DummyName" .CLASS "void" false .UNDEF "" false [] [] [],
        .top, none⟩ : Vb6.ScanState).applyProp
          (.fresh (newElem "Foo" .PROPERTY "Integer" false .PUBLIC "" false
            []))) ∧
    Vb6.processLineBas
      ⟨.mk "DummyName" .CLASS "void" false .UNDEF "" false [] [] [],
        .top, none⟩
      "Public Property Get Foo() As Integer\n" =
      .ok ⟨.mk "DummyName" .CLASS "void" false .UNDEF "" false [] [] [],
        .top, none⟩ :=
  ⟨(c7_opener_priority.1
      ⟨.mk "DummyName" .CLASS "void" false .UNDEF "" false [] [] [],
        .top, none⟩
      "Public Property Get Foo() As Integer\n" rfl rfl).1 _ rfl,
   (c7_opener_priority.2
      ⟨.mk "DummyName" .CLASS "void" false .UNDEF "" false [] [] [],
        .top, none⟩
      "Public Property Get Foo() As Integer\n" rfl rfl).2 rfl rfl rfl rfl rfl⟩

/-- C2 (counterexample): a getter declared `As Integer` paired with a
setter whose value argument is `String`.  The collapsed Property Element
carries return type `String` — the setter's argument type — not the
getter's declared return type `Integer` as the claim states: both merge
branches overwrite `return_type` with `arguments[0].type`. -/
theorem c2_counterexample :
    Vb6.parse .CLASS
      ["Public Property Get Foo() As Integer\n", "End Property\n",
       "Public Property Let Foo(ByVal v As String)\n", "End Property\n"] =
      .ok ⟨.mk "root" .OTHER "void" false .UNDEF "" false [] []
        [.mk "Class" .NAME_SPACE "void" false .UNDEF "" false [] []
          [.mk "DummyName" .CLASS "void" false .UNDEF "" false [] []
            [.mk "Foo" .PROPERTY "String" false .PUBLIC "" false []
              [{ name := "v", type := "String", is_reference := false,
                 is_optional := false, is_vlargs := false,
                 is_kwargs := false, default_value := "default",
                 is_str := false }] []]]]⟩ ∧
    ("String" : String) ≠ "Integer" :=
  ⟨rfl, by decide⟩

namespace Vb6

/-- The class-module scan applied to a list of (post-continuation)
lines. -/
def runLines (st : ScanState) (lines : List String) :
    Except PErr ScanState :=
  lines.foldlM processLineCls st

end Vb6

theorem list_set_concat_length {α : Type} :
    ∀ (l : List α) (a b : α), (l ++ [a]).set l.length b = l ++ [b]
  | [], _, _ => rfl
  | x :: xs, a, b => by
      simp only [List.cons_append, List.set, List.length_cons]
      rw [show xs.append [a] = xs ++ [a] from rfl, list_set_concat_length xs a b]

theorem childs_withChilds (e : CodeElement) (x : List CodeElement) :
    (e.withChilds x).childs = x := by
  cases e
  rfl

theorem withChilds_withChilds (e : CodeElement) (x y : List CodeElement) :
    (e.withChilds x).withChilds y = e.withChilds y := by
  cases e
  rfl

theorem arguments_withArguments (e : CodeElement)
    (x : List CodeElementArgument) : (e.withArguments x).arguments = x := by
  cases e
  rfl

theorem name_newElem (n : String) (t : CodeElementType) (rt : String)
    (st : Bool) (a : CodeElementAccessibility) (v : String) (i : Bool)
    (o : List (String × List String)) : (newElem n t rt st a v i o).name = n :=
  rfl

/-- C2 (amended): a property getter and setter sharing one name, with
equal access outcomes, collapse — in either order — into exactly one
Property Element; but the element carries the setter's sole
value-argument type as BOTH its return type and its argument type (the
getter's declared return type is discarded by the merge, which always
overwrites `return_type` with `arguments[0].type`), and the result is
identical for both declaration orders. -/
theorem c2_property_pair_merge (C : CodeElement) (g sl el : String)
    (mg ms : Rex.Caps) (acc : CodeElementAccessibility) (stc : Bool)
    (pname : String) (arg : CodeElementArgument)
    (hgd : Vb6.foundDoxyComment g = none)
    (hgm : Vb6Rx.reMatchS true Vb6Rx.rePropGet (Vb6.stripComments g) =
      some mg)
    (hgacc : Vb6.getAccessibility (Vb6Rx.mgrp mg 1)
      Vb6.elemDefaultAccessLevel = some (acc, stc))
    (hgname : Py.strip (Vb6Rx.mgrpD mg 2) = pname)
    (hsd : Vb6.foundDoxyComment sl = none)
    (hspg : Vb6Rx.reMatchS true Vb6Rx.rePropGet (Vb6.stripComments sl) =
      none)
    (hsm : Vb6Rx.reMatchS true Vb6Rx.rePropSet (Vb6.stripComments sl) =
      some ms)
    (hsacc : Vb6.getAccessibility (Vb6Rx.mgrp ms 1)
      Vb6.elemDefaultAccessLevel = some (acc, stc))
    (hsname : Py.strip (Vb6Rx.mgrpD ms 3) = pname)
    (hsargs : Vb6.buildArgsList (Vb6Rx.mgrpD ms 4) = [arg])
    (hed : Vb6.foundDoxyComment el = none)
    (hep : Vb6.endPropertyFound el = true) :
    Vb6.runLines ⟨C, .top, none⟩ [g, el, sl, el] =
      .ok ⟨C.withChilds (C.childs ++
          [.mk pname .PROPERTY arg.type stc acc "" false [] [arg] []]),
        .top, some C.childs.length⟩ ∧
    Vb6.runLines ⟨C, .top, none⟩ [sl, el, g, el] =
      .ok ⟨C.withChilds (C.childs ++
          [.mk pname .PROPERTY arg.type stc acc "" false [] [arg] []]),
        .top, some C.childs.length⟩ := by
  set P : CodeElement :=
    .mk pname .PROPERTY arg.type stc acc "" false [] [arg] [] with hP
  set E1 : CodeElement := newElem pname .PROPERTY
    (Vb6.formatArrayType (Vb6Rx.mgrp mg 3) (Vb6Rx.mgrp mg 4)) stc acc ""
    false [] with hE1
  set E2 : CodeElement := .mk pname .PROPERTY "void" stc acc "" false []
    [arg] [] with hE2
  set len := C.childs.length with hlen
  -- getter line against an empty lastProperty: fresh element
  have hfg1 : Vb6.findPropertyGet g none = .ok (some (.fresh E1)) := by
    simp only [Vb6.findPropertyGet, hgm, hgacc, hgname, hE1]
  -- getter line against the setter-made element: merge
  have hfg2 : Vb6.findPropertyGet g (some E2) = .ok (some (.merged P)) := by
    simp only [Vb6.findPropertyGet, hgm, hgacc, hgname, hE2, hP]
    simp [CodeElement.name, CodeElement.arguments, CodeElement.withReturnType]
  -- setter line never matches the getter pattern
  have hfs0 : ∀ prev, Vb6.findPropertyGet sl prev = .ok none := by
    intro prev
    simp only [Vb6.findPropertyGet, hspg]
  -- setter line against an empty lastProperty: fresh element
  have hfs1 : Vb6.findPropertySet sl none = .ok (some (.fresh E2)) := by
    simp only [Vb6.findPropertySet, hsm, hsacc, hsname, hsargs, hE2]
    rfl
  -- setter line against the getter-made element: merge
  have hfs2 : Vb6.findPropertySet sl (some E1) = .ok (some (.merged P)) := by
    simp only [Vb6.findPropertySet, hsm, hsacc, hsname, hsargs, hE1, hP]
    simp [newElem, CodeElement.name, CodeElement.arguments,
      CodeElement.withArguments, CodeElement.withReturnType]
  -- lastProperty lookup after appending an element
  have hlook : ∀ (E : CodeElement),
      (Vb6.ScanState.mk (C.addChild E) .top (some len)).lastPropElem =
        some E := by
    intro E
    simp [Vb6.ScanState.lastPropElem, CodeElement.addChild, childs_withChilds,
      hlen, List.getElem?_concat_length]
  -- overwriting the appended element in place
  have hset : ∀ (E : CodeElement),
      (C.addChild E).setChild len P = C.withChilds (C.childs ++ [P]) := by
    intro E
    simp [CodeElement.addChild, CodeElement.setChild, childs_withChilds,
      withChilds_withChilds, hlen, list_set_concat_length]
  -- the four line steps, getter-first order
  have h1 : Vb6.processLineCls ⟨C, .top, none⟩ g =
      .ok ⟨C.addChild E1, .inProp len, some len⟩ := by
    simp [Vb6.processLineCls, hgd, Vb6.ScanState.lastPropElem, hfg1,
      Bind.bind, Except.bind, Vb6.ScanState.applyProp, hlen]
  have h2 : ∀ (cls : CodeElement),
      Vb6.processLineCls ⟨cls, .inProp len, some len⟩ el =
        .ok ⟨cls, .top, some len⟩ := by
    intro cls
    simp [Vb6.processLineCls, hed, hep]
  have h3 : Vb6.processLineCls ⟨C.addChild E1, .top, some len⟩ sl =
      .ok ⟨C.withChilds (C.childs ++ [P]), .inProp len, some len⟩ := by
    simp only [Vb6.processLineCls, hsd, hlook E1, hfs0, hfs2, Bind.bind,
      Except.bind, Vb6.ScanState.applyProp, hset E1]
  have k1 : Vb6.processLineCls ⟨C, .top, none⟩ sl =
      .ok ⟨C.addChild E2, .inProp len, some len⟩ := by
    simp [Vb6.processLineCls, hsd, Vb6.ScanState.lastPropElem, hfs0, hfs1,
      Bind.bind, Except.bind, Vb6.ScanState.applyProp, hlen]
  have k3 : Vb6.processLineCls ⟨C.addChild E2, .top, some len⟩ g =
      .ok ⟨C.withChilds (C.childs ++ [P]), .inProp len, some len⟩ := by
    simp only [Vb6.processLineCls, hgd, hlook E2, hfg2, hfs0, Bind.bind,
      Except.bind, Vb6.ScanState.applyProp, hset E2]
  constructor
  · simp only [Vb6.runLines, List.foldlM, h1, Bind.bind, Except.bind,
      h2 (C.addChild E1), h3, h2 (C.withChilds (C.childs ++ [P]))]
    rfl
  · simp only [Vb6.runLines, List.foldlM, k1, Bind.bind, Except.bind,
      h2 (C.addChild E2), k3, h2 (C.withChilds (C.childs ++ [P]))]
    rfl

/-- Witness for C2's amended statement at the concrete pair
`Public Property Get Foo() As Integer` / `Public Property Let Foo(ByVal
v As String)`: both orders produce the same single Property Element of
return type `String`. -/
theorem c2_property_pair_merge_witness :
    Vb6.runLines
      ⟨.mk "DummyName" .CLASS "void" false .UNDEF "" false [] [] [],
        .top, none⟩
      ["Public Property Get Foo() As Integer\n", "End Property\n",
       "Public Property Let Foo(ByVal v As String)\n", "End Property\n"] =
      .ok ⟨(CodeElement.mk "DummyName" .CLASS "void" false .UNDEF "" false []
          [] []).withChilds
          ([] ++ [.mk "Foo" .PROPERTY "String" false .PUBLIC "" false []
            [{ name := "v", type := "String", is_reference := false,
               is_optional := false, is_vlargs := false, is_kwargs := false,
               default_value := "default", is_str := false }] []]),
        .top, some 0⟩ ∧
    Vb6.runLines
      ⟨.mk "DummyName" .CLASS "void" false .UNDEF "" false [] [] [],
        .top, none⟩
      ["Public Property Let Foo(ByVal v As String)\n", "End Property\n",
       "Public Property Get Foo() As Integer\n", "End Property\n"] =
      .ok ⟨(CodeElement.mk "DummyName" .CLASS "void" false .UNDEF "" false []
          [] []).withChilds
          ([] ++ [.mk "Foo" .PROPERTY "String" false .PUBLIC "" false []
            [{ name := "v", type := "String", is_reference := false,
               is_optional := false, is_vlargs := false, is_kwargs := false,
               default_value := "default", is_str := false }] []]),
        .top, some 0⟩ :=
  c2_property_pair_merge
    (.mk "DummyName" .CLASS "void" false .UNDEF "" false [] [] [])
    "Public Property Get Foo() As Integer\n"
    "Public Property Let Foo(ByVal v As String)\n"
    "End Property\n"
    [(3, ['I', 'n', 't', 'e', 'g', 'e', 'r']), (2, ['F', 'o', 'o']),
     (1, ['P', 'u', 'b', 'l', 'i', 'c', ' '])]
    [(4, ['B', 'y', 'V', 'a', 'l', ' ', 'v', ' ', 'A', 's', ' ', 'S', 't',
       'r', 'i', 'n', 'g']), (3, ['F', 'o', 'o']), (2, ['L', 'e', 't']),
     (1, ['P', 'u', 'b', 'l', 'i', 'c', ' '])]
    .PUBLIC false "Foo"
    { name := "v", type := "String", is_reference := false,
      is_optional := false, is_vlargs := false, is_kwargs := false,
      default_value := "default", is_str := false }
    rfl rfl rfl rfl rfl rfl rfl rfl rfl rfl rfl rfl

/-! ## Character-level facts -/

namespace Py

theorem toNat_ofNat_valid (n : Nat) (h : n.isValidChar) :
    (Char.ofNat n).toNat = n := by
  unfold Char.ofNat
  rw [dif_pos h]
  rfl

theorem isSpace_cases {c : Char} (h : isSpace c = true) :
    c = ' ' ∨ c = '\t' ∨ c = '\n' ∨ c = '\r' ∨ c = '\x0b' ∨ c = '\x0c' := by
  simp only [isSpace, Bool.or_eq_true, beq_iff_eq] at h
  tauto

theorem isSpace_of_range_false {c : Char} (h1 : 33 ≤ c.toNat) :
    isSpace c = false := by
  by_contra hc
  rw [Bool.not_eq_false] at hc
  rcases isSpace_cases hc with h | h | h | h | h | h <;> subst h <;>
    exact absurd h1 (by decide)

theorem toLower_eq_self_or (c : Char) :
    c.toLower = c ∨
      (65 ≤ c.toNat ∧ c.toNat ≤ 90 ∧
        97 ≤ c.toLower.toNat ∧ c.toLower.toNat ≤ 122) := by
  unfold Char.toLower
  simp only []
  split
  case isTrue h =>
    right
    rw [toNat_ofNat_valid _ (Or.inl (by omega))]
    omega
  case isFalse h => left; rfl

theorem toUpper_eq_self_or (c : Char) :
    c.toUpper = c ∨
      (97 ≤ c.toNat ∧ c.toNat ≤ 122 ∧
        65 ≤ c.toUpper.toNat ∧ c.toUpper.toNat ≤ 90) := by
  unfold Char.toUpper
  simp only []
  split
  case isTrue h =>
    right
    rw [toNat_ofNat_valid _ (Or.inl (by omega))]
    omega
  case isFalse h => left; rfl

theorem isSpace_toLower (c : Char) : isSpace c.toLower = isSpace c := by
  rcases toLower_eq_self_or c with h | ⟨h1, h2, h3, h4⟩
  · rw [h]
  · rw [isSpace_of_range_false (by omega), isSpace_of_range_false (by omega)]

theorem isSpace_toUpper (c : Char) : isSpace c.toUpper = isSpace c := by
  rcases toUpper_eq_self_or c with h | ⟨h1, h2, h3, h4⟩
  · rw [h]
  · rw [isSpace_of_range_false (by omega), isSpace_of_range_false (by omega)]

end Py

namespace Rex

theorem evalCls_isSpace (ci : Bool) (c : Char) :
    evalCls ci Py.isSpace c = Py.isSpace c := by
  unfold evalCls
  rw [Py.isSpace_toLower, Py.isSpace_toUpper]
  cases ci <;> cases h : Py.isSpace c <;> simp

theorem ciChar_toLower {ci : Bool} {c d : Char} (h : ciChar ci c d = true) :
    d.toLower = c.toLower := by
  unfold ciChar at h
  split at h
  · exact (eq_of_beq h).symm
  · rw [eq_of_beq h]

end Rex

/-! ## `str.strip` facts -/

namespace Py

theorem dropWhile_eq_self_of_forall : ∀ (l : List Char),
    (∀ c ∈ l, isSpace c = false) → l.dropWhile isSpace = l
  | [], _ => rfl
  | c :: l, h => by
      rw [List.dropWhile_cons, if_neg (by simp [h c (List.mem_cons_self c l)])]

theorem dropWhile_all_append : ∀ (t2 l : List Char),
    (∀ c ∈ t2, isSpace c = true) →
    (t2 ++ l).dropWhile isSpace = l.dropWhile isSpace
  | [], _, _ => rfl
  | c :: t2, l, h => by
      rw [List.cons_append, List.dropWhile_cons,
        if_pos (by simp [h c (List.mem_cons_self c t2)])]
      exact dropWhile_all_append t2 l
        (fun x hx => h x (List.mem_cons_of_mem c hx))

theorem stripChars_of_forall_not (l : List Char)
    (h : ∀ c ∈ l, isSpace c = false) : stripChars l = l := by
  unfold stripChars
  rw [dropWhile_eq_self_of_forall l h,
    dropWhile_eq_self_of_forall _ (by
      intro c hc
      exact h c (by simpa using hc)),
    List.reverse_reverse]

theorem stripChars_keyword (t1 t2 : List Char) (hne : t1 ≠ [])
    (h1 : ∀ c ∈ t1, isSpace c = false)
    (h2 : ∀ c ∈ t2, isSpace c = true) :
    stripChars (t1 ++ t2) = t1 := by
  unfold stripChars
  have hd : (t1 ++ t2).dropWhile isSpace = t1 ++ t2 := by
    cases t1 with
    | nil => exact absurd rfl hne
    | cons c t1a =>
        rw [List.cons_append, List.dropWhile_cons,
          if_neg (by simp [h1 c (List.mem_cons_self c t1a)])]
  rw [hd, List.reverse_append,
    dropWhile_all_append _ _ (by
      intro c hc
      exact h2 c (by simpa using hc)),
    dropWhile_eq_self_of_forall _ (by
      intro c hc
      exact h1 c (by simpa using hc)),
    List.reverse_reverse]

end Py

/-! ## Capture soundness of the matcher

To settle the error-freedom claim we must rule out the `TypeError` path of
`_get_accessibility` (modelled as `PErr.noneUnpack`): whatever an
access-level group captures must be one of the five keywords followed by
whitespace.  `CapOK i G r` says that pattern `r` only ever records values
satisfying `G` for group `i`. -/

namespace Rex

/-- Every capture registered for group `i` satisfies `G`. -/
def CapGood (i : Nat) (G : List Char → Prop) (caps : Caps) : Prop :=
  ∀ v, getCap caps i = some v → G v

theorem capGood_nil (i : Nat) (G : List Char → Prop) : CapGood i G [] := by
  intro v hv
  simp [getCap] at hv

theorem getCap_setCap_self (caps : Caps) (i : Nat) (v : List Char) :
    getCap (setCap caps i v) i = some v := by
  unfold getCap setCap
  rw [List.find?_cons_of_pos _ (by simp)]
  rfl

theorem getCap_setCap_other (caps : Caps) (i j : Nat) (v : List Char)
    (h : j ≠ i) : getCap (setCap caps j v) i = getCap caps i := by
  unfold getCap setCap
  rw [List.find?_cons_of_neg _ (by simp [h])]

/-- Pattern `r` only ever records values satisfying `G` for group `i`:
either the group does not occur (modulo recursion), or it is group `i`
itself and every prefix its body can consume satisfies `G`. -/
inductive CapOK (i : Nat) (G : List Char → Prop) : RE → Prop where
  | eps : CapOK i G .eps
  | anyc : CapOK i G .anyc
  | ch (c : Char) : CapOK i G (.ch c)
  | cls (p : Char → Bool) : CapOK i G (.cls p)
  | eos : CapOK i G .eos
  | seq {a b : RE} : CapOK i G a → CapOK i G b → CapOK i G (.seq a b)
  | alt {a b : RE} : CapOK i G a → CapOK i G b → CapOK i G (.alt a b)
  | star {a : RE} : CapOK i G a → CapOK i G (.star a)
  | opt {a : RE} : CapOK i G a → CapOK i G (.opt a)
  | groupOther {j : Nat} {a : RE} : j ≠ i → CapOK i G a →
      CapOK i G (.group j a)
  | groupSelf {a : RE} :
      (∀ (ci : Bool) (s : List Char) (caps : Caps) (q : Caps × List Char),
        q ∈ pymatches ci a s caps → G (s.take (s.length - q.2.length))) →
      CapOK i G (.group i a)

theorem capok_sound {i : Nat} {G : List Char → Prop} {r : RE}
    (h : CapOK i G r) :
    ∀ (ci : Bool) (s : List Char) (caps : Caps), CapGood i G caps →
      ∀ q ∈ pymatches ci r s caps, CapGood i G q.1 := by
  induction h with
  | eps =>
      intro ci s caps hc q hq
      simp only [pymatches_eps, List.mem_singleton] at hq
      subst hq
      exact hc
  | anyc =>
      intro ci s caps hc q hq
      cases s with
      | nil => simp only [pymatches_anyc_nil, List.not_mem_nil] at hq
      | cons d s1 =>
          rw [pymatches_anyc_cons] at hq
          split at hq
          · exact absurd hq (List.not_mem_nil q)
          · rw [List.mem_singleton] at hq
            subst hq
            exact hc
  | ch c =>
      intro ci s caps hc q hq
      cases s with
      | nil => simp only [pymatches_ch_nil, List.not_mem_nil] at hq
      | cons d s1 =>
          rw [pymatches_ch_cons] at hq
          split at hq
          · rw [List.mem_singleton] at hq
            subst hq
            exact hc
          · exact absurd hq (List.not_mem_nil q)
  | cls p =>
      intro ci s caps hc q hq
      cases s with
      | nil => simp only [pymatches_cls_nil, List.not_mem_nil] at hq
      | cons d s1 =>
          rw [pymatches_cls_cons] at hq
          split at hq
          · rw [List.mem_singleton] at hq
            subst hq
            exact hc
          · exact absurd hq (List.not_mem_nil q)
  | eos =>
      intro ci s caps hc q hq
      rw [pymatches_eos] at hq
      split at hq
      · rw [List.mem_singleton] at hq
        subst hq
        exact hc
      · exact absurd hq (List.not_mem_nil q)
  | seq ha hb iha ihb =>
      intro ci s caps hc q hq
      rw [pymatches_seq, List.mem_flatMap] at hq
      obtain ⟨q1, hq1, hq2⟩ := hq
      exact ihb ci q1.2 q1.1 (iha ci s caps hc q1 hq1) q hq2
  | alt ha hb iha ihb =>
      intro ci s caps hc q hq
      rw [pymatches_alt, List.mem_append] at hq
      rcases hq with h | h
      · exact iha ci s caps hc q h
      · exact ihb ci s caps hc q h
  | @star a ha iha =>
      intro ci s caps hc q hq
      have aux : ∀ (n : Nat) (s2 : List Char) (caps2 : Caps),
          s2.length ≤ n → CapGood i G caps2 →
          ∀ q2 ∈ pymatches ci (RE.star a) s2 caps2, CapGood i G q2.1 := by
        intro n
        induction n with
        | zero =>
            intro s2 caps2 hlen hc2 q2 hq2
            have hs2 : s2 = [] := List.eq_nil_of_length_eq_zero (by omega)
            subst hs2
            rw [pymatches_star, List.mem_append] at hq2
            rcases hq2 with h | h
            · rw [List.mem_flatMap] at h
              obtain ⟨q1, hq1, hq3⟩ := h
              rw [if_neg (by simp)] at hq3
              exact absurd hq3 (List.not_mem_nil q2)
            · rw [List.mem_singleton] at h
              subst h
              exact hc2
        | succ n ihn =>
            intro s2 caps2 hlen hc2 q2 hq2
            rw [pymatches_star, List.mem_append] at hq2
            rcases hq2 with h | h
            · rw [List.mem_flatMap] at h
              obtain ⟨q1, hq1, hq3⟩ := h
              by_cases hlt : q1.2.length < s2.length
              · rw [if_pos hlt] at hq3
                exact ihn q1.2 q1.1 (by omega)
                  (iha ci s2 caps2 hc2 q1 hq1) q2 hq3
              · rw [if_neg hlt] at hq3
                exact absurd hq3 (List.not_mem_nil q2)
            · rw [List.mem_singleton] at h
              subst h
              exact hc2
      exact aux s.length s caps (le_refl _) hc q hq
  | opt ha iha =>
      intro ci s caps hc q hq
      rw [pymatches_opt, List.mem_append] at hq
      rcases hq with h | h
      · exact iha ci s caps hc q h
      · rw [List.mem_singleton] at h
        subst h
        exact hc
  | groupOther hj ha iha =>
      intro ci s caps hc q hq
      rw [pymatches_group, List.mem_map] at hq
      obtain ⟨q1, hq1, hq2⟩ := hq
      subst hq2
      intro v hv
      rw [getCap_setCap_other _ _ _ _ hj] at hv
      exact iha ci s caps hc q1 hq1 v hv
  | groupSelf hb =>
      intro ci s caps hc q hq
      rw [pymatches_group, List.mem_map] at hq
      obtain ⟨q1, hq1, hq2⟩ := hq
      subst hq2
      intro v hv
      rw [getCap_setCap_self] at hv
      injection hv with hv
      subst hv
      exact hb ci s caps q1 hq1

/-- Syntactic test: can group `i` occur anywhere in `r`? -/
def hasGroupB (i : Nat) : RE → Bool
  | .seq a b => hasGroupB i a || hasGroupB i b
  | .alt a b => hasGroupB i a || hasGroupB i b
  | .star a => hasGroupB i a
  | .opt a => hasGroupB i a
  | .group j a => (j == i) || hasGroupB i a
  | _ => false

theorem capok_of_hasGroupB_eq_false {i : Nat} {G : List Char → Prop} :
    ∀ {r : RE}, hasGroupB i r = false → CapOK i G r := by
  intro r
  induction r with
  | eps => intro h; exact .eps
  | anyc => intro h; exact .anyc
  | ch c => intro h; exact .ch c
  | cls p => intro h; exact .cls p
  | eos => intro h; exact .eos
  | seq a b iha ihb =>
      intro h
      simp only [hasGroupB, Bool.or_eq_false_iff] at h
      exact .seq (iha h.1) (ihb h.2)
  | alt a b iha ihb =>
      intro h
      simp only [hasGroupB, Bool.or_eq_false_iff] at h
      exact .alt (iha h.1) (ihb h.2)
  | star a iha =>
      intro h
      simp only [hasGroupB] at h
      exact .star (iha h)
  | opt a iha =>
      intro h
      simp only [hasGroupB] at h
      exact .opt (iha h)
  | group j a iha =>
      intro h
      simp only [hasGroupB, Bool.or_eq_false_iff, beq_eq_false_iff_ne] at h
      exact .groupOther h.1 (iha h.2)

end Rex

/-! ## What literal words and whitespace runs consume -/

namespace Rex

theorem pymatches_foldr_ch (ci : Bool) :
    ∀ (cs s : List Char) (caps : Caps) (q : Caps × List Char),
      q ∈ pymatches ci (cs.foldr (fun c r => RE.seq (RE.ch c) r) RE.eps) s caps →
      q.1 = caps ∧ ∃ t, s = t ++ q.2 ∧ t.map Char.toLower = cs.map Char.toLower := by
  intro cs
  induction cs with
  | nil =>
      intro s caps q hq
      simp only [List.foldr_nil, pymatches_eps, List.mem_singleton] at hq
      subst hq
      exact ⟨rfl, [], rfl, rfl⟩
  | cons c cs ih =>
      intro s caps q hq
      simp only [List.foldr_cons] at hq
      rw [pymatches_seq, List.mem_flatMap] at hq
      obtain ⟨q1, hq1, hq2⟩ := hq
      cases s with
      | nil => simp only [pymatches_ch_nil, List.not_mem_nil] at hq1
      | cons d s2 =>
          rw [pymatches_ch_cons] at hq1
          split at hq1
          case isTrue hcd =>
            rw [List.mem_singleton] at hq1
            subst hq1
            obtain ⟨h1, t, ht, hmap⟩ := ih s2 caps q hq2
            refine ⟨h1, d :: t, by rw [ht]; rfl, ?_⟩
            simp only [List.map_cons, hmap, ciChar_toLower hcd]
          case isFalse hcd =>
            exact absurd hq1 (List.not_mem_nil q1)

/-- Greedy `[c]*` consumption: a star of a single class consumes a run
of class characters and records no capture. -/
theorem pymatches_star_cls (ci : Bool) (p : Char → Bool) :
    ∀ (n : Nat) (s : List Char) (caps : Caps) (q : Caps × List Char),
      s.length ≤ n →
      q ∈ pymatches ci (RE.star (RE.cls p)) s caps →
      q.1 = caps ∧ ∃ t, s = t ++ q.2 ∧ ∀ c ∈ t, evalCls ci p c = true := by
  intro n
  induction n with
  | zero =>
      intro s caps q hlen hq
      have hs : s = [] := List.eq_nil_of_length_eq_zero (by omega)
      subst hs
      rw [pymatches_star, List.mem_append] at hq
      rcases hq with h | h
      · rw [List.mem_flatMap] at h
        obtain ⟨q1, hq1, hq2⟩ := h
        rw [if_neg (by simp)] at hq2
        exact absurd hq2 (List.not_mem_nil q)
      · rw [List.mem_singleton] at h
        subst h
        exact ⟨rfl, [], rfl, by intro c hc; exact absurd hc (List.not_mem_nil c)⟩
  | succ n ihn =>
      intro s caps q hlen hq
      rw [pymatches_star, List.mem_append] at hq
      rcases hq with h | h
      · rw [List.mem_flatMap] at h
        obtain ⟨q1, hq1, hq2⟩ := h
        cases s with
        | nil => simp only [pymatches_cls_nil, List.not_mem_nil] at hq1
        | cons d s2 =>
            rw [pymatches_cls_cons] at hq1
            split at hq1
            case isTrue hd =>
              rw [List.mem_singleton] at hq1
              subst hq1
              rw [if_pos (by simp)] at hq2
              obtain ⟨h1, t, ht, hall⟩ :=
                ihn s2 caps q (by simp at hlen; omega) hq2
              refine ⟨h1, d :: t, by rw [ht]; rfl, ?_⟩
              intro c hc
              rcases List.mem_cons.mp hc with h | h
              · subst h; exact hd
              · exact hall c h
            case isFalse hd =>
              exact absurd hq1 (List.not_mem_nil q1)
      · rw [List.mem_singleton] at h
        subst h
        exact ⟨rfl, [], rfl, by intro c hc; exact absurd hc (List.not_mem_nil c)⟩

end Rex

namespace Vb6Rx

open Rex

theorem pymatches_rlits (ci : Bool) (w : String) (s : List Char) (caps : Caps)
    (q : Caps × List Char) (hq : q ∈ pymatches ci (rlits w) s caps) :
    q.1 = caps ∧ ∃ t, s = t ++ q.2 ∧ t.map Char.toLower = w.data.map Char.toLower :=
  pymatches_foldr_ch ci w.data s caps q hq

/-- `\s+` consumes a non-empty run of whitespace. -/
theorem pymatches_wsPlus (ci : Bool) (s : List Char) (caps : Caps)
    (q : Caps × List Char) (hq : q ∈ pymatches ci wsPlus s caps) :
    q.1 = caps ∧ ∃ t, s = t ++ q.2 ∧ t ≠ [] ∧ ∀ c ∈ t, Py.isSpace c = true := by
  rw [show wsPlus = RE.seq ws (RE.star ws) from rfl, pymatches_seq,
    List.mem_flatMap] at hq
  obtain ⟨q1, hq1, hq2⟩ := hq
  cases s with
  | nil => simp only [ws, pymatches_cls_nil, List.not_mem_nil] at hq1
  | cons d s2 =>
      rw [show (ws : RE) = RE.cls Py.isSpace from rfl, pymatches_cls_cons] at hq1
      split at hq1
      case isTrue hd =>
        rw [List.mem_singleton] at hq1
        subst hq1
        obtain ⟨h1, t, ht, hall⟩ :=
          pymatches_star_cls ci Py.isSpace s2.length s2 caps q (le_refl _) hq2
        refine ⟨h1, d :: t, by rw [ht]; rfl, by simp, ?_⟩
        intro c hc
        rcases List.mem_cons.mp hc with h | h
        · subst h
          rw [← evalCls_isSpace ci c]
          exact hd
        · rw [← evalCls_isSpace ci c]
          exact hall c h
      case isFalse hd =>
        exact absurd hq1 (List.not_mem_nil q1)

/-- A keyword-plus-whitespace pattern consumes the keyword (case
insensitively) followed by a non-empty whitespace run. -/
theorem pymatches_kwWs (ci : Bool) (w : String) (s : List Char) (caps : Caps)
    (q : Caps × List Char) (hq : q ∈ pymatches ci (kwWs w) s caps) :
    q.1 = caps ∧ ∃ t1 t2, s = (t1 ++ t2) ++ q.2 ∧
      t1.map Char.toLower = w.data.map Char.toLower ∧
      t2 ≠ [] ∧ ∀ c ∈ t2, Py.isSpace c = true := by
  rw [show kwWs w = RE.seq (rlits w) wsPlus from rfl, pymatches_seq,
    List.mem_flatMap] at hq
  obtain ⟨q1, hq1, hq2⟩ := hq
  obtain ⟨hc1, t1, ht1, hmap⟩ := pymatches_rlits ci w s caps q1 hq1
  obtain ⟨hc2, t2, ht2, ht2ne, ht2sp⟩ := pymatches_wsPlus ci q1.2 q1.1 q hq2
  rw [hc1] at hc2
  exact ⟨hc2, t1, t2, by rw [ht1, ht2, List.append_assoc], hmap, ht2ne, ht2sp⟩

theorem capok_rseq {i : Nat} {G : List Char → Prop} :
    ∀ (l : List RE), (∀ r ∈ l, CapOK i G r) → CapOK i G (rseq l)
  | [], _ => .eps
  | r :: rest, h =>
      .seq (h r (List.mem_cons_self r rest))
        (capok_rseq rest (fun x hx => h x (List.mem_cons_of_mem r hx)))

theorem capok_ralt {i : Nat} {G : List Char → Prop} :
    ∀ (l : List RE), (∀ r ∈ l, CapOK i G r) → CapOK i G (ralt l)
  | [], _ => .eps
  | [r], h => h r (List.mem_singleton.mpr rfl)
  | r :: r2 :: rest, h =>
      .alt (h r (List.mem_cons_self r (r2 :: rest)))
        (capok_ralt (r2 :: rest)
          (fun x hx => h x (List.mem_cons_of_mem r hx)))

end Vb6Rx

/-! ## Access-level captures are always keyword tokens -/

/-- The five keyword strings (lower-cased) accepted by the `if` chain of
`_get_accessibility`. -/
def accessKeywords : List String :=
  ["grobal", "public", "friend", "private", "static"]

/-- Shape of anything `_ACCESS_LEVEL_RE`'s group can capture: stripping
yields a non-empty whitespace-free token whose lower-casing is one of the
five access keywords. -/
def AccessGoodL (t : List Char) : Prop :=
  ∃ t1, Py.stripChars t = t1 ∧ t1 ≠ [] ∧
    (∀ c ∈ t1, Py.isSpace c = false) ∧
    String.mk (t1.map Char.toLower) ∈ accessKeywords

namespace Vb6Rx

open Rex

theorem kwWs_good (ci : Bool) (w : String)
    (hwl : ∀ c ∈ w.data.map Char.toLower, Py.isSpace c = false)
    (hw : w.data ≠ [])
    (hmem : String.mk (w.data.map Char.toLower) ∈ accessKeywords)
    (s : List Char) (caps : Caps) (q : Caps × List Char)
    (hq : q ∈ pymatches ci (kwWs w) s caps) :
    AccessGoodL (s.take (s.length - q.2.length)) := by
  obtain ⟨hc, t1, t2, hs, hmap, ht2ne, ht2sp⟩ :=
    pymatches_kwWs ci w s caps q hq
  have hlen : s.length - q.2.length = (t1 ++ t2).length := by
    rw [hs, List.length_append]
    omega
  have htake : s.take (s.length - q.2.length) = t1 ++ t2 := by
    rw [hlen, hs, List.take_left]
  rw [htake]
  have ht1ns : ∀ c ∈ t1, Py.isSpace c = false := by
    intro c hc2
    have hmemw : c.toLower ∈ w.data.map Char.toLower := by
      rw [← hmap]
      exact List.mem_map_of_mem _ hc2
    rw [← Py.isSpace_toLower c]
    exact hwl _ hmemw
  have ht1ne : t1 ≠ [] := by
    intro h
    subst h
    simp only [List.map_nil] at hmap
    exact hw (List.map_eq_nil.mp hmap.symm)
  refine ⟨t1, Py.stripChars_keyword t1 t2 ht1ne ht1ns ht2sp, ht1ne, ht1ns, ?_⟩
  rw [show t1.map Char.toLower = w.data.map Char.toLower from hmap]
  exact hmem

theorem accessBody_good (ci : Bool) (s : List Char) (caps : Caps)
    (q : Caps × List Char)
    (hq : q ∈ pymatches ci
      (ralt [kwWs "Grobal", kwWs "Public", kwWs "Friend",
        kwWs "Private", kwWs "Static"]) s caps) :
    AccessGoodL (s.take (s.length - q.2.length)) := by
  simp only [ralt] at hq
  rw [pymatches_alt, List.mem_append] at hq
  rcases hq with h | hq
  · exact kwWs_good ci "Grobal" (by decide) (by decide) (by decide) s caps q h
  rw [pymatches_alt, List.mem_append] at hq
  rcases hq with h | hq
  · exact kwWs_good ci "Public" (by decide) (by decide) (by decide) s caps q h
  rw [pymatches_alt, List.mem_append] at hq
  rcases hq with h | hq
  · exact kwWs_good ci "Friend" (by decide) (by decide) (by decide) s caps q h
  rw [pymatches_alt, List.mem_append] at hq
  rcases hq with h | h
  · exact kwWs_good ci "Private" (by decide) (by decide) (by decide) s caps q h
  · exact kwWs_good ci "Static" (by decide) (by decide) (by decide) s caps q h

theorem capok_accessLevelRE (i : Nat) :
    CapOK i AccessGoodL (accessLevelRE i) := by
  show CapOK i AccessGoodL (RE.group i
    (ralt [kwWs "Grobal", kwWs "Public", kwWs "Friend",
      kwWs "Private", kwWs "Static"]))
  exact .groupSelf (fun ci s caps q hq => accessBody_good ci s caps q hq)

theorem capok_reValues_1 : CapOK 1 AccessGoodL reValues := by
  show CapOK 1 AccessGoodL (rseq [wsStar,
    ralt [RE.alt (accessLevelRE 1) (valKindRE 2),
      RE.seq (accessLevelRE 3) (valKindRE 4), kwWs "Dim"],
    valNameRE 5 6, mvalTypeRE 7, valValueRE 8, wsStar, RE.eos])
  apply capok_rseq
  intro r hr
  simp only [List.mem_cons, List.not_mem_nil, or_false] at hr
  rcases hr with rfl | rfl | rfl | rfl | rfl | rfl | rfl
  · exact capok_of_hasGroupB_eq_false rfl
  · apply capok_ralt
    intro r2 hr2
    simp only [List.mem_cons, List.not_mem_nil, or_false] at hr2
    rcases hr2 with rfl | rfl | rfl
    · exact .alt (capok_accessLevelRE 1) (capok_of_hasGroupB_eq_false rfl)
    · exact capok_of_hasGroupB_eq_false rfl
    · exact capok_of_hasGroupB_eq_false rfl
  · exact capok_of_hasGroupB_eq_false rfl
  · exact capok_of_hasGroupB_eq_false rfl
  · exact capok_of_hasGroupB_eq_false rfl
  · exact capok_of_hasGroupB_eq_false rfl
  · exact capok_of_hasGroupB_eq_false rfl

theorem capok_reValues_3 : CapOK 3 AccessGoodL reValues := by
  show CapOK 3 AccessGoodL (rseq [wsStar,
    ralt [RE.alt (accessLevelRE 1) (valKindRE 2),
      RE.seq (accessLevelRE 3) (valKindRE 4), kwWs "Dim"],
    valNameRE 5 6, mvalTypeRE 7, valValueRE 8, wsStar, RE.eos])
  apply capok_rseq
  intro r hr
  simp only [List.mem_cons, List.not_mem_nil, or_false] at hr
  rcases hr with rfl | rfl | rfl | rfl | rfl | rfl | rfl
  · exact capok_of_hasGroupB_eq_false rfl
  · apply capok_ralt
    intro r2 hr2
    simp only [List.mem_cons, List.not_mem_nil, or_false] at hr2
    rcases hr2 with rfl | rfl | rfl
    · exact capok_of_hasGroupB_eq_false rfl
    · exact .seq (capok_accessLevelRE 3) (capok_of_hasGroupB_eq_false rfl)
    · exact capok_of_hasGroupB_eq_false rfl
  · exact capok_of_hasGroupB_eq_false rfl
  · exact capok_of_hasGroupB_eq_false rfl
  · exact capok_of_hasGroupB_eq_false rfl
  · exact capok_of_hasGroupB_eq_false rfl
  · exact capok_of_hasGroupB_eq_false rfl

theorem capok_reType_1 : CapOK 1 AccessGoodL reType := by
  show CapOK 1 AccessGoodL (rseq [wsStar, RE.opt (accessLevelRE 1),
    kwWs "Type", nameRE 2, wsStar, RE.eos])
  apply capok_rseq
  intro r hr
  simp only [List.mem_cons, List.not_mem_nil, or_false] at hr
  rcases hr with rfl | rfl | rfl | rfl | rfl | rfl
  · exact capok_of_hasGroupB_eq_false rfl
  · exact .opt (capok_accessLevelRE 1)
  · exact capok_of_hasGroupB_eq_false rfl
  · exact capok_of_hasGroupB_eq_false rfl
  · exact capok_of_hasGroupB_eq_false rfl
  · exact capok_of_hasGroupB_eq_false rfl

theorem capok_reEnum_1 : CapOK 1 AccessGoodL reEnum := by
  show CapOK 1 AccessGoodL (rseq [wsStar, RE.opt (accessLevelRE 1),
    kwWs "Enum", nameRE 2, wsStar, RE.eos])
  apply capok_rseq
  intro r hr
  simp only [List.mem_cons, List.not_mem_nil, or_false] at hr
  rcases hr with rfl | rfl | rfl | rfl | rfl | rfl
  · exact capok_of_hasGroupB_eq_false rfl
  · exact .opt (capok_accessLevelRE 1)
  · exact capok_of_hasGroupB_eq_false rfl
  · exact capok_of_hasGroupB_eq_false rfl
  · exact capok_of_hasGroupB_eq_false rfl
  · exact capok_of_hasGroupB_eq_false rfl

theorem capok_reFunction_1 : CapOK 1 AccessGoodL reFunction := by
  show CapOK 1 AccessGoodL (rseq [wsStar, RE.opt (accessLevelRE 1),
    kwWs "Function", nameRE 2, argsRE 3, retTypeRE 4 5, wsStar, RE.eos])
  apply capok_rseq
  intro r hr
  simp only [List.mem_cons, List.not_mem_nil, or_false] at hr
  rcases hr with rfl | rfl | rfl | rfl | rfl | rfl | rfl | rfl
  · exact capok_of_hasGroupB_eq_false rfl
  · exact .opt (capok_accessLevelRE 1)
  · exact capok_of_hasGroupB_eq_false rfl
  · exact capok_of_hasGroupB_eq_false rfl
  · exact capok_of_hasGroupB_eq_false rfl
  · exact capok_of_hasGroupB_eq_false rfl
  · exact capok_of_hasGroupB_eq_false rfl
  · exact capok_of_hasGroupB_eq_false rfl

theorem capok_reSub_1 : CapOK 1 AccessGoodL reSub := by
  show CapOK 1 AccessGoodL (rseq [wsStar, RE.opt (accessLevelRE 1),
    kwWs "Sub", nameRE 2, argsRE 3, wsStar, RE.eos])
  apply capok_rseq
  intro r hr
  simp only [List.mem_cons, List.not_mem_nil, or_false] at hr
  rcases hr with rfl | rfl | rfl | rfl | rfl | rfl | rfl
  · exact capok_of_hasGroupB_eq_false rfl
  · exact .opt (capok_accessLevelRE 1)
  · exact capok_of_hasGroupB_eq_false rfl
  · exact capok_of_hasGroupB_eq_false rfl
  · exact capok_of_hasGroupB_eq_false rfl
  · exact capok_of_hasGroupB_eq_false rfl
  · exact capok_of_hasGroupB_eq_false rfl

theorem capok_rePropGet_1 : CapOK 1 AccessGoodL rePropGet := by
  show CapOK 1 AccessGoodL (rseq [wsStar, RE.opt (accessLevelRE 1),
    kwWs "Property", kwWs "Get", nameRE 2, wsStar, RE.ch '(', wsStar,
    RE.ch ')', wsStar, retTypeRE 3 4, wsStar, RE.eos])
  apply capok_rseq
  intro r hr
  simp only [List.mem_cons, List.not_mem_nil, or_false] at hr
  rcases hr with rfl | rfl | rfl | rfl | rfl | rfl | rfl | rfl | rfl | rfl |
    rfl | rfl | rfl
  · exact capok_of_hasGroupB_eq_false rfl
  · exact .opt (capok_accessLevelRE 1)
  · exact capok_of_hasGroupB_eq_false rfl
  · exact capok_of_hasGroupB_eq_false rfl
  · exact capok_of_hasGroupB_eq_false rfl
  · exact capok_of_hasGroupB_eq_false rfl
  · exact capok_of_hasGroupB_eq_false rfl
  · exact capok_of_hasGroupB_eq_false rfl
  · exact capok_of_hasGroupB_eq_false rfl
  · exact capok_of_hasGroupB_eq_false rfl
  · exact capok_of_hasGroupB_eq_false rfl
  · exact capok_of_hasGroupB_eq_false rfl
  · exact capok_of_hasGroupB_eq_false rfl

theorem capok_rePropSet_1 : CapOK 1 AccessGoodL rePropSet := by
  show CapOK 1 AccessGoodL (rseq [wsStar, RE.opt (accessLevelRE 1),
    rlits "Property", wsPlus,
    RE.group 2 (RE.alt (rlits "Set") (rlits "Let")), wsPlus,
    nameRE 3, argsRE 4, wsStar, RE.eos])
  apply capok_rseq
  intro r hr
  simp only [List.mem_cons, List.not_mem_nil, or_false] at hr
  rcases hr with rfl | rfl | rfl | rfl | rfl | rfl | rfl | rfl | rfl | rfl
  · exact capok_of_hasGroupB_eq_false rfl
  · exact .opt (capok_accessLevelRE 1)
  · exact capok_of_hasGroupB_eq_false rfl
  · exact capok_of_hasGroupB_eq_false rfl
  · exact capok_of_hasGroupB_eq_false rfl
  · exact capok_of_hasGroupB_eq_false rfl
  · exact capok_of_hasGroupB_eq_false rfl
  · exact capok_of_hasGroupB_eq_false rfl
  · exact capok_of_hasGroupB_eq_false rfl
  · exact capok_of_hasGroupB_eq_false rfl

end Vb6Rx

/-! ## `_get_accessibility` never returns `None` on parser-produced input -/

theorem reMatchS_mem {ci : Bool} {r : Rex.RE} {s : String} {m : Rex.Caps}
    (h : Vb6Rx.reMatchS ci r s = some m) :
    ∃ q ∈ Rex.pymatches ci r s.data [], q.1 = m := by
  unfold Vb6Rx.reMatchS Rex.reMatch at h
  cases hl : Rex.pymatches ci r s.data [] with
  | nil => rw [hl] at h; simp at h
  | cons q l =>
      rw [hl] at h
      simp only [List.head?_cons, Option.map_some'] at h
      injection h with h
      exact ⟨q, List.mem_cons_self q l, h⟩

theorem match_cap_good {ci : Bool} {r : Rex.RE} {g : Nat} {s : String}
    {m : Rex.Caps} (hok : Rex.CapOK g AccessGoodL r)
    (hm : Vb6Rx.reMatchS ci r s = some m) :
    ∀ v, Rex.getCap m g = some v → AccessGoodL v := by
  obtain ⟨q, hq, hq1⟩ := reMatchS_mem hm
  intro v hv
  rw [← hq1] at hv
  exact Rex.capok_sound hok ci s.data [] (Rex.capGood_nil _ _) q hq v hv

namespace Vb6

theorem accessChain_of_mem (a : String) (ha : a ∈ accessKeywords) :
    ∃ v, (if a = "private" then some (CodeElementAccessibility.PRIVATE, false)
      else if a = "grobal" then some (CodeElementAccessibility.PUBLIC, false)
      else if a = "public" then some (CodeElementAccessibility.PUBLIC, false)
      else if a = "friend" then some (CodeElementAccessibility.INTERNAL, false)
      else if a = "static" then some (CodeElementAccessibility.PUBLIC, true)
      else none) = some v := by
  simp only [accessKeywords, List.mem_cons, List.not_mem_nil, or_false] at ha
  rcases ha with rfl | rfl | rfl | rfl | rfl <;> exact ⟨_, rfl⟩

theorem getAccessibility_some_str (str d : String) (hne : ¬ str = "")
    (hmem : Py.lower (Py.strip str) ∈ accessKeywords) :
    ∃ v, getAccessibility (some str) d = some v := by
  have he : getAccessibility (some str) d =
      (if (if str = "" then d else Py.lower (Py.strip str)) = "private"
        then some (CodeElementAccessibility.PRIVATE, false)
      else if (if str = "" then d else Py.lower (Py.strip str)) = "grobal"
        then some (CodeElementAccessibility.PUBLIC, false)
      else if (if str = "" then d else Py.lower (Py.strip str)) = "public"
        then some (CodeElementAccessibility.PUBLIC, false)
      else if (if str = "" then d else Py.lower (Py.strip str)) = "friend"
        then some (CodeElementAccessibility.INTERNAL, false)
      else if (if str = "" then d else Py.lower (Py.strip str)) = "static"
        then some (CodeElementAccessibility.PUBLIC, true)
      else none) := rfl
  rw [he, if_neg hne]
  exact accessChain_of_mem _ hmem

theorem getAccessibility_default (d : String) (hd : d ∈ accessKeywords) :
    ∃ v, getAccessibility none d = some v := by
  have he : getAccessibility none d =
      (if d = "private" then some (CodeElementAccessibility.PRIVATE, false)
      else if d = "grobal" then some (CodeElementAccessibility.PUBLIC, false)
      else if d = "public" then some (CodeElementAccessibility.PUBLIC, false)
      else if d = "friend" then some (CodeElementAccessibility.INTERNAL, false)
      else if d = "static" then some (CodeElementAccessibility.PUBLIC, true)
      else none) := rfl
  rw [he]
  exact accessChain_of_mem d hd

theorem getAccessibility_empty (d : String) (hd : d ∈ accessKeywords) :
    ∃ v, getAccessibility (some "") d = some v := by
  have he : getAccessibility (some "") d =
      (if (if ("" : String) = "" then d else Py.lower (Py.strip "")) = "private"
        then some (CodeElementAccessibility.PRIVATE, false)
      else if (if ("" : String) = "" then d else Py.lower (Py.strip "")) = "grobal"
        then some (CodeElementAccessibility.PUBLIC, false)
      else if (if ("" : String) = "" then d else Py.lower (Py.strip "")) = "public"
        then some (CodeElementAccessibility.PUBLIC, false)
      else if (if ("" : String) = "" then d else Py.lower (Py.strip "")) = "friend"
        then some (CodeElementAccessibility.INTERNAL, false)
      else if (if ("" : String) = "" then d else Py.lower (Py.strip "")) = "static"
        then some (CodeElementAccessibility.PUBLIC, true)
      else none) := rfl
  rw [he, if_pos rfl]
  exact accessChain_of_mem d hd

theorem getAccessibility_of_accessGood (t : List Char) (d : String)
    (hg : AccessGoodL t) :
    ∃ v, getAccessibility (some (String.mk t)) d = some v := by
  obtain ⟨t1, hstrip, hne, hns, hmem⟩ := hg
  apply getAccessibility_some_str
  · intro h
    have ht : t = [] := congrArg String.data h
    subst ht
    exact hne (hstrip.symm.trans rfl)
  · have hl : Py.lower (Py.strip (String.mk t)) =
        String.mk (t1.map Char.toLower) := by
      rw [show Py.lower (Py.strip (String.mk t)) =
        String.mk ((Py.stripChars t).map Char.toLower) from rfl, hstrip]
    rw [hl]
    exact hmem

theorem getAccessibility_strip_of_accessGood (t : List Char) (d : String)
    (hg : AccessGoodL t) :
    ∃ v, getAccessibility (some (Py.strip (String.mk t))) d = some v := by
  obtain ⟨t1, hstrip, hne, hns, hmem⟩ := hg
  have h1 : Py.strip (String.mk t) = String.mk t1 := by
    rw [show Py.strip (String.mk t) = String.mk (Py.stripChars t) from rfl,
      hstrip]
  rw [h1]
  apply getAccessibility_some_str
  · intro h
    exact hne (congrArg String.data h)
  · have hl : Py.lower (Py.strip (String.mk t1)) =
        String.mk (t1.map Char.toLower) := by
      rw [show Py.lower (Py.strip (String.mk t1)) =
        String.mk ((Py.stripChars t1).map Char.toLower) from rfl,
        Py.stripChars_of_forall_not t1 hns]
    rw [hl]
    exact hmem

end Vb6

namespace Vb6

theorem exists_ok_ite {α ε : Type} (c : Prop) [Decidable c] (x y : α) :
    ∃ o : α, (if c then Except.ok (ε := ε) x else Except.ok y) =
      Except.ok o := by
  by_cases h : c
  · exact ⟨x, by rw [if_pos h]⟩
  · exact ⟨y, by rw [if_neg h]⟩

/-- `_found_member` never raises: the access string is either empty
(default applies) or a captured keyword token. -/
theorem foundMember_ok (s : String) : ∃ o, foundMember s = Except.ok o := by
  unfold foundMember
  cases hm : Vb6Rx.reMatchS true Vb6Rx.reValues (stripComments s) with
  | none => exact ⟨none, rfl⟩
  | some m =>
      dsimp only
      have hacc : ∃ v, getAccessibility (some (memberAccessStr m))
          varDefaultAccessLevel = some v := by
        unfold memberAccessStr
        cases h1 : Vb6Rx.mgrp m 1 with
        | some a =>
            unfold Vb6Rx.mgrp at h1
            cases hg : Rex.getCap m 1 with
            | none => rw [hg] at h1; simp at h1
            | some t =>
                rw [hg] at h1
                simp only [Option.map_some'] at h1
                injection h1 with h1
                subst h1
                exact getAccessibility_strip_of_accessGood t _
                  (match_cap_good Vb6Rx.capok_reValues_1 hm t hg)
        | none =>
            cases h3 : Vb6Rx.mgrp m 3 with
            | some a =>
                unfold Vb6Rx.mgrp at h3
                cases hg : Rex.getCap m 3 with
                | none => rw [hg] at h3; simp at h3
                | some t =>
                    rw [hg] at h3
                    simp only [Option.map_some'] at h3
                    injection h3 with h3
                    subst h3
                    exact getAccessibility_strip_of_accessGood t _
                      (match_cap_good Vb6Rx.capok_reValues_3 hm t hg)
            | none => exact getAccessibility_empty _ (by decide)
      obtain ⟨v, hv⟩ := hacc
      rw [hv]
      obtain ⟨va, vb⟩ := v
      exact exists_ok_ite _ _ _

theorem mgrp_cases (m : Rex.Caps) (g : Nat) :
    Vb6Rx.mgrp m g = none ∧ Rex.getCap m g = none ∨
      ∃ t, Rex.getCap m g = some t ∧ Vb6Rx.mgrp m g = some (String.mk t) := by
  cases hg : Rex.getCap m g with
  | none => exact Or.inl ⟨by unfold Vb6Rx.mgrp; rw [hg]; rfl, rfl⟩
  | some t =>
      exact Or.inr ⟨t, rfl, by unfold Vb6Rx.mgrp; rw [hg]; rfl⟩

theorem findFunction_ok (s : String) :
    ∃ o, findFunction s = Except.ok o := by
  unfold findFunction
  cases hm : Vb6Rx.reMatchS true Vb6Rx.reFunction (stripComments s) with
  | none => exact ⟨none, rfl⟩
  | some m =>
      dsimp only
      have hacc : ∃ v, getAccessibility (Vb6Rx.mgrp m 1)
          elemDefaultAccessLevel = some v := by
        rcases mgrp_cases m 1 with ⟨h1, hg⟩ | ⟨t, hg, h1⟩
        · rw [h1]
          exact getAccessibility_default _ (by decide)
        · rw [h1]
          exact getAccessibility_of_accessGood t _
            (match_cap_good Vb6Rx.capok_reFunction_1 hm t hg)
      obtain ⟨v, hv⟩ := hacc
      rw [hv]
      obtain ⟨va, vb⟩ := v
      exact ⟨_, rfl⟩

theorem findSub_ok (s : String) : ∃ o, findSub s = Except.ok o := by
  unfold findSub
  cases hm : Vb6Rx.reMatchS true Vb6Rx.reSub (stripComments s) with
  | none => exact ⟨none, rfl⟩
  | some m =>
      dsimp only
      have hacc : ∃ v, getAccessibility (Vb6Rx.mgrp m 1)
          elemDefaultAccessLevel = some v := by
        rcases mgrp_cases m 1 with ⟨h1, hg⟩ | ⟨t, hg, h1⟩
        · rw [h1]
          exact getAccessibility_default _ (by decide)
        · rw [h1]
          exact getAccessibility_of_accessGood t _
            (match_cap_good Vb6Rx.capok_reSub_1 hm t hg)
      obtain ⟨v, hv⟩ := hacc
      rw [hv]
      obtain ⟨va, vb⟩ := v
      exact ⟨_, rfl⟩

theorem findType_ok (s : String) : ∃ o, findType s = Except.ok o := by
  unfold findType
  cases hm : Vb6Rx.reMatchS true Vb6Rx.reType (stripComments s) with
  | none => exact ⟨none, rfl⟩
  | some m =>
      dsimp only
      have hacc : ∃ v, getAccessibility (Vb6Rx.mgrp m 1)
          elemDefaultAccessLevel = some v := by
        rcases mgrp_cases m 1 with ⟨h1, hg⟩ | ⟨t, hg, h1⟩
        · rw [h1]
          exact getAccessibility_default _ (by decide)
        · rw [h1]
          exact getAccessibility_of_accessGood t _
            (match_cap_good Vb6Rx.capok_reType_1 hm t hg)
      obtain ⟨v, hv⟩ := hacc
      rw [hv]
      obtain ⟨va, vb⟩ := v
      exact ⟨_, rfl⟩

theorem findEnum_ok (s : String) : ∃ o, findEnum s = Except.ok o := by
  unfold findEnum
  cases hm : Vb6Rx.reMatchS true Vb6Rx.reEnum (stripComments s) with
  | none => exact ⟨none, rfl⟩
  | some m =>
      dsimp only
      have hacc : ∃ v, getAccessibility (Vb6Rx.mgrp m 1)
          elemDefaultAccessLevel = some v := by
        rcases mgrp_cases m 1 with ⟨h1, hg⟩ | ⟨t, hg, h1⟩
        · rw [h1]
          exact getAccessibility_default _ (by decide)
        · rw [h1]
          exact getAccessibility_of_accessGood t _
            (match_cap_good Vb6Rx.capok_reEnum_1 hm t hg)
      obtain ⟨v, hv⟩ := hacc
      rw [hv]
      obtain ⟨va, vb⟩ := v
      exact ⟨_, rfl⟩

/-- `_find_property_get` raises only `IndexError`, never the tuple
unpacking `TypeError`. -/
theorem findPropertyGet_ne_noneUnpack (s : String)
    (prev : Option CodeElement) :
    findPropertyGet s prev ≠ Except.error PErr.noneUnpack := by
  unfold findPropertyGet
  cases hm : Vb6Rx.reMatchS true Vb6Rx.rePropGet (stripComments s) with
  | none => exact fun h => Except.noConfusion h
  | some m =>
      dsimp only
      have hacc : ∃ v, getAccessibility (Vb6Rx.mgrp m 1)
          elemDefaultAccessLevel = some v := by
        rcases mgrp_cases m 1 with ⟨h1, hg⟩ | ⟨t, hg, h1⟩
        · rw [h1]
          exact getAccessibility_default _ (by decide)
        · rw [h1]
          exact getAccessibility_of_accessGood t _
            (match_cap_good Vb6Rx.capok_rePropGet_1 hm t hg)
      obtain ⟨v, hv⟩ := hacc
      rw [hv]
      obtain ⟨va, vb⟩ := v
      dsimp only
      intro h
      split at h
      · split at h
        · split at h
          · injection h with h2
            exact PErr.noConfusion h2
          · exact Except.noConfusion h
        · exact Except.noConfusion h
      · exact Except.noConfusion h

/-- `_find_property_set` raises only `IndexError`. -/
theorem findPropertySet_ne_noneUnpack (s : String)
    (prev : Option CodeElement) :
    findPropertySet s prev ≠ Except.error PErr.noneUnpack := by
  unfold findPropertySet
  cases hm : Vb6Rx.reMatchS true Vb6Rx.rePropSet (stripComments s) with
  | none => exact fun h => Except.noConfusion h
  | some m =>
      dsimp only
      have hacc : ∃ v, getAccessibility (Vb6Rx.mgrp m 1)
          elemDefaultAccessLevel = some v := by
        rcases mgrp_cases m 1 with ⟨h1, hg⟩ | ⟨t, hg, h1⟩
        · rw [h1]
          exact getAccessibility_default _ (by decide)
        · rw [h1]
          exact getAccessibility_of_accessGood t _
            (match_cap_good Vb6Rx.capok_rePropSet_1 hm t hg)
      obtain ⟨v, hv⟩ := hacc
      rw [hv]
      obtain ⟨va, vb⟩ := v
      dsimp only
      intro h
      split at h
      · split at h
        · split at h
          case _ e heq =>
            injection h with h2
            subst h2
            split at heq
            · split at heq
              · injection heq with h3
                exact PErr.noConfusion h3
              · exact Except.noConfusion heq
            · exact Except.noConfusion heq
          case _ pe1 heq =>
            split at h
            · injection h with h2
              exact PErr.noConfusion h2
            · exact Except.noConfusion h
        · split at h
          · injection h with h2
            exact PErr.noConfusion h2
          · exact Except.noConfusion h
      · split at h
        · injection h with h2
          exact PErr.noConfusion h2
        · exact Except.noConfusion h

end Vb6

namespace Vb6

theorem except_bind_ne_error {α β : Type} (x : Except PErr α)
    (f : α → Except PErr β) (e : PErr) (hx : x ≠ Except.error e)
    (hf : ∀ a, f a ≠ Except.error e) :
    (x >>= f) ≠ Except.error e := by
  cases x with
  | error e2 =>
      intro h
      have h2 : (Except.error e2 : Except PErr β) = Except.error e := h
      injection h2 with h3
      subst h3
      exact hx rfl
  | ok a => exact hf a

theorem except_bind_ok_ne_error {α β : Type} (x : Except PErr α)
    (f : α → Except PErr β) (e : PErr) (hx : ∃ o, x = Except.ok o)
    (hf : ∀ a, f a ≠ Except.error e) : (x >>= f) ≠ Except.error e := by
  obtain ⟨o, ho⟩ := hx
  subst ho
  exact hf o

/-- One class-module scan step never raises the tuple-unpacking
`TypeError`. -/
theorem processLineCls_ne_noneUnpack (st : ScanState) (s : String) :
    processLineCls st s ≠ Except.error PErr.noneUnpack := by
  unfold processLineCls
  cases hdx : foundDoxyComment s with
  | some com => exact fun h => Except.noConfusion h
  | none =>
      cases hmo : st.mode with
      | inType i =>
          dsimp only
          split
          · exact fun h => Except.noConfusion h
          · apply except_bind_ok_ne_error _ _ _ (foundMember_ok s)
            intro a
            cases a with
            | some mem => exact fun h => Except.noConfusion h
            | none => exact fun h => Except.noConfusion h
      | inSub i =>
          dsimp only
          split
          · exact fun h => Except.noConfusion h
          · exact fun h => Except.noConfusion h
      | inFunc i =>
          dsimp only
          split
          · exact fun h => Except.noConfusion h
          · exact fun h => Except.noConfusion h
      | inProp i =>
          dsimp only
          split
          · exact fun h => Except.noConfusion h
          · exact fun h => Except.noConfusion h
      | inEnum i =>
          dsimp only
          split
          · exact fun h => Except.noConfusion h
          · split
            · exact fun h => Except.noConfusion h
            · exact fun h => Except.noConfusion h
      | top =>
          dsimp only
          apply except_bind_ne_error _ _ _
            (findPropertyGet_ne_noneUnpack s _)
          intro a
          cases a with
          | some pf => exact fun h => Except.noConfusion h
          | none =>
              apply except_bind_ne_error _ _ _
                (findPropertySet_ne_noneUnpack s _)
              intro a2
              cases a2 with
              | some pf => exact fun h => Except.noConfusion h
              | none =>
                  apply except_bind_ok_ne_error _ _ _ (findType_ok s)
                  intro a3
                  cases a3 with
                  | some te => exact fun h => Except.noConfusion h
                  | none =>
                      apply except_bind_ok_ne_error _ _ _ (foundMember_ok s)
                      intro a4
                      cases a4 with
                      | some mem => exact fun h => Except.noConfusion h
                      | none =>
                          apply except_bind_ok_ne_error _ _ _
                            (findFunction_ok s)
                          intro a5
                          cases a5 with
                          | some fe => exact fun h => Except.noConfusion h
                          | none =>
                              apply except_bind_ok_ne_error _ _ _
                                (findSub_ok s)
                              intro a6
                              cases a6 with
                              | some se =>
                                  exact fun h => Except.noConfusion h
                              | none =>
                                  apply except_bind_ok_ne_error _ _ _
                                    (findEnum_ok s)
                                  intro a7
                                  cases a7 with
                                  | some ee =>
                                      exact fun h => Except.noConfusion h
                                  | none =>
                                      exact fun h => Except.noConfusion h

/-- One standard-module scan step never raises the tuple-unpacking
`TypeError`. -/
theorem processLineBas_ne_noneUnpack (st : ScanState) (s : String) :
    processLineBas st s ≠ Except.error PErr.noneUnpack := by
  unfold processLineBas
  cases hdx : foundDoxyComment s with
  | some com => exact fun h => Except.noConfusion h
  | none =>
      cases hmo : st.mode with
      | inType i =>
          dsimp only
          split
          · exact fun h => Except.noConfusion h
          · apply except_bind_ok_ne_error _ _ _ (foundMember_ok s)
            intro a
            cases a with
            | some mem => exact fun h => Except.noConfusion h
            | none => exact fun h => Except.noConfusion h
      | inSub i =>
          dsimp only
          split
          · exact fun h => Except.noConfusion h
          · exact fun h => Except.noConfusion h
      | inFunc i =>
          dsimp only
          split
          · exact fun h => Except.noConfusion h
          · exact fun h => Except.noConfusion h
      | inProp i =>
          dsimp only
          split
          · exact fun h => Except.noConfusion h
          · exact fun h => Except.noConfusion h
      | inEnum i =>
          dsimp only
          split
          · exact fun h => Except.noConfusion h
          · split
            · exact fun h => Except.noConfusion h
            · exact fun h => Except.noConfusion h
      | top =>
          dsimp only
          apply except_bind_ok_ne_error _ _ _ (findType_ok s)
          intro a3
          cases a3 with
          | some te => exact fun h => Except.noConfusion h
          | none =>
              apply except_bind_ok_ne_error _ _ _ (foundMember_ok s)
              intro a4
              cases a4 with
              | some mem => exact fun h => Except.noConfusion h
              | none =>
                  apply except_bind_ok_ne_error _ _ _ (findFunction_ok s)
                  intro a5
                  cases a5 with
                  | some fe => exact fun h => Except.noConfusion h
                  | none =>
                      apply except_bind_ok_ne_error _ _ _ (findSub_ok s)
                      intro a6
                      cases a6 with
                      | some se => exact fun h => Except.noConfusion h
                      | none =>
                          apply except_bind_ok_ne_error _ _ _
                            (findEnum_ok s)
                          intro a7
                          cases a7 with
                          | some ee => exact fun h => Except.noConfusion h
                          | none => exact fun h => Except.noConfusion h

theorem stepLine_ne_noneUnpack
    (proc : ScanState → String → Except PErr ScanState)
    (hproc : ∀ st s, proc st s ≠ Except.error PErr.noneUnpack)
    (ls : LineState) (ln : String) :
    stepLine proc ls ln ≠ Except.error PErr.noneUnpack := by
  unfold stepLine
  split
  · exact fun h => Except.noConfusion h
  · apply except_bind_ne_error _ _ _ (hproc _ _)
    intro a
    exact fun h => Except.noConfusion h

theorem foldlM_stepLine_ne_noneUnpack
    (proc : ScanState → String → Except PErr ScanState)
    (hproc : ∀ st s, proc st s ≠ Except.error PErr.noneUnpack) :
    ∀ (lines : List String) (ls : LineState),
      lines.foldlM (stepLine proc) ls ≠ Except.error PErr.noneUnpack
  | [], ls => fun h => Except.noConfusion h
  | ln :: rest, ls => by
      rw [List.foldlM_cons]
      apply except_bind_ne_error _ _ _
        (stepLine_ne_noneUnpack proc hproc ls ln)
      intro a
      exact foldlM_stepLine_ne_noneUnpack proc hproc rest a

theorem parseCls_ne_noneUnpack (mt : Vb6ModuleType) (lines : List String) :
    parseCls mt lines ≠ Except.error PErr.noneUnpack := by
  unfold parseCls
  apply except_bind_ne_error _ _ _
    (foldlM_stepLine_ne_noneUnpack processLineCls
      processLineCls_ne_noneUnpack lines _)
  intro a
  exact fun h => Except.noConfusion h

theorem parseBas_ne_noneUnpack (lines : List String) :
    parseBas lines ≠ Except.error PErr.noneUnpack := by
  unfold parseBas
  apply except_bind_ne_error _ _ _
    (foldlM_stepLine_ne_noneUnpack processLineBas
      processLineBas_ne_noneUnpack lines _)
  intro a
  exact fun h => Except.noConfusion h

/-- `parse` either returns a result or raises the property merge
`IndexError`; the `TypeError` of `_get_accessibility` is unreachable. -/
theorem parse_ok_or_indexError (mt : Vb6ModuleType) (lines : List String) :
    (∃ r, parse mt lines = Except.ok r) ∨
      parse mt lines = Except.error PErr.indexError := by
  cases hp : parse mt lines with
  | ok r => exact Or.inl ⟨r, rfl⟩
  | error e =>
      cases e with
      | indexError => exact Or.inr rfl
      | noneUnpack =>
          exfalso
          have hne : parse mt lines ≠ Except.error PErr.noneUnpack := by
            unfold parse
            split
            · exact parseCls_ne_noneUnpack mt lines
            · exact parseBas_ne_noneUnpack lines
          exact hne hp

end Vb6

namespace Vb6

/-- A line matching none of the recognized patterns leaves the scan
state unchanged, in every scanner mode, for both module kinds. -/
theorem processLine_unmatched (st : ScanState) (s : String)
    (hdx : Vb6Rx.reMatchS false Vb6Rx.reDoxy s = none)
    (hpg : Vb6Rx.reMatchS true Vb6Rx.rePropGet (stripComments s) = none)
    (hps : Vb6Rx.reMatchS true Vb6Rx.rePropSet (stripComments s) = none)
    (hty : Vb6Rx.reMatchS true Vb6Rx.reType (stripComments s) = none)
    (hvl : Vb6Rx.reMatchS true Vb6Rx.reValues (stripComments s) = none)
    (hfn : Vb6Rx.reMatchS true Vb6Rx.reFunction (stripComments s) = none)
    (hsb : Vb6Rx.reMatchS true Vb6Rx.reSub (stripComments s) = none)
    (hen : Vb6Rx.reMatchS true Vb6Rx.reEnum (stripComments s) = none)
    (hem : Vb6Rx.reMatchS true Vb6Rx.reEnumMem (stripComments s) = none)
    (hef : endFunctionFound s = false) (hes : endSubFound s = false)
    (het : endTypeFound s = false) (hee : endEnumFound s = false)
    (hep : endPropertyFound s = false) :
    processLineCls st s = Except.ok st ∧
      processLineBas st s = Except.ok st := by
  have hdxn : foundDoxyComment s = none := by
    simp [foundDoxyComment, hdx]
  have hfm : foundMember s = Except.ok none := by
    unfold foundMember
    rw [hvl]
  have hfnn : findFunction s = Except.ok none := by
    unfold findFunction
    rw [hfn]
  have hsbn : findSub s = Except.ok none := by
    unfold findSub
    rw [hsb]
  have htyn : findType s = Except.ok none := by
    unfold findType
    rw [hty]
  have henn : findEnum s = Except.ok none := by
    unfold findEnum
    rw [hen]
  have hpgn : ∀ prev, findPropertyGet s prev = Except.ok none := by
    intro prev
    unfold findPropertyGet
    rw [hpg]
  have hpsn : ∀ prev, findPropertySet s prev = Except.ok none := by
    intro prev
    unfold findPropertySet
    rw [hps]
  have hemn : enumMemberElem s = none := by
    simp [enumMemberElem, hem]
  constructor
  · unfold processLineCls
    rw [hdxn]
    dsimp only
    cases hmo : st.mode with
    | inType i =>
        dsimp only
        rw [het, if_neg Bool.false_ne_true, hfm]
        rfl
    | inSub i =>
        dsimp only
        rw [hes, if_neg Bool.false_ne_true]
    | inFunc i =>
        dsimp only
        rw [hef, if_neg Bool.false_ne_true]
    | inProp i =>
        dsimp only
        rw [hep, if_neg Bool.false_ne_true]
    | inEnum i =>
        dsimp only
        rw [hee, if_neg Bool.false_ne_true, hemn]
    | top =>
        dsimp only
        rw [hpgn, hpsn, htyn, hfm, hfnn, hsbn, henn]
        rfl
  · unfold processLineBas
    rw [hdxn]
    dsimp only
    cases hmo : st.mode with
    | inType i =>
        dsimp only
        rw [het, if_neg Bool.false_ne_true, hfm]
        rfl
    | inSub i =>
        dsimp only
        rw [hes, if_neg Bool.false_ne_true]
    | inFunc i =>
        dsimp only
        rw [hef, if_neg Bool.false_ne_true]
    | inProp i =>
        dsimp only
        rw [hep, if_neg Bool.false_ne_true]
    | inEnum i =>
        dsimp only
        rw [hee, if_neg Bool.false_ne_true, hemn]
    | top =>
        dsimp only
        rw [htyn, hfm, hfnn, hsbn, henn]
        rfl

end Vb6

set_option maxRecDepth 1000000

/-- C1 (corrected): for every module kind and every line sequence,
`parse` either returns a parse result or raises the `IndexError` of the
property-merge paths; the `TypeError` from `_get_accessibility`'s tuple
unpacking is unreachable.  Moreover a line matching none of the
recognized constructs is silently dropped: it leaves the scan state
unchanged in every scanner mode, for class and standard modules alike. -/
theorem c1_parse_total_unmatched_dropped :
    (∀ (mt : Vb6.Vb6ModuleType) (lines : List String),
        (∃ r, Vb6.parse mt lines = Except.ok r) ∨
          Vb6.parse mt lines = Except.error PErr.indexError)
  ∧ (∀ (st : Vb6.ScanState) (s : String),
        Vb6Rx.reMatchS false Vb6Rx.reDoxy s = none →
        Vb6Rx.reMatchS true Vb6Rx.rePropGet (Vb6.stripComments s) = none →
        Vb6Rx.reMatchS true Vb6Rx.rePropSet (Vb6.stripComments s) = none →
        Vb6Rx.reMatchS true Vb6Rx.reType (Vb6.stripComments s) = none →
        Vb6Rx.reMatchS true Vb6Rx.reValues (Vb6.stripComments s) = none →
        Vb6Rx.reMatchS true Vb6Rx.reFunction (Vb6.stripComments s) = none →
        Vb6Rx.reMatchS true Vb6Rx.reSub (Vb6.stripComments s) = none →
        Vb6Rx.reMatchS true Vb6Rx.reEnum (Vb6.stripComments s) = none →
        Vb6Rx.reMatchS true Vb6Rx.reEnumMem (Vb6.stripComments s) = none →
        Vb6.endFunctionFound s = false → Vb6.endSubFound s = false →
        Vb6.endTypeFound s = false → Vb6.endEnumFound s = false →
        Vb6.endPropertyFound s = false →
        Vb6.processLineCls st s = Except.ok st ∧
          Vb6.processLineBas st s = Except.ok st) :=
  ⟨Vb6.parse_ok_or_indexError,
   fun st s h1 h2 h3 h4 h5 h6 h7 h8 h9 h10 h11 h12 h13 h14 =>
     Vb6.processLine_unmatched st s h1 h2 h3 h4 h5 h6 h7 h8 h9 h10 h11 h12
       h13 h14⟩

/-- Witness for C1: the line `zzz ???` matches nothing and is dropped
unchanged from an empty class scan state. -/
theorem c1_parse_total_unmatched_dropped_witness :
    Vb6.processLineCls
      ⟨newElem "C" CodeElementType.CLASS "void" false
        CodeElementAccessibility.UNDEF "" false [], Vb6.ScanMode.top, none⟩
      "zzz ???\n" =
      Except.ok
        ⟨newElem "C" CodeElementType.CLASS "void" false
          CodeElementAccessibility.UNDEF "" false [], Vb6.ScanMode.top,
          none⟩ :=
  (c1_parse_total_unmatched_dropped.2 _ "zzz ???\n" rfl rfl rfl rfl rfl rfl
    rfl rfl rfl rfl rfl rfl rfl rfl).1

/-- C1 counterexample: a lone `Property Let` with an empty argument list
makes `parse` raise `IndexError` (`args_list[0]` on an empty list), so
parsing is not error-free for every input. -/
theorem c1_counterexample :
    Vb6.parse Vb6.Vb6ModuleType.CLASS ["Property Let Foo()\n"] =
      Except.error PErr.indexError := rfl

/-! ## Argument lists of comma-separated plain names (for the
`_build_args_list` counting property) -/

/-- Characters of a plain lower-case identifier. -/
def okNameChar (c : Char) : Bool := 97 ≤ c.toNat && c.toNat ≤ 122

/-- Comma-joined rendering of an argument-name list. -/
def renderNames : List (List Char) → List Char
  | [] => []
  | [n] => n
  | n :: rest => n ++ ',' :: renderNames rest

theorem okNameChar_range {c : Char} (h : okNameChar c = true) :
    97 ≤ c.toNat ∧ c.toNat ≤ 122 := by
  simp only [okNameChar, Bool.and_eq_true, decide_eq_true_eq] at h
  exact h

theorem okNameChar_not_space {c : Char} (h : okNameChar c = true) :
    Py.isSpace c = false :=
  Py.isSpace_of_range_false (by have := okNameChar_range h; omega)

theorem okNameChar_toLower {c : Char} (h : okNameChar c = true) :
    c.toLower = c := by
  have hr := okNameChar_range h
  unfold Char.toLower
  simp only []
  rw [if_neg (by omega)]

theorem okNameChar_ne {c d : Char} (h : okNameChar c = true)
    (hd : d.toNat < 97) : ¬ c = d := by
  intro he
  subst he
  have := okNameChar_range h
  omega

theorem okNameChar_wordChar {c : Char} (h : okNameChar c = true) :
    Vb6Rx.wordChar c = true := by
  have hr := okNameChar_range h
  have h1 : (97 : UInt32) ≤ c.val := by
    rw [UInt32.le_def, BitVec.le_def]
    exact hr.1
  have h2 : c.val ≤ (122 : UInt32) := by
    rw [UInt32.le_def, BitVec.le_def]
    exact hr.2
  unfold Vb6Rx.wordChar Char.isAlphanum Char.isAlpha Char.isLower
  rw [decide_eq_true h1, decide_eq_true h2]
  simp

theorem okNameChar_evalCls_wordChar {c : Char} (h : okNameChar c = true) :
    Rex.evalCls true Vb6Rx.wordChar c = true := by
  unfold Rex.evalCls
  rw [okNameChar_wordChar h]
  rfl

/-- A lower-case identifier character neither equals nor case-folds to
any given ASCII punctuation character. -/
theorem okNameChar_ciChar_false {c d : Char} (h : okNameChar c = true)
    (hd : d.toNat < 97) (hdl : d.toLower = d) :
    Rex.ciChar true d c = false := by
  unfold Rex.ciChar
  rw [if_pos rfl, hdl, okNameChar_toLower h]
  exact beq_eq_false_iff_ne.mpr (fun he => okNameChar_ne h hd he.symm)


namespace Rex

theorem head?_append_of_ne_nil {α : Type} (l1 l2 : List α) (h : l1 ≠ []) :
    (l1 ++ l2).head? = l1.head? := by
  cases l1 with
  | nil => exact absurd rfl h
  | cons a l => rfl

theorem eq_cons_of_head?_eq_some {α : Type} {l : List α} {a : α}
    (h : l.head? = some a) : ∃ t, l = a :: t := by
  cases l with
  | nil => simp at h
  | cons x t =>
      rw [List.head?_cons] at h
      injection h with h
      subst h
      exact ⟨t, rfl⟩

theorem pymatches_star_ne_nil (ci : Bool) (a : RE) (s : List Char)
    (caps : Caps) : pymatches ci (RE.star a) s caps ≠ [] := by
  rw [pymatches_star]
  simp

theorem pymatches_cls_fail (ci : Bool) (p : Char → Bool) (s : List Char)
    (caps : Caps) (h : ∀ d s1, s = d :: s1 → evalCls ci p d = false) :
    pymatches ci (RE.cls p) s caps = [] := by
  cases s with
  | nil => exact pymatches_cls_nil ci p caps
  | cons d s1 => rw [pymatches_cls_cons, if_neg (by simp [h d s1 rfl])]

theorem pymatches_ch_fail (ci : Bool) (c : Char) (s : List Char)
    (caps : Caps) (h : ∀ d s1, s = d :: s1 → ciChar ci c d = false) :
    pymatches ci (RE.ch c) s caps = [] := by
  cases s with
  | nil => exact pymatches_ch_nil ci c caps
  | cons d s1 => rw [pymatches_ch_cons, if_neg (by simp [h d s1 rfl])]

theorem pymatches_seq_nil_left (ci : Bool) (a b : RE) (s : List Char)
    (caps : Caps) (h : pymatches ci a s caps = []) :
    pymatches ci (RE.seq a b) s caps = [] := by
  rw [pymatches_seq, h]
  rfl

theorem pymatches_opt_of_nil (ci : Bool) (a : RE) (s : List Char)
    (caps : Caps) (h : pymatches ci a s caps = []) :
    pymatches ci (RE.opt a) s caps = [(caps, s)] := by
  rw [pymatches_opt, h]
  rfl

theorem pymatches_group_of_nil (ci : Bool) (g : Nat) (a : RE)
    (s : List Char) (caps : Caps) (h : pymatches ci a s caps = []) :
    pymatches ci (RE.group g a) s caps = [] := by
  rw [pymatches_group, h]
  rfl

/-- Greedy star of a class over a maximal run: the preferred match
consumes the whole run. -/
theorem pymatches_star_cls_head (ci : Bool) (p : Char → Bool) :
    ∀ (n rest : List Char) (caps : Caps),
      (∀ c ∈ n, evalCls ci p c = true) →
      (∀ c r2, rest = c :: r2 → evalCls ci p c = false) →
      (pymatches ci (RE.star (RE.cls p)) (n ++ rest) caps).head? =
        some (caps, rest) := by
  intro n
  induction n with
  | nil =>
      intro rest caps h1 h2
      rw [List.nil_append, pymatches_star,
        pymatches_cls_fail ci p rest caps h2]
      rfl
  | cons c n1 ih =>
      intro rest caps h1 h2
      rw [List.cons_append, pymatches_star, pymatches_cls_cons,
        if_pos (h1 c (List.mem_cons_self c n1))]
      simp only [List.flatMap_cons, List.flatMap_nil, List.append_nil]
      rw [if_pos (by simp)]
      rw [head?_append_of_ne_nil _ _ (pymatches_star_ne_nil ci _ _ _)]
      exact ih rest caps (fun x hx => h1 x (List.mem_cons_of_mem c hx)) h2

/-- `+` of a class over a maximal non-empty run. -/
theorem pymatches_rplus_cls_head (ci : Bool) (p : Char → Bool)
    (n rest : List Char) (caps : Caps) (hn : n ≠ [])
    (h1 : ∀ c ∈ n, evalCls ci p c = true)
    (h2 : ∀ c r2, rest = c :: r2 → evalCls ci p c = false) :
    (pymatches ci (Vb6Rx.rplus (RE.cls p)) (n ++ rest) caps).head? =
      some (caps, rest) := by
  cases n with
  | nil => exact absurd rfl hn
  | cons c n1 =>
      rw [show Vb6Rx.rplus (RE.cls p) =
          RE.seq (RE.cls p) (RE.star (RE.cls p)) from rfl,
        pymatches_seq, List.cons_append, pymatches_cls_cons,
        if_pos (h1 c (List.mem_cons_self c n1))]
      simp only [List.flatMap_cons, List.flatMap_nil, List.append_nil]
      exact pymatches_star_cls_head ci p n1 rest caps
        (fun x hx => h1 x (List.mem_cons_of_mem c hx)) h2

theorem flatMap_eps (ci : Bool) :
    ∀ (l : List (Caps × List Char)),
      l.flatMap (fun q => pymatches ci RE.eps q.2 q.1) = l
  | [] => rfl
  | q :: l => by
      rw [List.flatMap_cons, pymatches_eps, flatMap_eps ci l]
      rfl

end Rex

namespace Vb6Rx

open Rex

theorem pymatches_rseq_cons (ci : Bool) (e : RE) (l : List RE)
    (s : List Char) (caps : Caps) :
    pymatches ci (rseq (e :: l)) s caps =
      (pymatches ci e s caps).flatMap
        (fun q => pymatches ci (rseq l) q.2 q.1) :=
  pymatches_seq ci e (rseq l) s caps

theorem pymatches_rseq_cons_nil (ci : Bool) (e : RE) (l : List RE)
    (s : List Char) (caps : Caps) (h : pymatches ci e s caps = []) :
    pymatches ci (rseq (e :: l)) s caps = [] := by
  rw [pymatches_rseq_cons, h]
  rfl

theorem pymatches_wsStar_id (ci : Bool) (s : List Char) (caps : Caps)
    (h : ∀ c s1, s = c :: s1 → Py.isSpace c = false) :
    pymatches ci wsStar s caps = [(caps, s)] := by
  rw [show (wsStar : RE) = RE.star (RE.cls Py.isSpace) from rfl,
    pymatches_star,
    pymatches_cls_fail ci Py.isSpace s caps (by
      intro d s1 hds
      rw [evalCls_isSpace]
      exact h d s1 hds)]
  rfl

theorem pymatches_wsPlus_fail (ci : Bool) (s : List Char) (caps : Caps)
    (h : ∀ c s1, s = c :: s1 → Py.isSpace c = false) :
    pymatches ci wsPlus s caps = [] := by
  rw [show (wsPlus : RE) =
      RE.seq (RE.cls Py.isSpace) (RE.star (RE.cls Py.isSpace)) from rfl]
  apply pymatches_seq_nil_left
  apply pymatches_cls_fail
  intro d s1 hds
  rw [evalCls_isSpace]
  exact h d s1 hds

/-- A keyword pattern cannot match any input containing no whitespace at
all (the mandatory `\s+` has nothing to consume). -/
theorem pymatches_kwWs_nospace (ci : Bool) (w : String) (s : List Char)
    (caps : Caps) (h : ∀ c ∈ s, Py.isSpace c = false) :
    pymatches ci (kwWs w) s caps = [] := by
  rw [List.eq_nil_iff_forall_not_mem]
  intro q hq
  obtain ⟨hc, t1, t2, hs, hmap, ht2ne, ht2sp⟩ :=
    pymatches_kwWs ci w s caps q hq
  cases t2 with
  | nil => exact ht2ne rfl
  | cons c t2a =>
      have hcs : c ∈ s := by
        rw [hs]
        simp
      have h1 := ht2sp c (List.mem_cons_self c t2a)
      rw [h c hcs] at h1
      exact Bool.noConfusion h1

end Vb6Rx

/-- After the argument-name group, on a remainder that is empty or a
comma followed by more text, the optional type, default and
trailing-comma parts of `_ARG_RE` evaluate to: consume the comma when
present (preferred), else nothing. -/
theorem reArg_tail_eval (rest : List Char) (caps : Rex.Caps)
    (hr : rest = [] ∨ ∃ r2, rest = ',' :: r2) :
    Rex.pymatches true
      (Vb6Rx.rseq [Vb6Rx.valTypeRE 6,
        Rex.RE.opt (Vb6Rx.rseq [Vb6Rx.wsStar, Rex.RE.ch '=', Vb6Rx.wsStar,
          Rex.RE.group 7 (Rex.RE.alt Vb6Rx.strLitRE
            (Vb6Rx.rplus (Rex.RE.cls (fun c => c != ',' && c != ')'))))]),
        Rex.RE.opt (Rex.RE.ch ',')]) rest caps =
      (if rest = [] then [(caps, ([] : List Char))]
       else [(caps, rest.tail), (caps, rest)]) := by
  have hheadf : ∀ c s1, rest = c :: s1 → Py.isSpace c = false := by
    intro c s1 hcs
    rcases hr with h | ⟨r2, h⟩
    · rw [h] at hcs
      simp at hcs
    · rw [h] at hcs
      injection hcs with h1 h2
      subst h1
      decide
  have heqf : ∀ c s1, rest = c :: s1 → Rex.ciChar true '=' c = false := by
    intro c s1 hcs
    rcases hr with h | ⟨r2, h⟩
    · rw [h] at hcs
      simp at hcs
    · rw [h] at hcs
      injection hcs with h1 h2
      subst h1
      decide
  have hvt : Rex.pymatches true (Vb6Rx.valTypeRE 6) rest caps =
      [(caps, rest)] := by
    rw [show Vb6Rx.valTypeRE 6 = Rex.RE.opt (Vb6Rx.rseq [Vb6Rx.wsPlus,
      Vb6Rx.rlits "As", Vb6Rx.wsPlus,
      Rex.RE.group 6 (Vb6Rx.rplus (Rex.RE.cls Vb6Rx.wordDotChar))]) from rfl]
    exact Rex.pymatches_opt_of_nil _ _ _ _
      (Vb6Rx.pymatches_rseq_cons_nil _ _ _ _ _
        (Vb6Rx.pymatches_wsPlus_fail _ _ _ hheadf))
  have hdf : Rex.pymatches true
      (Rex.RE.opt (Vb6Rx.rseq [Vb6Rx.wsStar, Rex.RE.ch '=', Vb6Rx.wsStar,
        Rex.RE.group 7 (Rex.RE.alt Vb6Rx.strLitRE
          (Vb6Rx.rplus (Rex.RE.cls (fun c => c != ',' && c != ')'))))]))
      rest caps = [(caps, rest)] := by
    apply Rex.pymatches_opt_of_nil
    rw [Vb6Rx.pymatches_rseq_cons,
      Vb6Rx.pymatches_wsStar_id true rest caps hheadf]
    simp only [List.flatMap_cons, List.flatMap_nil, List.append_nil]
    exact Vb6Rx.pymatches_rseq_cons_nil _ _ _ _ _
      (Rex.pymatches_ch_fail _ _ _ _ heqf)
  rw [Vb6Rx.pymatches_rseq_cons, hvt]
  simp only [List.flatMap_cons, List.flatMap_nil, List.append_nil]
  rw [Vb6Rx.pymatches_rseq_cons, hdf]
  simp only [List.flatMap_cons, List.flatMap_nil, List.append_nil]
  rw [Vb6Rx.pymatches_rseq_cons]
  rcases hr with rfl | ⟨r2, rfl⟩
  · rw [Rex.pymatches_opt_of_nil _ _ _ _ (Rex.pymatches_ch_nil true ',' caps)]
    simp only [List.flatMap_cons, List.flatMap_nil, List.append_nil]
    rw [show Vb6Rx.rseq [] = Rex.RE.eps from rfl, Rex.pymatches_eps]
    rfl
  · rw [Rex.pymatches_opt, Rex.pymatches_ch_cons, if_pos (by decide),
      show Vb6Rx.rseq [] = Rex.RE.eps from rfl, Rex.flatMap_eps]
    rfl

/-- The preferred match of `_ARG_RE` against a plain name followed by
nothing or by a comma and more text: group 4 captures the whole name and
the comma, when present, is consumed. -/
theorem reArg_head (n rest : List Char) (hn : n ≠ [])
    (hok : ∀ c ∈ n, okNameChar c = true)
    (hr : rest = [] ∨ ∃ r2, rest = ',' :: r2)
    (hnos : ∀ c ∈ rest, Py.isSpace c = false) :
    (Rex.pymatches true Vb6Rx.reArg (n ++ rest) []).head? =
      some ([(4, n)], rest.tail) := by
  have hsns : ∀ c ∈ n ++ rest, Py.isSpace c = false := by
    intro c hc
    rcases List.mem_append.mp hc with h | h
    · exact okNameChar_not_space (hok c h)
    · exact hnos c h
  have hshead : ∀ c s1, n ++ rest = c :: s1 → Py.isSpace c = false := by
    intro c s1 hcs
    exact hsns c (by rw [hcs]; exact List.mem_cons_self c s1)
  have hresthead : ∀ c r2, rest = c :: r2 →
      Rex.evalCls true Vb6Rx.wordChar c = false := by
    intro c r2 hcs
    rcases hr with h | ⟨r3, h⟩
    · rw [h] at hcs
      simp at hcs
    · rw [h] at hcs
      injection hcs with h1 h2
      subst h1
      decide
  have hparf : ∀ c s1, rest = c :: s1 → Rex.ciChar true '(' c = false := by
    intro c s1 hcs
    rcases hr with h | ⟨r3, h⟩
    · rw [h] at hcs
      simp at hcs
    · rw [h] at hcs
      injection hcs with h1 h2
      subst h1
      decide
  rw [show Vb6Rx.reArg = Vb6Rx.rseq [Vb6Rx.wsStar,
    Rex.RE.opt (Rex.RE.group 1 (Vb6Rx.kwWs "Optional")),
    Rex.RE.opt (Rex.RE.group 2 (Rex.RE.alt (Vb6Rx.kwWs "ByVal")
      (Vb6Rx.kwWs "ByRef"))),
    Rex.RE.opt (Rex.RE.group 3 (Vb6Rx.kwWs "ParamArray")),
    Vb6Rx.valNameRE 4 5, Vb6Rx.valTypeRE 6,
    Rex.RE.opt (Vb6Rx.rseq [Vb6Rx.wsStar, Rex.RE.ch '=', Vb6Rx.wsStar,
      Rex.RE.group 7 (Rex.RE.alt Vb6Rx.strLitRE
        (Vb6Rx.rplus (Rex.RE.cls (fun c => c != ',' && c != ')'))))]),
    Rex.RE.opt (Rex.RE.ch ',')] from rfl]
  rw [Vb6Rx.pymatches_rseq_cons,
    Vb6Rx.pymatches_wsStar_id true (n ++ rest) [] hshead]
  simp only [List.flatMap_cons, List.flatMap_nil, List.append_nil]
  rw [Vb6Rx.pymatches_rseq_cons,
    Rex.pymatches_opt_of_nil _ _ _ _ (Rex.pymatches_group_of_nil _ _ _ _ _
      (Vb6Rx.pymatches_kwWs_nospace true "Optional" _ _ hsns))]
  simp only [List.flatMap_cons, List.flatMap_nil, List.append_nil]
  rw [Vb6Rx.pymatches_rseq_cons,
    Rex.pymatches_opt_of_nil _ _ _ _ (Rex.pymatches_group_of_nil _ _ _ _ _
      (by
        rw [Rex.pymatches_alt,
          Vb6Rx.pymatches_kwWs_nospace true "ByVal" _ _ hsns,
          Vb6Rx.pymatches_kwWs_nospace true "ByRef" _ _ hsns]
        rfl))]
  simp only [List.flatMap_cons, List.flatMap_nil, List.append_nil]
  rw [Vb6Rx.pymatches_rseq_cons,
    Rex.pymatches_opt_of_nil _ _ _ _ (Rex.pymatches_group_of_nil _ _ _ _ _
      (Vb6Rx.pymatches_kwWs_nospace true "ParamArray" _ _ hsns))]
  simp only [List.flatMap_cons, List.flatMap_nil, List.append_nil]
  rw [Vb6Rx.pymatches_rseq_cons]
  rw [show Vb6Rx.valNameRE 4 5 = Rex.RE.seq (Vb6Rx.nameRE 4)
    (Rex.RE.opt (Rex.RE.group 5 (Vb6Rx.rseq [Rex.RE.ch '(',
      Rex.RE.star (Rex.RE.cls (fun c => c != ')')), Rex.RE.ch ')'])))
    from rfl]
  rw [Rex.pymatches_seq]
  rw [show Vb6Rx.nameRE 4 =
    Rex.RE.group 4 (Vb6Rx.rplus (Rex.RE.cls Vb6Rx.wordChar)) from rfl]
  rw [Rex.pymatches_group]
  have hRhead : (Rex.pymatches true (Vb6Rx.rplus
      (Rex.RE.cls Vb6Rx.wordChar)) (n ++ rest) []).head? =
      some ([], rest) :=
    Rex.pymatches_rplus_cls_head true Vb6Rx.wordChar n rest [] hn
      (fun c hc => okNameChar_evalCls_wordChar (hok c hc)) hresthead
  obtain ⟨Rtl, hR⟩ := Rex.eq_cons_of_head?_eq_some hRhead
  rw [hR, List.map_cons, List.flatMap_cons]
  have htaken : (n ++ rest).take ((n ++ rest).length - rest.length) = n := by
    rw [List.length_append, show n.length + rest.length - rest.length =
      n.length from by omega, List.take_left]
  have hopt5 : Rex.pymatches true
      (Rex.RE.opt (Rex.RE.group 5 (Vb6Rx.rseq [Rex.RE.ch '(',
        Rex.RE.star (Rex.RE.cls (fun c => c != ')')), Rex.RE.ch ')'])))
      rest (Rex.setCap [] 4 ((n ++ rest).take
        ((n ++ rest).length - rest.length))) =
      [(Rex.setCap [] 4 ((n ++ rest).take
        ((n ++ rest).length - rest.length)), rest)] :=
    Rex.pymatches_opt_of_nil _ _ _ _
      (Rex.pymatches_group_of_nil _ _ _ _ _
        (Vb6Rx.pymatches_rseq_cons_nil _ _ _ _ _
          (Rex.pymatches_ch_fail _ _ _ _ hparf)))
  rw [hopt5, List.singleton_append, List.flatMap_cons]
  rw [reArg_tail_eval rest _ hr, htaken]
  rcases hr with rfl | ⟨r2, rfl⟩
  · rw [Rex.head?_append_of_ne_nil _ _ (by split <;> simp)]
    rfl
  · rw [Rex.head?_append_of_ne_nil _ _ (by split <;> simp)]
    rfl

theorem renderNames_chars :
    ∀ (names : List (List Char)) (c : Char),
      (∀ na ∈ names, ∀ d ∈ na, okNameChar d = true) →
      c ∈ renderNames names → c = ',' ∨ okNameChar c = true
  | [], c, _, hc => by simp [renderNames] at hc
  | [n], c, h, hc => by
      rw [show renderNames [n] = n from rfl] at hc
      exact Or.inr (h n (List.mem_singleton.mpr rfl) c hc)
  | n :: n2 :: rest, c, h, hc => by
      rw [show renderNames (n :: n2 :: rest) =
        n ++ ',' :: renderNames (n2 :: rest) from rfl] at hc
      rcases List.mem_append.mp hc with h1 | h1
      · exact Or.inr (h n (List.mem_cons_self n (n2 :: rest)) c h1)
      · rcases List.mem_cons.mp h1 with h2 | h2
        · exact Or.inl h2
        · exact renderNames_chars (n2 :: rest) c
            (fun na hna d hd => h na (List.mem_cons_of_mem n hna) d hd) h2

theorem renderNames_nospace (names : List (List Char)) (c : Char)
    (h : ∀ na ∈ names, ∀ d ∈ na, okNameChar d = true)
    (hc : c ∈ renderNames names) : Py.isSpace c = false := by
  rcases renderNames_chars names c h hc with h1 | h1
  · subst h1
    decide
  · exact okNameChar_not_space h1

/-- `findall` over a comma-joined list of plain names yields exactly one
match per name, capturing the name as group 4. -/
theorem findall_renderNames :
    ∀ (names : List (List Char)),
      (∀ na ∈ names, na ≠ [] ∧ ∀ c ∈ na, okNameChar c = true) →
      names ≠ [] →
      Rex.findall true Vb6Rx.reArg (renderNames names) =
        names.map (fun na => [(4, na)])
  | [], _, hne => absurd rfl hne
  | [n], hwf, _ => by
      obtain ⟨hn, hok⟩ := hwf n (List.mem_singleton.mpr rfl)
      cases hne2 : n with
      | nil => exact absurd hne2 hn
      | cons c n1 =>
          subst hne2
          rw [show renderNames [c :: n1] = c :: n1 from rfl,
            Rex.findall_cons]
          have hh := reArg_head (c :: n1) [] (by simp) hok (Or.inl rfl)
            (by intro x hx; simp at hx)
          rw [List.append_nil] at hh
          rw [hh]
          dsimp only
          rw [if_pos (by simp)]
          rw [show Rex.findall true Vb6Rx.reArg ([] : List Char).tail = []
            from rfl]
          rfl
  | n :: n2 :: rest, hwf, _ => by
      obtain ⟨hn, hok⟩ := hwf n (List.mem_cons_self n (n2 :: rest))
      have hwfR : ∀ na ∈ n2 :: rest,
          na ≠ [] ∧ ∀ c ∈ na, okNameChar c = true :=
        fun na hna => hwf na (List.mem_cons_of_mem n hna)
      have hokR : ∀ na ∈ n2 :: rest, ∀ c ∈ na, okNameChar c = true :=
        fun na hna => (hwfR na hna).2
      cases hne2 : n with
      | nil => exact absurd hne2 hn
      | cons c n1 =>
          subst hne2
          rw [show renderNames ((c :: n1) :: n2 :: rest) =
            (c :: n1) ++ ',' :: renderNames (n2 :: rest) from rfl,
            List.cons_append, Rex.findall_cons]
          have hh := reArg_head (c :: n1) (',' :: renderNames (n2 :: rest))
            (by simp) hok (Or.inr ⟨_, rfl⟩) (by
              intro x hx
              rcases List.mem_cons.mp hx with h1 | h1
              · subst h1
                decide
              · exact renderNames_nospace (n2 :: rest) x hokR h1)
          rw [List.cons_append] at hh
          rw [hh]
          dsimp only
          rw [List.tail_cons]
          rw [if_pos (by
            simp only [List.length_append, List.length_cons]
            omega)]
          rw [findall_renderNames (n2 :: rest) hwfR (by simp)]
          rfl

theorem count_comma_renderNames :
    ∀ (names : List (List Char)),
      (∀ na ∈ names, ∀ c ∈ na, okNameChar c = true) → names ≠ [] →
      (renderNames names).count ',' + 1 = names.length
  | [], _, hne => absurd rfl hne
  | [n], h, _ => by
      rw [show renderNames [n] = n from rfl,
        List.count_eq_zero.mpr (by
          intro hc
          have hr := okNameChar_range (h n (List.mem_singleton.mpr rfl)
            ',' hc)
          have h44 : (',').toNat = 44 := rfl
          omega)]
      rfl
  | n :: n2 :: rest, h, _ => by
      have ih := count_comma_renderNames (n2 :: rest)
        (fun na hna => h na (List.mem_cons_of_mem n hna)) (by simp)
      rw [show renderNames (n :: n2 :: rest) =
        n ++ ',' :: renderNames (n2 :: rest) from rfl,
        List.count_append, List.count_cons_self,
        List.count_eq_zero.mpr (by
          intro hc
          have hr := okNameChar_range
            (h n (List.mem_cons_self n (n2 :: rest)) ',' hc)
          have h44 : (',').toNat = 44 := rfl
          omega)]
      simp only [List.length_cons] at ih ⊢
      omega

/-- C8 (corrected): per parsed argument, the by-reference flag is true
exactly when the captured by-value/by-reference keyword group, stripped
and lowered, is not `byval` — by-reference is the default for every
argument string.  The `count(parsed) = commas + 1` half holds on
comma-separated lists of plain identifiers (each parsed argument also
defaulting to by-reference), but not for every non-empty string. -/
theorem c8_args_byref_default_and_count :
    (∀ (argsStr : String) (a : CodeElementArgument),
        a ∈ Vb6.buildArgsList argsStr →
        ∃ item ∈ Vb6Rx.findallS true Vb6Rx.reArg (Py.strip argsStr),
          a.is_reference =
            (Py.lower (Py.strip (Vb6Rx.mgrpD item 2)) != "byval"))
  ∧ (∀ (names : List (List Char)),
        (∀ na ∈ names, na ≠ [] ∧ ∀ c ∈ na, okNameChar c = true) →
        names ≠ [] →
        (Vb6.buildArgsList (String.mk (renderNames names))).length =
          (renderNames names).count ',' + 1 ∧
        ∀ a ∈ Vb6.buildArgsList (String.mk (renderNames names)),
          a.is_reference = true) := by
  constructor
  · intro argsStr a ha
    simp only [Vb6.buildArgsList, List.mem_map] at ha
    obtain ⟨item, hitem, hfa⟩ := ha
    subst hfa
    exact ⟨item, hitem, rfl⟩
  · intro names hwf hne
    have hok : ∀ na ∈ names, ∀ c ∈ na, okNameChar c = true :=
      fun na hna => (hwf na hna).2
    have hns : ∀ c ∈ renderNames names, Py.isSpace c = false :=
      fun c hc => renderNames_nospace names c hok hc
    have hstrip : Py.strip (String.mk (renderNames names)) =
        String.mk (renderNames names) := by
      rw [show Py.strip (String.mk (renderNames names)) =
        String.mk (Py.stripChars (renderNames names)) from rfl,
        Py.stripChars_of_forall_not _ hns]
    have hfind : Vb6Rx.findallS true Vb6Rx.reArg
        (String.mk (renderNames names)) =
        names.map (fun na => [(4, na)]) :=
      findall_renderNames names hwf hne
    constructor
    · simp only [Vb6.buildArgsList]
      rw [hstrip, hfind, List.length_map, List.length_map]
      exact (count_comma_renderNames names hok hne).symm
    · intro a ha
      simp only [Vb6.buildArgsList, List.mem_map] at ha
      obtain ⟨item, hitem, hfa⟩ := ha
      rw [hstrip, hfind] at hitem
      obtain ⟨na, hna, hit2⟩ := List.mem_map.mp hitem
      subst hit2
      subst hfa
      rfl

/-- C8 counterexample: the string `","` contains one comma but parses to
no argument at all (the `\w+` name is mandatory), so the parsed count is
0, not `commas + 1 = 2`. -/
theorem c8_counterexample :
    Vb6.buildArgsList "," = [] ∧ ",".data.count ',' + 1 = 2 :=
  ⟨rfl, rfl⟩

/-- Witness for C8: `a,b` parses to two arguments (one comma), and the
sole argument of `ByVal x` carries the captured `ByVal ` keyword. -/
theorem c8_args_byref_default_and_count_witness :
    ((Vb6.buildArgsList (String.mk (renderNames [['a'], ['b']]))).length =
      (renderNames [['a'], ['b']]).count ',' + 1)
  ∧ ∃ item ∈ Vb6Rx.findallS true Vb6Rx.reArg (Py.strip "ByVal x"),
      ({ name := "x", type := "Variant", is_reference := false,
         is_optional := false, is_vlargs := false, is_kwargs := false,
         default_value := "default", is_str := false } :
        CodeElementArgument).is_reference =
        (Py.lower (Py.strip (Vb6Rx.mgrpD item 2)) != "byval") :=
  ⟨(c8_args_byref_default_and_count.2 [['a'], ['b']] (by decide)
      (by decide)).1,
   c8_args_byref_default_and_count.1 "ByVal x" _ (by
     rw [show Vb6.buildArgsList "ByVal x" =
       [(⟨"x", "Variant", false, false, false, false, "default", false⟩ :
         CodeElementArgument)] from rfl]
     exact List.mem_singleton.mpr rfl)⟩
